import Mathlib

/-!
Verification of the embedded-database persistence engine of open-notebook.

This file shallowly embeds the SQLite repository layer
(src/open_notebook/database/sqlite_repository.py) and the command table
service (src/open_notebook/services/command_table_service.py):

- `Value` models the JSON-like values the repository moves around (Python
  scalars, lists and dicts; floats are out of scope).  Python dicts are
  insertion-ordered association lists (`Dict`), with assignment, lookup and
  pop mirrored by `dset`, `dget`, `dpop`.
- Python exceptions are modelled by `PyErr`; a function that can raise
  returns `Except PyErr`.  Exception wrapping (`raise X from e`) keeps the
  cause.
- The SQLite database is modelled by `DB`: named tables with a declared
  column list and stored rows; `sqlInsert`, `sqlSelectById`, `sqlUpdateById`
  and `sqlDeleteById` model the only SQL shapes the repository issues on its
  own, including the operational error for a missing table or column and the
  integrity error for a duplicate id (the id column is the PRIMARY KEY; the
  schema script itself, sqlite_schema.sql, is not part of the sources).
- The query translator `parse_surreal_query` and the execution-side rewrite
  in `repo_query` are embedded with hand-written matchers that follow the
  Python regular expressions of the source, including greedy/lazy
  backtracking order and word boundaries.
- The stdlib pair json.dumps / json.loads is modelled by `json_dumps` /
  `json_loads`: an executable renderer in Python default format (", " and
  ": " separators) and an executable parser, with the round trip proven.
  The ensure_ascii escaping of non-ASCII characters is not modelled; it
  does not affect the round-trip property.

Nondeterministic inputs of the source (uuid4 tokens, datetime.now) are
passed explicitly: each create consumes a `token`, timestamps are `now`
arguments.
-/

namespace ONote

/-- Values of the JSON-like data the repository stores and returns: Python
None, bool, int, str, list and dict (floats are out of scope of this
model). A dict is an insertion-ordered association list. -/
inductive Value where
  | null
  | bool (b : Bool)
  | int (n : Int)
  | str (s : String)
  | list (xs : List Value)
  | obj (kvs : List (String × Value))
deriving Repr

mutual

/-- Boolean structural equality on `Value` (used to build decidable equality;
the derive handler does not cover this nested inductive). -/
def Value.beq : Value → Value → Bool
  | .null, .null => true
  | .bool a, .bool b => a == b
  | .int a, .int b => a == b
  | .str a, .str b => a == b
  | .list xs, .list ys => Value.beqList xs ys
  | .obj xs, .obj ys => Value.beqObj xs ys
  | _, _ => false

/-- Pointwise `Value.beq` on lists. -/
def Value.beqList : List Value → List Value → Bool
  | [], [] => true
  | x :: xs, y :: ys => Value.beq x y && Value.beqList xs ys
  | _, _ => false

/-- Pointwise `Value.beq` on key-value lists. -/
def Value.beqObj : List (String × Value) → List (String × Value) → Bool
  | [], [] => true
  | (k, v) :: xs, (l, w) :: ys => k == l && Value.beq v w && Value.beqObj xs ys
  | _, _ => false

end

mutual

/-- Characterisation of `Value.beq` as propositional equality. -/
theorem Value.beq_iff : ∀ a b : Value, Value.beq a b = true ↔ a = b
  | .null, b => by cases b <;> simp [Value.beq]
  | .bool x, b => by cases b <;> simp [Value.beq]
  | .int x, b => by cases b <;> simp [Value.beq]
  | .str x, b => by cases b <;> simp [Value.beq]
  | .list xs, b => by
      cases b <;> simp [Value.beq]
      exact Value.beqList_iff xs _
  | .obj xs, b => by
      cases b <;> simp [Value.beq]
      exact Value.beqObj_iff xs _

/-- List version of `Value.beq_iff`. -/
theorem Value.beqList_iff : ∀ xs ys : List Value, Value.beqList xs ys = true ↔ xs = ys
  | [], ys => by cases ys <;> simp [Value.beqList]
  | x :: xs, ys => by
      cases ys with
      | nil => simp [Value.beqList]
      | cons y ys =>
          simp [Value.beqList, Value.beq_iff x y, Value.beqList_iff xs ys]

/-- Key-value-list version of `Value.beq_iff`. -/
theorem Value.beqObj_iff : ∀ xs ys : List (String × Value), Value.beqObj xs ys = true ↔ xs = ys
  | [], ys => by cases ys <;> simp [Value.beqObj]
  | (k, v) :: xs, ys => by
      cases ys with
      | nil => simp [Value.beqObj]
      | cons y ys =>
          obtain ⟨l, w⟩ := y
          simp [Value.beqObj, Value.beq_iff v w, Value.beqObj_iff xs ys, and_assoc]

end

instance : DecidableEq Value := fun a b =>
  decidable_of_iff (Value.beq a b = true) (Value.beq_iff a b)

/-- Python truthiness of a `Value`: None, False, 0, empty string, empty list
and empty dict are falsy, everything else truthy. -/
def pyTruthy : Value → Bool
  | .null => false
  | .bool b => b
  | .int n => n != 0
  | .str s => s != ""
  | .list xs => !xs.isEmpty
  | .obj kvs => !kvs.isEmpty

/-- Python dict model: an insertion-ordered association list with unique keys. -/
abbrev Dict := List (String × Value)

/-- Dict lookup, d.get(k): the value stored under the key, if any. -/
def dget (d : Dict) (k : String) : Option Value :=
  (d.find? (fun kv => kv.1 = k)).map (fun kv => kv.2)

/-- Dict assignment d[k] = v: updates the entry holding the key in place
when one exists (a Python dict holds each key at most once), otherwise
appends it at the end (Python dicts keep insertion order). -/
def dset : Dict → String → Value → Dict
  | [], k, v => [(k, v)]
  | e :: d, k, v => if e.1 = k then (k, v) :: d else e :: dset d k v

/-- Dict removal d.pop(k, None): drops the entry with the key, if present. -/
def dpop (d : Dict) (k : String) : Dict :=
  d.filter (fun kv => kv.1 ≠ k)

/-- Whether a dict has an entry under the key. -/
def dhas (d : Dict) (k : String) : Bool :=
  d.any (fun kv => kv.1 = k)

/-- Python exceptions raised by the embedded layer. `runtimeError` carries the
optional cause set by raise-from. -/
inductive PyErr where
  | valueError (msg : String)
  | integrityError (msg : String)
  | operationalError (msg : String)
  | programmingError (msg : String)
  | notImplementedError (msg : String)
  | runtimeError (msg : String) (cause : Option PyErr)
deriving Repr

/-- Boolean structural equality on `PyErr` (nested through Option, so the
derive handler does not apply). -/
def PyErr.beq : PyErr → PyErr → Bool
  | .valueError a, .valueError b => a == b
  | .integrityError a, .integrityError b => a == b
  | .operationalError a, .operationalError b => a == b
  | .programmingError a, .programmingError b => a == b
  | .notImplementedError a, .notImplementedError b => a == b
  | .runtimeError a ca, .runtimeError b cb =>
      a == b && (match ca, cb with
        | none, none => true
        | some x, some y => PyErr.beq x y
        | _, _ => false)
  | _, _ => false

/-- Characterisation of `PyErr.beq` as propositional equality. -/
theorem PyErr.beqPE_iff : ∀ a b : PyErr, PyErr.beq a b = true ↔ a = b
  | .valueError a, b => by cases b <;> simp [PyErr.beq]
  | .integrityError a, b => by cases b <;> simp [PyErr.beq]
  | .operationalError a, b => by cases b <;> simp [PyErr.beq]
  | .programmingError a, b => by cases b <;> simp [PyErr.beq]
  | .notImplementedError a, b => by cases b <;> simp [PyErr.beq]
  | .runtimeError a ca, .valueError b => by simp [PyErr.beq]
  | .runtimeError a ca, .integrityError b => by simp [PyErr.beq]
  | .runtimeError a ca, .operationalError b => by simp [PyErr.beq]
  | .runtimeError a ca, .programmingError b => by simp [PyErr.beq]
  | .runtimeError a ca, .notImplementedError b => by simp [PyErr.beq]
  | .runtimeError a ca, .runtimeError b cb => by
      cases ca with
      | none => cases cb <;> simp [PyErr.beq]
      | some x =>
          cases cb with
          | none => simp [PyErr.beq]
          | some y => simp [PyErr.beq, PyErr.beqPE_iff x y]

instance : DecidableEq PyErr := fun a b =>
  decidable_of_iff (PyErr.beq a b = true) (PyErr.beqPE_iff a b)

instance {ε α : Type} [DecidableEq ε] [DecidableEq α] : DecidableEq (Except ε α) :=
  fun x y =>
  match x, y with
  | .ok a, .ok b =>
      if h : a = b then .isTrue (by rw [h]) else .isFalse (fun hh => by cases hh; exact h rfl)
  | .error a, .error b =>
      if h : a = b then .isTrue (by rw [h]) else .isFalse (fun hh => by cases hh; exact h rfl)
  | .ok _, .error _ => .isFalse (fun hh => by cases hh)
  | .error _, .ok _ => .isFalse (fun hh => by cases hh)

/-- Character class of the identifier pattern [A-Za-z_][A-Za-z0-9_]*, first
character. -/
def isIdentFirst (c : Char) : Bool :=
  c.isAlpha || c = '_'

/-- Character class of the identifier pattern, continuation characters. -/
def isIdentRest (c : Char) : Bool :=
  c.isAlpha || c.isDigit || c = '_'

/-- Whether a string fully matches the strict identifier pattern _IDENT_RE
of the source (letters, digits, underscores, not starting with a digit,
nonempty). -/
def isValidIdent (s : String) : Bool :=
  match s.data with
  | [] => false
  | c :: cs => isIdentFirst c && cs.all isIdentRest

/-- Embeds _validate_identifier: returns the name or raises ValueError.
The source formats the message with repr quoting; the quoting is not
reproduced here. -/
def validate_identifier (name : String) : Except PyErr String :=
  if isValidIdent name then .ok name
  else .error (.valueError ("Invalid SQL identifier: " ++ name))

/-- Lower-case hexadecimal digit character for a value below 16. -/
def hexDigitChar (n : Nat) : Char :=
  if n < 10 then Char.ofNat (48 + n) else Char.ofNat (87 + n)

/-- JSON escaping of one character, as Python json.dumps writes it: the
two-character escapes for quote, backslash and the common controls, a
\u00XX escape for the remaining control characters below 0x20, and the
character itself otherwise (ensure_ascii escaping of non-ASCII characters
is not modelled; it does not change the round trip). -/
def jsonEscapeChar (c : Char) : List Char :=
  if c = '"' then ['\\', '"']
  else if c = '\\' then ['\\', '\\']
  else if c = '\n' then ['\\', 'n']
  else if c = '\r' then ['\\', 'r']
  else if c = '\t' then ['\\', 't']
  else if c = '\x08' then ['\\', 'b']
  else if c = '\x0c' then ['\\', 'f']
  else if c.toNat < 32 then
    ['\\', 'u', '0', '0', hexDigitChar (c.toNat / 16), hexDigitChar (c.toNat % 16)]
  else [c]

/-- Rendered JSON string: quote, escaped characters, quote. -/
def jsonQuoteStr (s : String) : List Char :=
  '"' :: (s.data.flatMap jsonEscapeChar ++ ['"'])

/-- Decimal digit characters of a natural number, most significant first. -/
def natChars (n : Nat) : List Char :=
  if n < 10 then [Char.ofNat (48 + n % 10)]
  else natChars (n / 10) ++ [Char.ofNat (48 + n % 10)]
termination_by n
decreasing_by
  exact Nat.div_lt_self (by omega) (by omega)

/-- Decimal characters of an integer: optional minus sign, then digits. -/
def intChars (i : Int) : List Char :=
  if i < 0 then '-' :: natChars i.natAbs else natChars i.natAbs

mutual

/-- Renders a `Value` in the format of Python json.dumps with its default
separators (a space after each comma and colon). -/
def jsonRender : Value → List Char
  | .null => 'n' :: 'u' :: 'l' :: 'l' :: []
  | .bool true => 't' :: 'r' :: 'u' :: 'e' :: []
  | .bool false => 'f' :: 'a' :: 'l' :: 's' :: 'e' :: []
  | .int n => intChars n
  | .str s => jsonQuoteStr s
  | .list xs => '[' :: (jsonRenderElems xs ++ [']'])
  | .obj ms => '\x7b' :: (jsonRenderMembers ms ++ ['\x7d'])

/-- Renders array elements, comma-space separated. -/
def jsonRenderElems : List Value → List Char
  | [] => []
  | x :: xs => jsonRender x ++ jsonRenderElemsTail xs

/-- Renders the remaining array elements, each after a comma and a space. -/
def jsonRenderElemsTail : List Value → List Char
  | [] => []
  | x :: xs => ',' :: ' ' :: (jsonRender x ++ jsonRenderElemsTail xs)

/-- Renders object members, comma-space separated, colon-space after keys. -/
def jsonRenderMembers : List (String × Value) → List Char
  | [] => []
  | (k, v) :: ms => jsonQuoteStr k ++ ':' :: ' ' :: (jsonRender v ++ jsonRenderMembersTail ms)

/-- Renders the remaining object members, each after a comma and a space. -/
def jsonRenderMembersTail : List (String × Value) → List Char
  | [] => []
  | (k, v) :: ms =>
      ',' :: ' ' :: (jsonQuoteStr k ++ ':' :: ' ' :: (jsonRender v ++ jsonRenderMembersTail ms))

end

/-- Model of Python json.dumps restricted to the float-free value domain. -/
def json_dumps (v : Value) : String :=
  String.mk (jsonRender v)

/-- Whitespace characters the JSON parser skips. -/
def isJsonWs (c : Char) : Bool :=
  c = ' ' || c = '\t' || c = '\n' || c = '\r'

/-- Drops leading JSON whitespace. -/
def skipJsonWs : List Char → List Char
  | c :: cs => if isJsonWs c then skipJsonWs cs else c :: cs
  | [] => []

/-- Numeric value of a hexadecimal digit character. -/
def hexValC (c : Char) : Option Nat :=
  if '0' ≤ c ∧ c ≤ '9' then some (c.toNat - 48)
  else if 'a' ≤ c ∧ c ≤ 'f' then some (c.toNat - 87)
  else if 'A' ≤ c ∧ c ≤ 'F' then some (c.toNat - 55)
  else none

/-- Unescaping of a single-character JSON escape. -/
def jsonUnescape (e : Char) : Option Char :=
  if e = 'n' then some '\n'
  else if e = 't' then some '\t'
  else if e = 'r' then some '\r'
  else if e = '"' then some '"'
  else if e = '\\' then some '\\'
  else if e = '/' then some '/'
  else if e = 'b' then some '\x08'
  else if e = 'f' then some '\x0c'
  else none

/-- Parses the body of a JSON string after the opening quote, accumulating
the characters read so far in reverse. -/
def parseJsonStr (acc : List Char) : List Char → Option (String × List Char)
  | '"' :: rest => some (String.mk acc.reverse, rest)
  | '\\' :: 'u' :: a :: b :: c :: d :: rest =>
      match hexValC a, hexValC b, hexValC c, hexValC d with
      | some va, some vb, some vc, some vd =>
          parseJsonStr (Char.ofNat (((va * 16 + vb) * 16 + vc) * 16 + vd) :: acc) rest
      | _, _, _, _ => none
  | '\\' :: e :: rest =>
      match jsonUnescape e with
      | some ch => parseJsonStr (ch :: acc) rest
      | none => none
  | c :: rest => parseJsonStr (c :: acc) rest
  | [] => none

/-- Splits off the maximal run of decimal digit characters. -/
def takeDigits : List Char → List Char × List Char
  | c :: cs =>
      if c.isDigit then
        let p := takeDigits cs
        (c :: p.1, p.2)
      else ([], c :: cs)
  | [] => ([], [])

/-- Numeric value of a run of decimal digit characters. -/
def digitsVal (ds : List Char) : Nat :=
  ds.foldl (fun a c => a * 10 + (c.toNat - 48)) 0

mutual

/-- Recursive JSON parser on a fuel bound; model of the value grammar
accepted by Python json.loads, sufficient for every rendered value. -/
def parseJson (fuel : Nat) (cs : List Char) : Option (Value × List Char) :=
  match fuel with
  | 0 => none
  | fuel + 1 =>
    match cs with
    | 'n' :: 'u' :: 'l' :: 'l' :: r => some (.null, r)
    | 't' :: 'r' :: 'u' :: 'e' :: r => some (.bool true, r)
    | 'f' :: 'a' :: 'l' :: 's' :: 'e' :: r => some (.bool false, r)
    | '"' :: r => (parseJsonStr [] r).map (fun p => (.str p.1, p.2))
    | '[' :: r =>
        (match skipJsonWs r with
         | [] => none
         | c :: r2 =>
             if c = ']' then some (.list [], r2)
             else (parseJsonElems fuel (c :: r2)).map (fun p => (.list p.1, p.2)))
    | '\x7b' :: r =>
        (match skipJsonWs r with
         | [] => none
         | c :: r2 =>
             if c = '\x7d' then some (.obj [], r2)
             else (parseJsonMembers fuel (c :: r2)).map (fun p => (.obj p.1, p.2)))
    | '-' :: r =>
        (match takeDigits r with
         | ([], _) => none
         | (ds, r2) => some (.int (-(digitsVal ds : Int)), r2))
    | c :: r =>
        if c.isDigit then
          (match takeDigits (c :: r) with
           | (ds, r2) => some (.int (digitsVal ds : Int), r2))
        else none
    | [] => none

/-- Parses one or more comma-separated array elements up to the closing
bracket. -/
def parseJsonElems (fuel : Nat) (cs : List Char) : Option (List Value × List Char) :=
  match fuel with
  | 0 => none
  | fuel + 1 =>
    match parseJson fuel cs with
    | none => none
    | some (v, r) =>
        match skipJsonWs r with
        | [] => none
        | c :: r2 =>
            if c = ',' then
              (parseJsonElems fuel (skipJsonWs r2)).map (fun p => (v :: p.1, p.2))
            else if c = ']' then some ([v], r2)
            else none

/-- Parses one or more comma-separated object members up to the closing
brace. -/
def parseJsonMembers (fuel : Nat) (cs : List Char) :
    Option (List (String × Value) × List Char) :=
  match fuel with
  | 0 => none
  | fuel + 1 =>
    match cs with
    | [] => none
    | c0 :: r =>
        if c0 = '"' then
          (match parseJsonStr [] r with
           | none => none
           | some (k, r1) =>
               match skipJsonWs r1 with
               | [] => none
               | c1 :: r2 =>
                   if c1 = ':' then
                     (match parseJson fuel (skipJsonWs r2) with
                      | none => none
                      | some (v, r3) =>
                          match skipJsonWs r3 with
                          | [] => none
                          | c2 :: r4 =>
                              if c2 = ',' then
                                (parseJsonMembers fuel (skipJsonWs r4)).map
                                  (fun p => ((k, v) :: p.1, p.2))
                              else if c2 = '\x7d' then some ([(k, v)], r4)
                              else none)
                   else none)
        else none

end

mutual

/-- Fuel bound sufficient to parse a rendered value. -/
def jfuel : Value → Nat
  | .null => 1
  | .bool _ => 1
  | .int _ => 1
  | .str _ => 1
  | .list xs => 1 + jfuelElems xs
  | .obj ms => 1 + jfuelMembers ms

/-- Fuel bound for an element list. -/
def jfuelElems : List Value → Nat
  | [] => 0
  | x :: xs => 1 + jfuel x + jfuelElems xs

/-- Fuel bound for a member list. -/
def jfuelMembers : List (String × Value) → Nat
  | [] => 0
  | (_, v) :: ms => 1 + jfuel v + jfuelMembers ms

end

/-- Model of Python json.loads on the same value domain: parses one value and
requires only whitespace after it. Its behaviour on strings that are not
rendered values is a best-effort model; the repository only relies on it to
invert json.dumps, which is proven below. -/
def json_loads (s : String) : Option Value :=
  match parseJson (s.data.length + 1) (skipJsonWs s.data) with
  | some (v, r) => if skipJsonWs r = [] then some v else none
  | none => none

/-- Holds when a character list cannot extend a digit run: empty or headed
by a non-digit. -/
def noDigitHead : List Char → Bool
  | [] => true
  | c :: _ => !c.isDigit

/-! Round trip of the JSON codec: every digit, string, and structural lemma
needed for json_loads (json_dumps v) = some v. -/

/-- Decimal digit characters carry their value and are digits. -/
theorem digitChar_spec (k : Nat) (h : k < 10) :
    (Char.ofNat (48 + k)).isDigit = true ∧ (Char.ofNat (48 + k)).toNat - 48 = k := by
  interval_cases k <;> exact ⟨by decide, by decide⟩

/-- Unfolds `natChars` with the last digit split off. -/
theorem natChars_unfold (n : Nat) :
    natChars n = (if n < 10 then [] else natChars (n / 10)) ++ [Char.ofNat (48 + n % 10)] := by
  rw [natChars.eq_def]
  by_cases h : n < 10 <;> simp [h]

/-- Digit runs are nonempty. -/
theorem natChars_ne_nil (n : Nat) : natChars n ≠ [] := by
  rw [natChars_unfold]; simp

/-- Every character of a digit run is a digit. -/
theorem natChars_digits (n : Nat) : ∀ c ∈ natChars n, c.isDigit = true := by
  induction n using Nat.strongRecOn with
  | ind n ih =>
      rw [natChars_unfold]
      intro c hc
      rcases List.mem_append.mp hc with h | h
      · by_cases h10 : n < 10
        · simp [h10] at h
        · exact ih (n / 10) (Nat.div_lt_self (by omega) (by omega)) c (by simpa [h10] using h)
      · rw [List.mem_singleton] at h
        subst h
        exact (digitChar_spec _ (Nat.mod_lt _ (by omega))).1

/-- Reading back a digit run returns its number. -/
theorem digitsVal_natChars (n : Nat) : digitsVal (natChars n) = n := by
  induction n using Nat.strongRecOn with
  | ind n ih =>
      rw [natChars_unfold]
      by_cases h : n < 10
      · simp only [if_pos h, List.nil_append, digitsVal, List.foldl_cons, List.foldl_nil]
        rw [(digitChar_spec _ (Nat.mod_lt _ (by omega))).2]
        omega
      · simp only [if_neg h, digitsVal, List.foldl_append, List.foldl_cons, List.foldl_nil]
        have := ih (n / 10) (Nat.div_lt_self (by omega) (by omega))
        rw [digitsVal] at this
        rw [this, (digitChar_spec _ (Nat.mod_lt _ (by omega))).2]
        omega

/-- A digit run begins with a digit character. -/
theorem natChars_cons (n : Nat) :
    ∃ c t, natChars n = c :: t ∧ c.isDigit = true := by
  match h : natChars n with
  | [] => exact absurd h (natChars_ne_nil n)
  | c :: t => exact ⟨c, t, rfl, natChars_digits n c (h ▸ List.mem_cons_self ..)⟩

/-- The digit splitter stops immediately at a non-digit head. -/
theorem takeDigits_stop {cs : List Char} (h : noDigitHead cs = true) :
    takeDigits cs = ([], cs) := by
  match cs with
  | [] => rfl
  | c :: t =>
      simp only [noDigitHead, Bool.not_eq_true'] at h
      simp [takeDigits, h]

/-- The digit splitter consumes exactly a digit run followed by a stopper. -/
theorem takeDigits_run (ds : List Char) (hds : ∀ c ∈ ds, c.isDigit = true)
    (rest : List Char) (hrest : noDigitHead rest = true) :
    takeDigits (ds ++ rest) = (ds, rest) := by
  induction ds with
  | nil => simpa using takeDigits_stop hrest
  | cons c t ih =>
      have hc : c.isDigit = true := hds c (by simp)
      have ht := ih (fun x hx => hds x (by simp [hx]))
      simp [takeDigits, hc, ht]

/-- Hexadecimal digit characters decode to their value. -/
theorem hexValC_hexDigitChar (k : Nat) (h : k < 16) :
    hexValC (hexDigitChar k) = some k := by
  interval_cases k <;> decide

/-- Parsing one escaped character undoes its escape. -/
theorem parseJsonStr_escChar (c : Char) (acc rest : List Char) :
    parseJsonStr acc (jsonEscapeChar c ++ rest) = parseJsonStr (c :: acc) rest := by
  rw [jsonEscapeChar.eq_def]
  by_cases h1 : c = '"'
  · subst h1; rfl
  rw [if_neg h1]
  by_cases h2 : c = '\\'
  · subst h2; rfl
  rw [if_neg h2]
  by_cases h3 : c = '\n'
  · subst h3; rfl
  rw [if_neg h3]
  by_cases h4 : c = '\r'
  · subst h4; rfl
  rw [if_neg h4]
  by_cases h5 : c = '\t'
  · subst h5; rfl
  rw [if_neg h5]
  by_cases h6 : c = '\x08'
  · subst h6; rfl
  rw [if_neg h6]
  by_cases h7 : c = '\x0c'
  · subst h7; rfl
  rw [if_neg h7]
  by_cases h8 : c.toNat < 32
  · rw [if_pos h8]
    simp only [List.cons_append, List.nil_append]
    rw [parseJsonStr]
    have d1 : hexValC '0' = some 0 := by decide
    have d2 := hexValC_hexDigitChar (c.toNat / 16) (by omega)
    have d3 := hexValC_hexDigitChar (c.toNat % 16) (Nat.mod_lt _ (by omega))
    rw [d1, d2, d3]
    have harith : ((0 * 16 + 0) * 16 + c.toNat / 16) * 16 + c.toNat % 16 = c.toNat := by
      omega
    dsimp only
    rw [harith, Char.ofNat_toNat]
  · rw [if_neg h8]
    simp only [List.cons_append, List.nil_append]
    rw [parseJsonStr.eq_def]
    simp [h1, h2]

/-- Parsing an escaped body stops exactly at the closing quote and returns
the accumulated characters. -/
theorem parseJsonStr_body (cs : List Char) : ∀ (acc rest : List Char),
    parseJsonStr acc (cs.flatMap jsonEscapeChar ++ '"' :: rest)
      = some (String.mk (acc.reverse ++ cs), rest) := by
  induction cs with
  | nil => intro acc rest; simp [parseJsonStr]
  | cons c cs ih =>
      intro acc rest
      rw [List.flatMap_cons, List.append_assoc, parseJsonStr_escChar, ih]
      simp

/-- The string codec round trip: parsing a rendered string body after its
opening quote yields the original string. -/
theorem parseJsonStr_render (s : String) (rest : List Char) :
    parseJsonStr [] (s.data.flatMap jsonEscapeChar ++ '"' :: rest) = some (s, rest) := by
  rw [parseJsonStr_body]
  cases s
  rfl

/-- A digit character is none of the characters the parser dispatches on. -/
theorem digit_not_special {c : Char} (h : c.isDigit = true) :
    isJsonWs c = false ∧ c ≠ ']' ∧ c ≠ '\x7d' ∧ c ≠ ',' ∧ c ≠ 'n' ∧ c ≠ 't' ∧
      c ≠ 'f' ∧ c ≠ '"' ∧ c ≠ '[' ∧ c ≠ '\x7b' ∧ c ≠ '-' := by
  have hv : 48 ≤ c.toNat ∧ c.toNat ≤ 57 := by
    simp only [Char.isDigit, decide_eq_true_eq, Bool.and_eq_true] at h
    exact ⟨h.1, h.2⟩
  constructor
  · by_contra hws
    rw [Bool.not_eq_false] at hws
    simp only [isJsonWs, Bool.or_eq_true, decide_eq_true_eq] at hws
    rcases hws with ((he | he) | he) | he <;> (subst he; revert hv; decide)
  refine ⟨?_, ?_, ?_, ?_, ?_, ?_, ?_, ?_, ?_, ?_⟩ <;>
    (intro he; subst he; revert hv; decide)

/-- Every rendered value begins with a character that is not whitespace,
not a closing bracket or brace, and not a comma. -/
theorem jsonRender_head (v : Value) :
    ∃ c t, jsonRender v = c :: t ∧ isJsonWs c = false ∧ c ≠ ']' ∧ c ≠ '\x7d' ∧ c ≠ ',' := by
  cases v with
  | null => exact ⟨'n', _, rfl, by decide, by decide, by decide, by decide⟩
  | bool b =>
      cases b with
      | true => exact ⟨'t', _, rfl, by decide, by decide, by decide, by decide⟩
      | false => exact ⟨'f', _, rfl, by decide, by decide, by decide, by decide⟩
  | str s => exact ⟨'"', _, rfl, by decide, by decide, by decide, by decide⟩
  | list xs => exact ⟨'[', _, rfl, by decide, by decide, by decide, by decide⟩
  | obj ms => exact ⟨'\x7b', _, rfl, by decide, by decide, by decide, by decide⟩
  | int n =>
      by_cases hn : n < 0
      · refine ⟨'-', natChars n.natAbs, ?_, by decide, by decide, by decide, by decide⟩
        simp [jsonRender, intChars, hn]
      · obtain ⟨c, t, hct, hc⟩ := natChars_cons n.natAbs
        obtain ⟨hws, hbr, hbc, hcm, _⟩ := digit_not_special hc
        refine ⟨c, t, ?_, hws, hbr, hbc, hcm⟩
        simp [jsonRender, intChars, hn, hct]

/-- Skipping whitespace in front of a rendered value changes nothing. -/
theorem skipJsonWs_render (v : Value) (x : List Char) :
    skipJsonWs (jsonRender v ++ x) = jsonRender v ++ x := by
  obtain ⟨c, t, hct, hws, _, _, _⟩ := jsonRender_head v
  rw [hct, List.cons_append, skipJsonWs, if_neg (by simp [hws])]

/-- A rendered element tail followed by the closing bracket starts with a
non-digit. -/
theorem noDigitHead_elemsTail (xs : List Value) (rest : List Char) :
    noDigitHead (jsonRenderElemsTail xs ++ ']' :: rest) = true := by
  cases xs <;> simp [jsonRenderElemsTail, noDigitHead]

/-- A rendered member tail followed by the closing brace starts with a
non-digit. -/
theorem noDigitHead_membersTail (ms : List (String × Value)) (rest : List Char) :
    noDigitHead (jsonRenderMembersTail ms ++ '\x7d' :: rest) = true := by
  cases ms <;> simp [jsonRenderMembersTail, noDigitHead]

mutual

/-- Fuel bounds are dominated by rendered length. -/
theorem jfuel_le : ∀ v : Value, jfuel v ≤ (jsonRender v).length
  | .null => by simp [jfuel, jsonRender]
  | .bool b => by cases b <;> simp [jfuel, jsonRender]
  | .int n => by
      have h1 : (natChars n.natAbs).length ≥ 1 := by
        cases h : natChars n.natAbs with
        | nil => exact absurd h (natChars_ne_nil _)
        | cons c t => simp
      by_cases hn : n < 0 <;> simp [jfuel, jsonRender, intChars, hn] <;> omega
  | .str s => by simp [jfuel, jsonRender, jsonQuoteStr]
  | .list xs => by
      have := jfuelElems_le xs
      simp only [jfuel, jsonRender, List.length_cons, List.length_append,
        List.length_singleton]
      omega
  | .obj ms => by
      have := jfuelMembers_le ms
      simp only [jfuel, jsonRender, List.length_cons, List.length_append,
        List.length_singleton]
      omega

/-- Fuel bound for element lists, dominated by rendered length plus one. -/
theorem jfuelElems_le : ∀ xs : List Value, jfuelElems xs ≤ (jsonRenderElems xs).length + 1
  | [] => by simp [jfuelElems, jsonRenderElems]
  | x :: xs => by
      have h1 := jfuel_le x
      have h2 : jfuelElems xs ≤ (jsonRenderElemsTail xs).length := by
        cases xs with
        | nil => simp [jfuelElems, jsonRenderElemsTail]
        | cons y ys =>
            have := jfuelElems_le (y :: ys)
            simp only [jsonRenderElemsTail, jsonRenderElems, List.length_cons,
              List.length_append] at this ⊢
            omega
      simp only [jfuelElems, jsonRenderElems, List.length_append]
      omega

/-- Fuel bound for member lists, dominated by rendered length plus one. -/
theorem jfuelMembers_le :
    ∀ ms : List (String × Value), jfuelMembers ms ≤ (jsonRenderMembers ms).length + 1
  | [] => by simp [jfuelMembers, jsonRenderMembers]
  | (k, v) :: ms => by
      have h1 := jfuel_le v
      have h2 : jfuelMembers ms ≤ (jsonRenderMembersTail ms).length := by
        cases ms with
        | nil => simp [jfuelMembers, jsonRenderMembersTail]
        | cons m ms' =>
            obtain ⟨k', v'⟩ := m
            have := jfuelMembers_le ((k', v') :: ms')
            simp only [jsonRenderMembersTail, jsonRenderMembers, List.length_cons,
              List.length_append] at this ⊢
            omega
      simp only [jfuelMembers, jsonRenderMembers, List.length_append, List.length_cons]
      omega

end

/-- Definitional unfolding of the parser at an opening quote. -/
theorem parseJson_quote (fuel : Nat) (r : List Char) :
    parseJson (fuel + 1) ('"' :: r)
      = (parseJsonStr [] r).map (fun p => (Value.str p.1, p.2)) := rfl

/-- Definitional unfolding of the parser at an opening bracket. -/
theorem parseJson_openArr (fuel : Nat) (r : List Char) :
    parseJson (fuel + 1) ('[' :: r)
      = (match skipJsonWs r with
         | [] => none
         | c :: r2 =>
             if c = ']' then some (.list [], r2)
             else (parseJsonElems fuel (c :: r2)).map (fun p => (Value.list p.1, p.2))) := rfl

/-- Definitional unfolding of the parser at an opening brace. -/
theorem parseJson_openObj (fuel : Nat) (r : List Char) :
    parseJson (fuel + 1) ('\x7b' :: r)
      = (match skipJsonWs r with
         | [] => none
         | c :: r2 =>
             if c = '\x7d' then some (.obj [], r2)
             else (parseJsonMembers fuel (c :: r2)).map (fun p => (Value.obj p.1, p.2))) := rfl

/-- Definitional unfolding of the parser at a minus sign. -/
theorem parseJson_dash (fuel : Nat) (r : List Char) :
    parseJson (fuel + 1) ('-' :: r)
      = (match takeDigits r with
         | ([], _) => none
         | (ds, r2) => some (.int (-(digitsVal ds : Int)), r2)) := rfl

/-- One-step unfolding of the element-list parser. -/
theorem parseJsonElems_step (fuel : Nat) (cs : List Char) :
    parseJsonElems (fuel + 1) cs
      = (match parseJson fuel cs with
         | none => none
         | some (v, r) =>
             match skipJsonWs r with
             | [] => none
             | c :: r2 =>
                 if c = ',' then
                   (parseJsonElems fuel (skipJsonWs r2)).map (fun p => (v :: p.1, p.2))
                 else if c = ']' then some ([v], r2)
                 else none) := rfl

/-- One-step unfolding of the member-list parser. -/
theorem parseJsonMembers_step (fuel : Nat) (cs : List Char) :
    parseJsonMembers (fuel + 1) cs
      = (match cs with
         | [] => none
         | c0 :: r =>
             if c0 = '"' then
               (match parseJsonStr [] r with
                | none => none
                | some (k, r1) =>
                    match skipJsonWs r1 with
                    | [] => none
                    | c1 :: r2 =>
                        if c1 = ':' then
                          (match parseJson fuel (skipJsonWs r2) with
                           | none => none
                           | some (v, r3) =>
                               match skipJsonWs r3 with
                               | [] => none
                               | c2 :: r4 =>
                                   if c2 = ',' then
                                     (parseJsonMembers fuel (skipJsonWs r4)).map
                                       (fun p => ((k, v) :: p.1, p.2))
                                   else if c2 = '\x7d' then some ([(k, v)], r4)
                                   else none)
                        else none)
             else none) := rfl

/-- Dispatch of the parser to the number branch at a digit head. -/
theorem parseJson_digitHead (fuel : Nat) (c : Char) (r : List Char)
    (hd : c.isDigit = true) :
    parseJson (fuel + 1) (c :: r)
      = some (.int (digitsVal (takeDigits (c :: r)).1 : Int), (takeDigits (c :: r)).2) := by
  obtain ⟨hws, hbr, hbc, hcm, hn, ht, hf, hq, hbk, hob, hm⟩ := digit_not_special hd
  simp [parseJson, hn, ht, hf, hq, hbk, hob, hm, hd]

/-- Rendering a nonempty element tail is a comma, a space, and the rendered
nonempty list. -/
theorem elemsTail_cons (x : Value) (xs : List Value) :
    jsonRenderElemsTail (x :: xs) = ',' :: ' ' :: jsonRenderElems (x :: xs) := rfl

/-- Rendering a nonempty member tail is a comma, a space, and the rendered
nonempty member list. -/
theorem membersTail_cons (k : String) (v : Value) (ms : List (String × Value)) :
    jsonRenderMembersTail ((k, v) :: ms) = ',' :: ' ' :: jsonRenderMembers ((k, v) :: ms) := rfl

/-- Rendered nonempty element lists do not begin with whitespace. -/
theorem skipJsonWs_renderElems (y : Value) (ys : List Value) (x : List Char) :
    skipJsonWs (jsonRenderElems (y :: ys) ++ x) = jsonRenderElems (y :: ys) ++ x := by
  simp only [jsonRenderElems, List.append_assoc]
  exact skipJsonWs_render y _

/-- Rendered nonempty member lists begin with a quote, not whitespace. -/
theorem skipJsonWs_renderMembers (k : String) (v : Value) (ms : List (String × Value))
    (x : List Char) :
    skipJsonWs (jsonRenderMembers ((k, v) :: ms) ++ x)
      = jsonRenderMembers ((k, v) :: ms) ++ x := by
  simp only [jsonRenderMembers, jsonQuoteStr, List.cons_append, List.append_assoc]
  rw [skipJsonWs, if_neg (by decide)]

mutual

/-- Round trip of the value codec: parsing a rendered value with enough fuel
recovers it exactly, leaving the remainder, whenever the remainder cannot
extend a digit run. -/
theorem parseJson_render : ∀ (v : Value) (fuel : Nat) (rest : List Char),
    jfuel v ≤ fuel → noDigitHead rest = true →
    parseJson fuel (jsonRender v ++ rest) = some (v, rest)
  | .null, fuel, rest, hf, _ => by
      cases fuel with
      | zero => simp [jfuel] at hf
      | succ f => simp [jsonRender, parseJson]
  | .bool b, fuel, rest, hf, _ => by
      cases fuel with
      | zero => simp [jfuel] at hf
      | succ f => cases b <;> simp [jsonRender, parseJson]
  | .int n, fuel, rest, hf, hr => by
      cases fuel with
      | zero => simp [jfuel] at hf
      | succ f =>
        by_cases hn : n < 0
        · have harg : jsonRender (.int n) ++ rest = '-' :: (natChars n.natAbs ++ rest) := by
            simp [jsonRender, intChars, hn]
          rw [harg, parseJson_dash, takeDigits_run _ (natChars_digits _) _ hr]
          obtain ⟨c, t, hct, _⟩ := natChars_cons n.natAbs
          have hds : digitsVal (c :: t) = n.natAbs := by
            rw [← hct, digitsVal_natChars]
          rw [hct]
          dsimp only
          simp only [hds, Option.some.injEq, Prod.mk.injEq, Value.int.injEq, and_true]
          omega
        · obtain ⟨c, t, hct, hcd⟩ := natChars_cons n.natAbs
          have harg : jsonRender (.int n) ++ rest = c :: (t ++ rest) := by
            simp [jsonRender, intChars, hn, hct]
          rw [harg, parseJson_digitHead f c (t ++ rest) hcd]
          have htd : takeDigits (c :: (t ++ rest)) = (c :: t, rest) := by
            have := takeDigits_run (natChars n.natAbs) (natChars_digits _) rest hr
            rwa [hct, List.cons_append] at this
          have hds : digitsVal (c :: t) = n.natAbs := by
            rw [← hct, digitsVal_natChars]
          rw [htd]
          simp only [hds, Option.some.injEq, Prod.mk.injEq, Value.int.injEq, and_true]
          omega
  | .str s, fuel, rest, hf, _ => by
      cases fuel with
      | zero => simp [jfuel] at hf
      | succ f =>
        have harg : jsonRender (.str s) ++ rest
            = '"' :: (s.data.flatMap jsonEscapeChar ++ '"' :: rest) := by
          simp [jsonRender, jsonQuoteStr]
        rw [harg, parseJson_quote, parseJsonStr_render]
        rfl
  | .list [], fuel, rest, hf, _ => by
      cases fuel with
      | zero => simp [jfuel, jfuelElems] at hf
      | succ f => simp [jsonRender, jsonRenderElems, parseJson, skipJsonWs, isJsonWs]
  | .list (x :: xs), fuel, rest, hf, _ => by
      cases fuel with
      | zero => simp [jfuel, jfuelElems] at hf
      | succ f =>
        have harg : jsonRender (.list (x :: xs)) ++ rest
            = '[' :: (jsonRenderElems (x :: xs) ++ ']' :: rest) := by
          simp [jsonRender]
        obtain ⟨c, t, hct, hws, hbr, _, _⟩ := jsonRender_head x
        have hcons : jsonRenderElems (x :: xs) ++ ']' :: rest
            = c :: (t ++ (jsonRenderElemsTail xs ++ ']' :: rest)) := by
          simp only [jsonRenderElems, hct, List.cons_append, List.append_assoc]
        have hskip : skipJsonWs (jsonRenderElems (x :: xs) ++ ']' :: rest)
            = jsonRenderElems (x :: xs) ++ ']' :: rest := by
          rw [hcons, skipJsonWs, if_neg (by simp [hws])]
        have hfe : jfuelElems (x :: xs) ≤ f := by
          simp only [jfuel] at hf; omega
        have key := parseJson_renderElems x xs f rest hfe
        rw [harg, parseJson_openArr, hskip, hcons]
        dsimp only
        rw [if_neg hbr, ← hcons, key]
        rfl
  | .obj [], fuel, rest, hf, _ => by
      cases fuel with
      | zero => simp [jfuel, jfuelMembers] at hf
      | succ f => simp [jsonRender, jsonRenderMembers, parseJson, skipJsonWs, isJsonWs]
  | .obj ((k, v) :: ms), fuel, rest, hf, _ => by
      cases fuel with
      | zero => simp [jfuel, jfuelMembers] at hf
      | succ f =>
        have harg : jsonRender (.obj ((k, v) :: ms)) ++ rest
            = '\x7b' :: (jsonRenderMembers ((k, v) :: ms) ++ '\x7d' :: rest) := by
          simp [jsonRender]
        have hskip : skipJsonWs (jsonRenderMembers ((k, v) :: ms) ++ '\x7d' :: rest)
            = jsonRenderMembers ((k, v) :: ms) ++ '\x7d' :: rest :=
          skipJsonWs_renderMembers k v ms _
        have hcons : jsonRenderMembers ((k, v) :: ms) ++ '\x7d' :: rest
            = '"' :: (k.data.flatMap jsonEscapeChar
                ++ ('"' :: (':' :: ' ' :: (jsonRender v
                      ++ (jsonRenderMembersTail ms ++ '\x7d' :: rest))))) := by
          simp [jsonRenderMembers, jsonQuoteStr, List.append_assoc]
        have hfm : jfuelMembers ((k, v) :: ms) ≤ f := by
          simp only [jfuel] at hf; omega
        have key := parseJson_renderMembers (k, v) ms f rest hfm
        rw [harg, parseJson_openObj, hskip, hcons]
        dsimp only
        rw [if_neg (show ¬('"' = '\x7d') by decide), ← hcons, key]
        rfl
  termination_by v fuel _ _ _ => fuel

/-- Round trip for nonempty element lists up to the closing bracket. -/
theorem parseJson_renderElems : ∀ (x : Value) (xs : List Value) (fuel : Nat)
    (rest : List Char), jfuelElems (x :: xs) ≤ fuel →
    parseJsonElems fuel (jsonRenderElems (x :: xs) ++ ']' :: rest) = some (x :: xs, rest)
  | x, xs, fuel, rest, hf => by
      cases fuel with
      | zero => simp [jfuelElems] at hf
      | succ f =>
        have harg : jsonRenderElems (x :: xs) ++ ']' :: rest
            = jsonRender x ++ (jsonRenderElemsTail xs ++ ']' :: rest) := by
          simp [jsonRenderElems, List.append_assoc]
        have hfx : jfuel x ≤ f := by simp only [jfuelElems] at hf; omega
        have hv := parseJson_render x f (jsonRenderElemsTail xs ++ ']' :: rest) hfx
          (noDigitHead_elemsTail xs rest)
        rw [parseJsonElems_step, harg, hv]
        cases xs with
        | nil => simp [jsonRenderElemsTail, skipJsonWs, isJsonWs]
        | cons y ys =>
            dsimp only
            rw [elemsTail_cons, List.cons_append, List.cons_append]
            rw [show skipJsonWs (',' :: (' ' :: (jsonRenderElems (y :: ys) ++ ']' :: rest)))
                  = ',' :: (' ' :: (jsonRenderElems (y :: ys) ++ ']' :: rest)) from by
              rw [skipJsonWs, if_neg (by decide)]]
            dsimp only
            rw [if_pos (show (',' : Char) = ',' from rfl)]
            rw [show skipJsonWs (' ' :: (jsonRenderElems (y :: ys) ++ ']' :: rest))
                  = jsonRenderElems (y :: ys) ++ ']' :: rest from by
              rw [skipJsonWs, if_pos (by decide)]
              exact skipJsonWs_renderElems y ys _]
            have hfy : jfuelElems (y :: ys) ≤ f := by
              simp only [jfuelElems] at hf ⊢; omega
            rw [parseJson_renderElems y ys f rest hfy]
            rfl
  termination_by _ _ fuel _ _ => fuel

/-- Round trip for nonempty member lists up to the closing brace. -/
theorem parseJson_renderMembers : ∀ (m : String × Value) (ms : List (String × Value))
    (fuel : Nat) (rest : List Char), jfuelMembers (m :: ms) ≤ fuel →
    parseJsonMembers fuel (jsonRenderMembers (m :: ms) ++ '\x7d' :: rest)
      = some (m :: ms, rest)
  | (k, v), ms, fuel, rest, hf => by
      cases fuel with
      | zero => simp [jfuelMembers] at hf
      | succ f =>
        have hcons : jsonRenderMembers ((k, v) :: ms) ++ '\x7d' :: rest
            = '"' :: (k.data.flatMap jsonEscapeChar
                ++ ('"' :: (':' :: ' ' :: (jsonRender v
                      ++ (jsonRenderMembersTail ms ++ '\x7d' :: rest))))) := by
          simp [jsonRenderMembers, jsonQuoteStr, List.append_assoc]
        have hfv : jfuel v ≤ f := by simp only [jfuelMembers] at hf; omega
        have hv := parseJson_render v f (jsonRenderMembersTail ms ++ '\x7d' :: rest) hfv
          (noDigitHead_membersTail ms rest)
        rw [parseJsonMembers_step, hcons]
        dsimp only
        rw [if_pos (show ('"' : Char) = '"' from rfl), parseJsonStr_render]
        dsimp only
        rw [show skipJsonWs (':' :: (' ' :: (jsonRender v
              ++ (jsonRenderMembersTail ms ++ '\x7d' :: rest))))
            = ':' :: (' ' :: (jsonRender v ++ (jsonRenderMembersTail ms ++ '\x7d' :: rest)))
          from by rw [skipJsonWs, if_neg (by decide)]]
        dsimp only
        rw [if_pos (show (':' : Char) = ':' from rfl)]
        rw [show skipJsonWs (' ' :: (jsonRender v
              ++ (jsonRenderMembersTail ms ++ '\x7d' :: rest)))
            = jsonRender v ++ (jsonRenderMembersTail ms ++ '\x7d' :: rest) from by
          rw [skipJsonWs, if_pos (by decide)]
          exact skipJsonWs_render v _]
        rw [hv]
        dsimp only
        cases ms with
        | nil => simp [jsonRenderMembersTail, skipJsonWs, isJsonWs]
        | cons m2 ms2 =>
            obtain ⟨k2, v2⟩ := m2
            rw [membersTail_cons, List.cons_append, List.cons_append]
            rw [show skipJsonWs (',' :: (' ' :: (jsonRenderMembers ((k2, v2) :: ms2)
                  ++ '\x7d' :: rest)))
                = ',' :: (' ' :: (jsonRenderMembers ((k2, v2) :: ms2) ++ '\x7d' :: rest))
              from by rw [skipJsonWs, if_neg (by decide)]]
            dsimp only
            rw [if_pos (show (',' : Char) = ',' from rfl)]
            rw [show skipJsonWs (' ' :: (jsonRenderMembers ((k2, v2) :: ms2)
                  ++ '\x7d' :: rest))
                = jsonRenderMembers ((k2, v2) :: ms2) ++ '\x7d' :: rest from by
              rw [skipJsonWs, if_pos (by decide)]
              exact skipJsonWs_renderMembers k2 v2 ms2 _]
            have hfm2 : jfuelMembers ((k2, v2) :: ms2) ≤ f := by
              simp only [jfuelMembers] at hf ⊢; omega
            rw [parseJson_renderMembers (k2, v2) ms2 f rest hfm2]
            rfl
  termination_by _ _ fuel _ _ => fuel

end

/-- Round trip of the modelled stdlib JSON codec: json.loads inverts
json.dumps on every value. -/
theorem json_loads_json_dumps (v : Value) : json_loads (json_dumps v) = some v := by
  have hlen : jfuel v ≤ (jsonRender v).length + 1 :=
    le_trans (jfuel_le v) (by omega)
  have hskip : skipJsonWs (jsonRender v) = jsonRender v := by
    have := skipJsonWs_render v []
    simpa using this
  have hparse : parseJson ((jsonRender v).length + 1) (jsonRender v ++ []) = some (v, []) :=
    parseJson_render v _ [] hlen (by decide)
  rw [List.append_nil] at hparse
  simp only [json_loads, json_dumps, hskip, hparse]
  rfl

mutual

/-- Embeds parse_record_ids of the source: recursively rebuilds dicts and
lists, leaving every other value as it is (the SQLite backend keeps ids as
plain strings, so there is no RecordID object to convert). -/
def parse_record_ids : Value → Value
  | .obj kvs => .obj (parse_record_ids_items kvs)
  | .list xs => .list (parse_record_ids_list xs)
  | v => v

/-- The dict comprehension inside parse_record_ids. -/
def parse_record_ids_items : List (String × Value) → List (String × Value)
  | [] => []
  | (k, v) :: rest => (k, parse_record_ids v) :: parse_record_ids_items rest

/-- The list comprehension inside parse_record_ids. -/
def parse_record_ids_list : List Value → List Value
  | [] => []
  | v :: rest => parse_record_ids v :: parse_record_ids_list rest

end

mutual

/-- Identity of the id normaliser, value form. -/
theorem parse_record_ids_eq : ∀ v : Value, parse_record_ids v = v
  | .null => rfl
  | .bool _ => rfl
  | .int _ => rfl
  | .str _ => rfl
  | .list xs => by rw [parse_record_ids, parse_record_ids_list_eq xs]
  | .obj kvs => by rw [parse_record_ids, parse_record_ids_items_eq kvs]

/-- Identity of the id normaliser, dict-items form. -/
theorem parse_record_ids_items_eq : ∀ kvs : List (String × Value),
    parse_record_ids_items kvs = kvs
  | [] => rfl
  | (k, v) :: rest => by
      rw [parse_record_ids_items, parse_record_ids_eq v, parse_record_ids_items_eq rest]

/-- Identity of the id normaliser, list form. -/
theorem parse_record_ids_list_eq : ∀ xs : List Value,
    parse_record_ids_list xs = xs
  | [] => rfl
  | v :: rest => by
      rw [parse_record_ids_list, parse_record_ids_eq v, parse_record_ids_list_eq rest]

end

/-! Query translator machinery: hand-written matchers for the regular
expressions of parse_surreal_query and repo_query, over character lists,
following the greedy/lazy backtracking order of the Python patterns. -/

/-- Word character of the Python regex \w (ASCII model). -/
def isWordChar (c : Char) : Bool :=
  c.isAlpha || c.isDigit || c = '_'

/-- Whitespace of the Python regex \s and of str.strip (ASCII model). -/
def isPySpace (c : Char) : Bool :=
  c = ' ' || c = '\t' || c = '\n' || c = '\r' || c = '\x0b' || c = '\x0c'

/-- Python str.strip(): drops leading and trailing whitespace. -/
def pyStrip (s : String) : String :=
  String.mk (((s.data.dropWhile isPySpace).reverse.dropWhile isPySpace).reverse)

/-- Case-insensitive literal match at the head of the input (the pattern is
given in lower case); returns the rest on success. -/
def ciDrop : List Char → List Char → Option (List Char)
  | [], s => some s
  | _ :: _, [] => none
  | p :: ps, c :: cs => if c.toLower = p then ciDrop ps cs else none

/-- Case-sensitive literal match at the head of the input. -/
def dropLiteral : List Char → List Char → Option (List Char)
  | [], s => some s
  | _ :: _, [] => none
  | p :: ps, c :: cs => if c = p then dropLiteral ps cs else none

/-- Matching a literal removes exactly its length. -/
theorem dropLiteral_length : ∀ (pat s rest : List Char),
    dropLiteral pat s = some rest → rest.length + pat.length = s.length
  | [], s, rest => by intro h; simp [dropLiteral] at h; simp [h]
  | p :: ps, [], rest => by intro h; simp [dropLiteral] at h
  | p :: ps, c :: cs, rest => by
      intro h
      simp only [dropLiteral] at h
      split at h
      · have := dropLiteral_length ps cs rest h
        simp only [List.length_cons]
        omega
      · exact absurd h (by simp)

/-- Matching a case-insensitive literal removes exactly its length. -/
theorem ciDrop_length : ∀ (pat s rest : List Char),
    ciDrop pat s = some rest → rest.length + pat.length = s.length
  | [], s, rest => by intro h; simp [ciDrop] at h; simp [h]
  | p :: ps, [], rest => by intro h; simp [ciDrop] at h
  | p :: ps, c :: cs, rest => by
      intro h
      simp only [ciDrop] at h
      split at h
      · have := ciDrop_length ps cs rest h
        simp only [List.length_cons]
        omega
      · exact absurd h (by simp)

/-- Word boundary of the Python regex \b after a match: the word-ness of the
previous character differs from that of the next one; the ends of the input
count as non-word. -/
def wordBoundary (prev : Char) (next : Option Char) : Bool :=
  match next with
  | none => isWordChar prev
  | some c => isWordChar prev != isWordChar c

/-- Matches the literal dollar-name at the head of the input with a word
boundary after it (the pattern of the variable substitution), returning the
rest. -/
def dollarNameAt (name : List Char) (s : List Char) : Option (List Char) :=
  match s with
  | [] => none
  | c :: s1 =>
      if c = '$' then
        match dropLiteral name s1 with
        | some rest =>
            if wordBoundary (name.getLastD '$') rest.head? then some rest else none
        | none => none
      else none

/-- A dollar-name match consumes at least the dollar sign. -/
theorem dollarNameAt_length (name s rest : List Char)
    (h : dollarNameAt name s = some rest) : rest.length < s.length := by
  rw [dollarNameAt.eq_def] at h
  split at h
  · exact absurd h (by simp)
  · rename_i c s1
    split at h
    · split at h
      · rename_i r0 hdl
        have := dropLiteral_length name s1 r0 hdl
        split at h
        · cases h
          simp only [List.length_cons]
          omega
        · exact absurd h (by simp)
      · exact absurd h (by simp)
    · exact absurd h (by simp)

/-- One re.sub pass replacing each dollar-name occurrence (with its word
boundary) by the colon-name form, scanning left to right, resuming after
each match. -/
def subVar (name : List Char) : List Char → List Char
  | [] => []
  | c :: cs =>
      match h : dollarNameAt name (c :: cs) with
      | some rest => ':' :: (name ++ subVar name rest)
      | none => c :: subVar name cs
termination_by s => s.length
decreasing_by
  · exact dollarNameAt_length name _ _ h
  · simp

/-- The variable-substitution loop of the source: one re.sub per bound
variable, in dict order. -/
def substAllVars (vars : Dict) (s : List Char) : List Char :=
  vars.foldl (fun acc kv => subVar kv.1.data acc) s

/-- Anchored match of the CREATE-CONTENT pattern: create, spaces, a word,
spaces, content, optional spaces, an opening brace (case-insensitive). -/
def matchesCreateContent (s : List Char) : Bool :=
  match ciDrop "create".data s with
  | none => false
  | some r1 =>
      if (r1.takeWhile isPySpace).isEmpty then false
      else
        let r2 := r1.dropWhile isPySpace
        if (r2.takeWhile isWordChar).isEmpty then false
        else
          let r3 := r2.dropWhile isWordChar
          if (r3.takeWhile isPySpace).isEmpty then false
          else
            match ciDrop "content".data (r3.dropWhile isPySpace) with
            | none => false
            | some r4 =>
                match r4.dropWhile isPySpace with
                | [] => false
                | c :: _ => c = '\x7b'

/-- Backtracking of the condition group of the DELETE pattern: the greedy
run of spaces before the dot-group shrinks from its maximum until at least
one non-newline character remains for the group, which then extends to the
end of the line. -/
def deleteCondTry (w : List Char) (r4 : List Char) : Nat → Option (List Char × List Char)
  | 0 => none
  | j + 1 =>
      let cond := (r4.drop (j + 1)).takeWhile (fun c => c ≠ '\n')
      if cond.isEmpty then deleteCondTry w r4 j else some (w, cond)

/-- Anchored match of the DELETE-WHERE pattern: delete, spaces, the table
word, spaces, where, spaces, the condition up to the end of the line
(case-insensitive); returns the table and the condition. -/
def matchDeleteWhere (s : List Char) : Option (List Char × List Char) :=
  match ciDrop "delete".data s with
  | none => none
  | some r1 =>
      if (r1.takeWhile isPySpace).isEmpty then none
      else
        let r2 := r1.dropWhile isPySpace
        let w := r2.takeWhile isWordChar
        if w.isEmpty then none
        else
          let r3 := r2.dropWhile isWordChar
          if (r3.takeWhile isPySpace).isEmpty then none
          else
            match ciDrop "where".data (r3.dropWhile isPySpace) with
            | none => none
            | some r4 => deleteCondTry w r4 (r4.takeWhile isPySpace).length

/-- Matches FROM, spaces, ONLY, spaces at the head (case-insensitive), the
word boundary before it given by the word-ness of the previous character;
returns the rest after the match. -/
def tryFromOnlyAt (prevWord : Bool) (s : List Char) : Option (List Char) :=
  if prevWord then none
  else
    match ciDrop "from".data s with
    | none => none
    | some r1 =>
        if (r1.takeWhile isPySpace).isEmpty then none
        else
          match ciDrop "only".data (r1.dropWhile isPySpace) with
          | none => none
          | some r2 =>
              if (r2.takeWhile isPySpace).isEmpty then none
              else some (r2.dropWhile isPySpace)

/-- A FROM-ONLY match consumes at least one character. -/
theorem tryFromOnlyAt_length (prevWord : Bool) (s rest : List Char)
    (h : tryFromOnlyAt prevWord s = some rest) : rest.length < s.length := by
  rw [tryFromOnlyAt.eq_def] at h
  split at h
  · exact absurd h (by simp)
  · split at h
    · exact absurd h (by simp)
    · rename_i r1 h1
      have hl1 := ciDrop_length _ s r1 h1
      split at h
      · exact absurd h (by simp)
      · split at h
        · exact absurd h (by simp)
        · rename_i r2 h2
          have hl2 := ciDrop_length _ _ r2 h2
          have hd1 : (r1.dropWhile isPySpace).length ≤ r1.length :=
            (List.dropWhile_sublist _).length_le
          split at h
          · exact absurd h (by simp)
          · cases h
            have hd2 : (r2.dropWhile isPySpace).length ≤ r2.length :=
              (List.dropWhile_sublist _).length_le
            have hfl : ("from".data.length) = 4 := rfl
            have hol : ("only".data.length) = 4 := rfl
            omega

/-- The re.sub scan replacing every FROM-ONLY occurrence by FROM and a
space, resuming after each match (the previous character there is the space
the match consumed last, so the next boundary check sees a non-word). -/
def subFromOnlyGo (prevWord : Bool) : List Char → List Char
  | [] => []
  | c :: cs =>
      match h : tryFromOnlyAt prevWord (c :: cs) with
      | some rest => 'F' :: 'R' :: 'O' :: 'M' :: ' ' :: subFromOnlyGo false rest
      | none => c :: subFromOnlyGo (isWordChar c) cs
termination_by s => s.length
decreasing_by
  · exact tryFromOnlyAt_length prevWord _ _ h
  · simp

/-- The FROM-ONLY rewrite of the translator over a whole query. -/
def subFromOnly (s : List Char) : List Char :=
  subFromOnlyGo false s

/-- Character class of the lazy group of the omit and fetch patterns: word
characters, dots, commas and whitespace. -/
def isClauseChar (c : Char) : Bool :=
  isWordChar c || c = '.' || c = ',' || isPySpace c

/-- Lookahead alternative: spaces, a keyword, spaces (case-insensitive). -/
def lookSpacesWord (word : List Char) (s : List Char) : Bool :=
  if (s.takeWhile isPySpace).isEmpty then false
  else
    match ciDrop word (s.dropWhile isPySpace) with
    | none => false
    | some r => !(r.takeWhile isPySpace).isEmpty

/-- Lookahead alternative: spaces then the end of the input (the Python
dollar anchor also matches just before a final newline, itself whitespace,
so the test is: nonempty and all whitespace). -/
def lookSpacesEnd (s : List Char) : Bool :=
  !s.isEmpty && s.all isPySpace

/-- The lookahead of the omit pattern. -/
def omitLookAhead (s : List Char) : Bool :=
  lookSpacesWord "from".data s || lookSpacesEnd s

/-- The lookahead of the fetch pattern, with the closing-parenthesis
alternative. -/
def fetchLookAhead (s : List Char) : Bool :=
  lookSpacesWord "from".data s || lookSpacesWord "order".data s ||
    lookSpacesWord "limit".data s || lookSpacesEnd s ||
    (match s with
     | [] => false
     | c :: _ => c = ')')

/-- First backtracking phase of the lazy clause group: the spaces after the
keyword are taken greedily (all of them), the group then grows lazily from
one character; the candidate endpoints after the keyword run from one past
the space run up to the end of the class run, ascending. -/
def clausePhase1 (r2 : List Char) (la : List Char → Bool) (e m : Nat) : Option Nat :=
  if e > m then none
  else if la (r2.drop e) then some e
  else clausePhase1 r2 la (e + 1) m
termination_by m + 1 - e
decreasing_by
  omega

/-- Second backtracking phase: the space run shrinks, each step freeing one
space the group then takes as its single character; endpoints descend from
the space-run length down to two characters after the keyword. -/
def clausePhase2 (r2 : List Char) (la : List Char → Bool) : Nat → Option Nat
  | 0 => none
  | 1 => none
  | e + 2 =>
      if la (r2.drop (e + 2)) then some (e + 2)
      else clausePhase2 r2 la (e + 1)

/-- Match of the omit or fetch clause pattern at the head of the input:
spaces, the keyword (case-insensitive), spaces, the lazy group of the class
characters, then the lookahead must hold. Returns the number of characters
the match consumes (the lookahead is zero-width) and the group text. -/
def clauseMatchAt (kw : List Char) (la : List Char → Bool) (s : List Char) :
    Option (Nat × List Char) :=
  let sp1 := (s.takeWhile isPySpace).length
  if sp1 = 0 then none
  else
    match ciDrop kw (s.dropWhile isPySpace) with
    | none => none
    | some r2 =>
        let k := (r2.takeWhile isPySpace).length
        if k = 0 then none
        else
          let m := (r2.takeWhile isClauseChar).length
          match clausePhase1 r2 la (k + 1) m with
          | some e => some (sp1 + kw.length + e, (r2.take e).drop k)
          | none =>
              match clausePhase2 r2 la k with
              | some e => some (sp1 + kw.length + e, (r2.take e).drop (e - 1))
              | none => none

/-- A clause match consumes at least its leading space. -/
theorem clauseMatchAt_pos (kw : List Char) (la : List Char → Bool)
    (s : List Char) (n : Nat) (g : List Char)
    (h : clauseMatchAt kw la s = some (n, g)) : 1 ≤ n := by
  rw [clauseMatchAt.eq_def] at h
  simp only [] at h
  split at h
  · exact absurd h (by simp)
  · rename_i hsp
    split at h
    · exact absurd h (by simp)
    · split at h
      · exact absurd h (by simp)
      · split at h
        · cases h
          omega
        · split at h
          · cases h
            omega
          · exact absurd h (by simp)

/-- The re.search of a clause pattern: the group of the leftmost match. -/
def clauseFirst (kw : List Char) (la : List Char → Bool) : List Char → Option (List Char)
  | [] => none
  | c :: cs =>
      match clauseMatchAt kw la (c :: cs) with
      | some p => some p.2
      | none => clauseFirst kw la cs

/-- The re.sub of a clause pattern with the empty replacement: removes every
non-overlapping match, resuming after each match. -/
def clauseRemoveAll (kw : List Char) (la : List Char → Bool) : List Char → List Char
  | [] => []
  | c :: cs =>
      match h : clauseMatchAt kw la (c :: cs) with
      | some p => clauseRemoveAll kw la ((c :: cs).drop p.1)
      | none => c :: clauseRemoveAll kw la cs
termination_by s => s.length
decreasing_by
  · have h1 := clauseMatchAt_pos kw la (c :: cs) p.1 p.2 (by rw [h])
    have h2 : ((c :: cs).drop p.1).length = (c :: cs).length - p.1 := by
      simp
    simp only [List.length_cons] at h2 ⊢
    omega
  · simp

/-- The omit clause search of the translator. -/
def omitClauseOf (s : List Char) : Option (List Char) :=
  clauseFirst "omit".data omitLookAhead s

/-- The omit clause removal of the translator. -/
def omitRemovedOf (s : List Char) : List Char :=
  clauseRemoveAll "omit".data omitLookAhead s

/-- The fetch clause search of the translator. -/
def fetchClauseOf (s : List Char) : Option (List Char) :=
  clauseFirst "fetch".data fetchLookAhead s

/-- The fetch clause removal of the translator. -/
def fetchRemovedOf (s : List Char) : List Char :=
  clauseRemoveAll "fetch".data fetchLookAhead s

/-- Splits a clause group on commas and strips each piece, as the source
does with the matched field list. -/
def splitStripFields (grp : List Char) : List String :=
  ((String.mk grp).splitOn ",").map pyStrip

/-- Match of an fn-call pattern at the head of the input: the function name
(case-insensitive), optional spaces, an opening parenthesis, and a closing
parenthesis later on the same line (the lazy dot group of the pattern
cannot cross a newline). -/
def fnCallAt (fname : List Char) (s : List Char) : Bool :=
  match ciDrop fname s with
  | none => false
  | some r1 =>
      match r1.dropWhile isPySpace with
      | [] => false
      | c :: r2 => c = '(' && (r2.takeWhile (fun c => c ≠ '\n')).contains ')'

/-- The re.search of an fn-call pattern, as a Boolean. -/
def hasFnCall (fname : List Char) : List Char → Bool
  | [] => false
  | c :: cs => fnCallAt fname (c :: cs) || hasFnCall fname cs

/-- Whether the query text calls the text-search dialect function. -/
def hasTextSearchCall (s : List Char) : Bool :=
  hasFnCall "fn::text_search".data s

/-- Whether the query text calls the vector-search dialect function. -/
def hasVectorSearchCall (s : List Char) : Bool :=
  hasFnCall "fn::vector_search".data s

/-- Anchored match of the SELECT-star-FROM-colon-variable pattern of
repo_query (case-insensitive); returns the variable name (the greedy word
group after the colon). -/
def selectFromIdVar (s : List Char) : Option (List Char) :=
  match ciDrop "select".data s with
  | none => none
  | some r1 =>
      if (r1.takeWhile isPySpace).isEmpty then none
      else
        match r1.dropWhile isPySpace with
        | [] => none
        | c2 :: r2 =>
            if c2 = '*' then
              if (r2.takeWhile isPySpace).isEmpty then none
              else
                match ciDrop "from".data (r2.dropWhile isPySpace) with
                | none => none
                | some r3 =>
                    if (r3.takeWhile isPySpace).isEmpty then none
                    else
                      match r3.dropWhile isPySpace with
                      | [] => none
                      | c4 :: r4 =>
                          if c4 = ':' then
                            let w := r4.takeWhile isWordChar
                            if w.isEmpty then none else some w
                          else none
            else none

/-- Table part of a composite id: everything before the first colon, the
whole string when there is none (index zero of the colon split of the
source). -/
def idTableOf (record_id : String) : String :=
  String.mk (record_id.data.takeWhile (fun c => c ≠ ':'))

/-- Embeds parse_surreal_query: strips the query, substitutes each bound
dollar-variable by its colon form, then applies the recognised rewrites in
source order: the CREATE-CONTENT and DELETE-WHERE early returns, the
FROM-ONLY rewrite, the omit and fetch clause extraction, and the sentinel
returns for the text-search and vector-search dialect functions; the omit
and fetch field lists ride in the variable mapping under the reserved
keys. Total by construction, as the source never raises here. -/
def parse_surreal_query (query_str : String) (vars : Dict) : String × Dict :=
  let sql := substAllVars vars (pyStrip query_str).data
  if matchesCreateContent sql then ("__USE_REPO_CREATE__", vars)
  else
    match matchDeleteWhere sql with
    | some (table, condition) =>
        ("DELETE FROM " ++ String.mk table ++ " WHERE " ++ String.mk condition, vars)
    | none =>
        let sql := subFromOnly sql
        let (omit_fields, sql) :=
          match omitClauseOf sql with
          | some grp => (splitStripFields grp, omitRemovedOf sql)
          | none => ([], sql)
        let (fetch_fields, sql) :=
          match fetchClauseOf sql with
          | some grp => (splitStripFields grp, fetchRemovedOf sql)
          | none => ([], sql)
        if hasTextSearchCall sql then ("__USE_FTS__", vars)
        else if hasVectorSearchCall sql then ("__USE_VECTOR_SEARCH__", vars)
        else
          let vars := if omit_fields.isEmpty then vars
            else dset vars "__omit_fields__" (.list (omit_fields.map Value.str))
          let vars := if fetch_fields.isEmpty then vars
            else dset vars "__fetch_fields__" (.list (fetch_fields.map Value.str))
          (String.mk sql, vars)

/-- Message of the RuntimeError repo_query raises for the CREATE-CONTENT
sentinel. -/
def useRepoCreateMessage : String :=
  "CREATE CONTENT queries should use repo_create() instead of repo_query(). Parse the query content and call repo_create(table, data)."

/-- Message of the NotImplementedError repo_query raises for the text-search
sentinel. -/
def ftsMessage : String :=
  "Full-text search (fn::text_search) requires SQLite FTS5 virtual tables. This will be implemented in a future update."

/-- Message of the NotImplementedError repo_query raises for the
vector-search sentinel. -/
def vectorSearchMessage : String :=
  "Vector search (fn::vector_search) requires a vector extension like sqlite-vss. This will be implemented in a future update."

/-- Embeds repo_query up to the boundary where it hands a SQL statement to
the native engine: the translation, the extraction of the post-processing
directives from the variable mapping, the three sentinel raises (each
before any database connection is opened), and the execution-time rewrite
of the SELECT-star-FROM-variable shape when the bound value is a composite
id. A returned ok value is the statement text, the cleaned variable
mapping, and the omit and fetch directives the caller would apply after
the fetch. -/
def repo_query_plan (query_str : String) (vars : Dict) :
    Except PyErr (String × Dict × Value × Value) :=
  let p := parse_surreal_query query_str vars
  let sql := p.1
  let omit_fields := (dget p.2 "__omit_fields__").getD (.list [])
  let fetch_fields := (dget p.2 "__fetch_fields__").getD (.list [])
  let parsed_vars := dpop (dpop p.2 "__omit_fields__") "__fetch_fields__"
  if sql = "__USE_REPO_CREATE__" then .error (.runtimeError useRepoCreateMessage none)
  else if sql = "__USE_FTS__" then .error (.notImplementedError ftsMessage)
  else if sql = "__USE_VECTOR_SEARCH__" then .error (.notImplementedError vectorSearchMessage)
  else
    let sql :=
      match selectFromIdVar sql.data with
      | some w =>
          let var_name := String.mk w
          match dget parsed_vars var_name with
          | some (.str record_id) =>
              if pyTruthy (.str record_id) && record_id.data.contains ':' then
                "SELECT * FROM " ++ idTableOf record_id ++ " WHERE id = :" ++ var_name
              else sql
          | _ => sql
      | none => sql
    .ok (sql, parsed_vars, omit_fields, fetch_fields)

/-! Model of the SQLite database as the repository drives it: named tables
with declared columns and stored rows, a uniqueness constraint on the id
column (the PRIMARY KEY of every table of the schema), operational errors
for a missing table or column. Other constraints of the schema script are
not modelled (the script itself is not among the sources). -/

/-- One table: declared columns in schema order, stored rows. A stored row
keeps the bound values of its INSERT and UPDATE statements; columns never
bound read back as NULL. -/
structure Table where
  cols : List String
  rows : List Dict
deriving Repr, DecidableEq

/-- The database: tables by name. -/
abbrev DB := List (String × Table)

/-- Looks a table up by name. -/
def dbGetTable (db : DB) (t : String) : Option Table :=
  (db.find? (fun p => p.1 = t)).map (fun p => p.2)

/-- Replaces a table by name (used only for tables that exist). -/
def dbSetTable (db : DB) (t : String) (tbl : Table) : DB :=
  db.map (fun p => if p.1 = t then (t, tbl) else p)

/-- A row as SELECT star returns it: every declared column, with NULL for
values the row never stored. -/
def rowFull (cols : List String) (r : Dict) : Dict :=
  cols.map (fun c => (c, (dget r c).getD .null))

/-- INSERT INTO t (cols...) VALUES (...): operational error when the table
or one of the columns does not exist, integrity error when the id value
collides with a stored row (the PRIMARY KEY), otherwise appends the row. -/
def sqlInsert (db : DB) (t : String) (vals : Dict) : Except PyErr DB :=
  match dbGetTable db t with
  | none => .error (.operationalError ("no such table: " ++ t))
  | some tbl =>
      if vals.any (fun kv => !tbl.cols.contains kv.1) then
        .error (.operationalError ("table " ++ t ++ " has no such column"))
      else if (match dget vals "id" with
               | some idv => tbl.rows.any (fun r => dget r "id" == some idv)
               | none => false) then
        .error (.integrityError ("UNIQUE constraint failed: " ++ t ++ ".id"))
      else .ok (dbSetTable db t { tbl with rows := tbl.rows ++ [vals] })

/-- SELECT star FROM t WHERE id equals the bound value: the first matching
row in full column form, or none. -/
def sqlSelectById (db : DB) (t : String) (idv : Value) : Except PyErr (Option Dict) :=
  match dbGetTable db t with
  | none => .error (.operationalError ("no such table: " ++ t))
  | some tbl =>
      .ok ((tbl.rows.find? (fun r => dget r "id" == some idv)).map (rowFull tbl.cols))

/-- Applies a SET clause to one row. -/
def applySets (r : Dict) (sets : Dict) : Dict :=
  sets.foldl (fun acc kv => dset acc kv.1 kv.2) r

/-- UPDATE t SET ... WHERE id equals the bound value: operational error for
a missing table or column, otherwise rewrites every matching row (zero
matches succeed with no change). -/
def sqlUpdateById (db : DB) (t : String) (sets : Dict) (idv : Value) : Except PyErr DB :=
  match dbGetTable db t with
  | none => .error (.operationalError ("no such table: " ++ t))
  | some tbl =>
      if sets.any (fun kv => !tbl.cols.contains kv.1) then
        .error (.operationalError ("table " ++ t ++ " has no such column"))
      else
        .ok (dbSetTable db t { tbl with
          rows := tbl.rows.map (fun r =>
            if dget r "id" == some idv then applySets r sets else r) })

/-- DELETE FROM t WHERE id equals the bound value: operational error for a
missing table, otherwise removes the matching rows (zero matches succeed). -/
def sqlDeleteById (db : DB) (t : String) (idv : Value) : Except PyErr DB :=
  match dbGetTable db t with
  | none => .error (.operationalError ("no such table: " ++ t))
  | some tbl =>
      .ok (dbSetTable db t { tbl with
        rows := tbl.rows.filter (fun r => !(dget r "id" == some idv)) })

/-! The repository CRUD facade. uuid4 tokens and datetime timestamps are
explicit arguments. -/

/-- Embeds generate_id: the composite id, table name, colon, token (the
token stands for uuid4().hex[:16]). -/
def generate_id (table : String) (token : String) : String :=
  table ++ ":" ++ token

/-- Embeds ensure_record_id on the string case (the only one the claims
exercise); the source turns a non-string argument into its str() form. -/
def ensure_record_id (value : String) : String :=
  value

/-- The JSON-encoded field names of _prepare_data_for_insert. -/
def jsonEncodedFields : List String :=
  ["topics", "embedding", "speakers", "youtube_preferred_languages"]

/-- The boolean field names of _prepare_data_for_insert. -/
def boolFields : List String :=
  ["archived", "is_built_in"]

/-- One iteration of the _prepare_data_for_insert loop. -/
def prepareEntry (prepared : Dict) (k : String) (v : Value) : Dict :=
  if jsonEncodedFields.contains k ∧ v ≠ .null then
    match v with
    | .list _ => dset prepared k (.str (json_dumps v))
    | .obj _ => dset prepared k (.str (json_dumps v))
    | _ => dset prepared k v
  else if k = "asset" ∧ v ≠ .null then
    match v with
    | .obj kvs =>
        dset (dset prepared "asset_file_path" ((dget kvs "file_path").getD .null))
          "asset_url" ((dget kvs "url").getD .null)
    | _ => prepared
  else if boolFields.contains k ∧ v ≠ .null then
    dset prepared k (.int (if pyTruthy v then 1 else 0))
  else dset prepared k v

/-- Embeds _prepare_data_for_insert: JSON-encodes list and dict values of
the designated fields, flattens the asset object into its two columns,
stores booleans as zero or one, and passes everything else through. The
table argument is unused, as in the source. -/
def _prepare_data_for_insert (table : String) (data : Dict) : Dict :=
  data.foldl (fun prepared kv => prepareEntry prepared kv.1 kv.2) []

/-- The JSON-decoded field names of _row_to_dict (note: speakers is not
among them, unlike on the write side). -/
def jsonDecodedFields : List String :=
  ["topics", "embedding", "youtube_preferred_languages"]

/-- Mutation of the nested asset object under the asset key of the result
(result of _row_to_dict keeps it as a dict while the columns stream by). -/
def assetFieldSet (result : Dict) (field : String) (v : Value) : Dict :=
  match dget result "asset" with
  | some (.obj kvs) => dset result "asset" (.obj (dset kvs field v))
  | _ => result

/-- One iteration of the _row_to_dict loop over the row columns. -/
def rowEntryStep (result : Dict) (key : String) (value : Value) : Dict :=
  if jsonDecodedFields.contains key ∧ pyTruthy value then
    match value with
    | .str s =>
        match json_loads s with
        | some v => dset result key v
        | none => dset result key value
    | _ => dset result key value
  else if key = "asset_file_path" ∨ key = "asset_url" then
    let result := if dhas result "asset" then result else dset result "asset" (.obj [])
    if key = "asset_file_path" ∧ pyTruthy value then assetFieldSet result "file_path" value
    else if key = "asset_url" ∧ pyTruthy value then assetFieldSet result "url" value
    else result
  else dset result key value

/-- Embeds _row_to_dict: JSON-decodes the designated fields (falling back
to the raw value when decoding fails), reassembles the asset object from
its two columns keeping only truthy components, pops the two flattened
column names (never present in the result), and turns an empty asset into
None. -/
def _row_to_dict (row : Dict) : Dict :=
  let result := row.foldl (fun result kv => rowEntryStep result kv.1 kv.2) []
  let result := dpop result "asset_file_path"
  let result := dpop result "asset_url"
  match dget result "asset" with
  | some a => if pyTruthy a then result else dset result "asset" .null
  | none => result

/-- The column-name validation loop of repo_create and repo_update: the
first invalid identifier among the keys raises ValueError. -/
def validateColumns (d : Dict) : Except PyErr Unit :=
  match d.find? (fun kv => !isValidIdent kv.1) with
  | some kv => .error (.valueError ("Invalid SQL identifier: " ++ kv.1))
  | none => .ok ()

/-- The except clauses of repo_create: integrity and operational errors get
their own wording, everything else the generic one; the cause is kept. -/
def wrapCreateErr : PyErr → PyErr
  | .integrityError m =>
      .runtimeError "Failed to create record (integrity error)" (some (.integrityError m))
  | .operationalError m =>
      .runtimeError "Failed to create record (operational error)" (some (.operationalError m))
  | e => .runtimeError "Failed to create record" (some e)

/-- Embeds repo_create: validates the table name (outside the try, so that
ValueError propagates raw), strips a caller-supplied id, generates the
composite id from the token, stamps created and updated with the same
timestamp, normalises the data, validates the column names, inserts
through the write path, re-reads the row through the read path, and
returns it through _row_to_dict and parse_record_ids; every exception
inside the try is wrapped by wrapCreateErr. -/
def repo_create (table : String) (data : Dict) (token : String) (now : String)
    (db : DB) : Except PyErr (Dict × DB) :=
  match validate_identifier table with
  | .error e => .error e
  | .ok table =>
      let data := dpop data "id"
      let record_id := generate_id table token
      let data := dset data "id" (.str record_id)
      let data := dset data "created" (.str now)
      let data := dset data "updated" (.str now)
      match (
        let insert_data := _prepare_data_for_insert table data
        match validateColumns insert_data with
        | .error e => .error e
        | .ok _ =>
            match sqlInsert db table insert_data with
            | .error e => .error e
            | .ok db2 =>
                match sqlSelectById db2 table (.str record_id) with
                | .error e => .error e
                | .ok row? =>
                    match row? with
                    | some row =>
                        Except.ok (parse_record_ids_items (_row_to_dict row), db2)
                    | none =>
                        Except.error (.runtimeError "Failed to retrieve created record" none)
        : Except PyErr (Dict × DB)) with
      | .ok r => .ok r
      | .error e => .error (wrapCreateErr e)

/-- The except clauses of repo_update. -/
def wrapUpdateErr : PyErr → PyErr
  | .integrityError m =>
      .runtimeError "Failed to update record (integrity error)" (some (.integrityError m))
  | .operationalError m =>
      .runtimeError "Failed to update record (operational error)" (some (.operationalError m))
  | e => .runtimeError "Failed to update record" (some e)

/-- Embeds repo_update: resolves the target table from the id prefix when
the id carries a prefix for a different table, strips the id key from the
patch, re-stamps updated, normalises, validates the SET column names,
writes, re-reads, and returns the row in a one-element list, or the empty
list when the re-read finds nothing; the whole body is inside the try, so
every exception is wrapped by wrapUpdateErr. -/
def repo_update (table : String) (id : String) (data : Dict) (now : String)
    (db : DB) : Except PyErr (List Dict × DB) :=
  match (
      let tr : String × String :=
        if id.data.contains ':' && !(table ++ ":").data.isPrefixOf id.data then
          (idTableOf id, id)
        else if id.data.contains ':' then (table, id)
        else (table, table ++ ":" ++ id)
      let record_id := tr.2
      match validate_identifier tr.1 with
      | .error e => .error e
      | .ok table =>
          let data := dpop data "id"
          let data := dset data "updated" (.str now)
          let update_data := _prepare_data_for_insert table data
          match validateColumns update_data with
          | .error e => .error e
          | .ok _ =>
              match sqlUpdateById db table update_data (.str record_id) with
              | .error e => .error e
              | .ok db2 =>
                  match sqlSelectById db2 table (.str record_id) with
                  | .error e => .error e
                  | .ok row? =>
                      match row? with
                      | some row =>
                          Except.ok ([parse_record_ids_items (_row_to_dict row)], db2)
                      | none => Except.ok ([], db2)
    : Except PyErr (List Dict × DB)) with
  | .ok r => .ok r
  | .error e => .error (wrapUpdateErr e)

/-- The except clauses of repo_delete: ValueError becomes the
invalid-ID-format RuntimeError. -/
def wrapDeleteErr : PyErr → PyErr
  | .valueError m =>
      .runtimeError "Failed to delete record (invalid ID format)" (some (.valueError m))
  | .operationalError m =>
      .runtimeError "Failed to delete record (operational error)" (some (.operationalError m))
  | e => .runtimeError "Failed to delete record" (some e)

/-- Embeds repo_delete: requires a composite id (ValueError otherwise),
validates the table prefix, issues the DELETE, and returns True whether or
not any row matched. -/
def repo_delete (record_id : String) (db : DB) : Except PyErr (Bool × DB) :=
  match (
      let record_id := ensure_record_id record_id
      if !record_id.data.contains ':' then
        Except.error (.valueError ("Invalid record ID format: " ++ record_id))
      else
        match validate_identifier (idTableOf record_id) with
        | .error e => .error e
        | .ok table =>
            match sqlDeleteById db table (.str record_id) with
            | .error e => .error e
            | .ok db2 => Except.ok (true, db2)
    : Except PyErr (Bool × DB)) with
  | .ok r => .ok r
  | .error e => .error (wrapDeleteErr e)

/-- Elementwise parse_record_ids over a result list of dicts. -/
def parse_record_ids_rows (rows : List Dict) : List Dict :=
  rows.map parse_record_ids_items

/-- The for-loop of repo_insert: creates each row in order through
repo_create, consuming one uuid token per attempt; the inner except clause
for sqlite3.IntegrityError (skip when ignore_duplicates) is mirrored even
though repo_create only ever raises RuntimeError, so it never fires; any
other exception re-raises out of the loop. The database state reached so
far is returned along the error. -/
def repoInsertLoop (table : String) (items : List Dict) (tokens : Nat → String)
    (i : Nat) (now : String) (db : DB) (ignore_duplicates : Bool) (acc : List Dict) :
    Except PyErr (List Dict) × DB :=
  match items with
  | [] => (.ok acc, db)
  | item :: rest =>
      match repo_create table item (tokens i) now db with
      | .ok (r, db2) =>
          repoInsertLoop table rest tokens (i + 1) now db2 ignore_duplicates (acc ++ [r])
      | .error e =>
          match e with
          | .integrityError m =>
              if ignore_duplicates then
                repoInsertLoop table rest tokens (i + 1) now db ignore_duplicates acc
              else (.error (.integrityError m), db)
          | _ => (.error e, db)

/-- Embeds repo_insert: the sequential create loop and the outer except
clauses; with ignore_duplicates the outer handler returns the empty list
for any escaped exception, without it the exception is wrapped in the
insert-failed RuntimeError. The second component is the database state
after the call (rows created before a failure stay committed). -/
def repo_insert (table : String) (data : List Dict) (tokens : Nat → String)
    (now : String) (db : DB) (ignore_duplicates : Bool) :
    Except PyErr (List Dict) × DB :=
  match repoInsertLoop table data tokens 0 now db ignore_duplicates [] with
  | (.ok results, db2) => (.ok (parse_record_ids_rows results), db2)
  | (.error e, db2) =>
      match e with
      | .integrityError m =>
          if ignore_duplicates then (.ok [], db2)
          else (.error (.runtimeError "Failed to insert records (integrity error)"
            (some (.integrityError m))), db2)
      | _ =>
          if ignore_duplicates then (.ok [], db2)
          else (.error (.runtimeError "Failed to insert records" (some e)), db2)

/-- The conditional dict assignment of update_command_status: the key is
written only when the optional argument is supplied. -/
def optSet {α : Type} (d : Dict) (k : String) (f : α → Value) : Option α → Dict
  | some a => dset d k (f a)
  | none => d

/-- The update dict update_command_status builds: status and a fresh
updated stamp always; progress, result and error_message only when
supplied; the result value is JSON-serialised. -/
def commandStatusData (status : String) (progress : Option Int)
    (result : Option Value) (error_message : Option String)
    (nowService : String) : Dict :=
  optSet (optSet (optSet
    [("status", .str status), ("updated", .str nowService)]
    "progress" (fun p => .int p) progress)
    "result" (fun r => .str (json_dumps r)) result)
    "error_message" (fun m => .str m) error_message

/-- Embeds CommandTableService.update_command_status for the SQLite
backend (the database kind under specification). The service stamps
updated with datetime.utcnow (nowService) and repo_update then overwrites
it with its own datetime.now stamp (nowRepo). -/
def update_command_status (command_id : String) (status : String)
    (progress : Option Int) (result : Option Value) (error_message : Option String)
    (nowService nowRepo : String) (db : DB) : Except PyErr (List Dict × DB) :=
  repo_update "command" command_id
    (commandStatusData status progress result error_message nowService) nowRepo db

/-! Toolkit lemmas about the dict model and the database model. -/

/-- Unfolding dget on a cons. -/
theorem dget_cons (e : String × Value) (d : Dict) (c : String) :
    dget (e :: d) c = if e.1 = c then some e.2 else dget d c := by
  rw [dget, dget, List.find?]
  by_cases h : e.1 = c
  · simp [h]
  · simp [h]

/-- Unfolding dset on a cons. -/
theorem dset_cons (e : String × Value) (d : Dict) (k : String) (v : Value) :
    dset (e :: d) k v = if e.1 = k then (k, v) :: d else e :: dset d k v := rfl

/-- Reading the key just assigned. -/
theorem dget_dset_self (d : Dict) (k : String) (v : Value) :
    dget (dset d k v) k = some v := by
  induction d with
  | nil => simp [dset, dget_cons]
  | cons e d ih =>
      rw [dset]
      by_cases he : e.1 = k
      · simp [he, dget_cons]
      · rw [if_neg he, dget_cons, if_neg he]
        exact ih

/-- Reading another key after an assignment. -/
theorem dget_dset_ne (d : Dict) (k c : String) (v : Value) (h : c ≠ k) :
    dget (dset d k v) c = dget d c := by
  induction d with
  | nil => simp [dset, dget_cons, Ne.symm h]
  | cons e d ih =>
      rw [dset]
      by_cases he : e.1 = k
      · rw [if_pos he, dget_cons, dget_cons, if_neg (by simp [Ne.symm h]), he,
          if_neg (by simp [Ne.symm h])]
      · rw [if_neg he, dget_cons, dget_cons]
        by_cases hc : e.1 = c
        · simp [hc]
        · rw [if_neg hc, if_neg hc]
          exact ih

/-- Reading the popped key. -/
theorem dget_dpop_self (d : Dict) (k : String) :
    dget (dpop d k) k = none := by
  rw [dget, dpop]
  have hf : List.find? (fun kv => decide (kv.1 = k))
      (List.filter (fun kv => decide (kv.1 ≠ k)) d) = none := by
    rw [List.find?_eq_none]
    intro kv hmem
    have hne := List.of_mem_filter hmem
    simp only [ne_eq, decide_not, Bool.not_eq_true', decide_eq_false_iff_not] at hne
    simpa using hne
  rw [hf]
  rfl

/-- Reading another key after a pop. -/
theorem dget_dpop_ne (d : Dict) (k c : String) (h : c ≠ k) :
    dget (dpop d k) c = dget d c := by
  rw [dpop]
  induction d with
  | nil => simp
  | cons e d ih =>
      by_cases he : e.1 = k
      · rw [List.filter_cons_of_neg (by simp [he]), dget_cons,
          if_neg (by rw [he]; exact Ne.symm h)]
        exact ih
      · rw [List.filter_cons_of_pos (by simp [he]), dget_cons, dget_cons]
        by_cases hc : e.1 = c
        · simp [hc]
        · rw [if_neg hc, if_neg hc]
          exact ih

/-- Keys after an assignment: unchanged when the key is present, appended
at the end otherwise. -/
theorem dset_map_fst (d : Dict) (k : String) (v : Value) :
    (dset d k v).map Prod.fst
      = if dhas d k then d.map Prod.fst else d.map Prod.fst ++ [k] := by
  induction d with
  | nil => simp [dset, dhas]
  | cons e d ih =>
      rw [dset, dhas]
      by_cases he : e.1 = k
      · simp [he]
      · rw [if_neg he, List.map_cons, ih, dhas]
        by_cases hd : d.any (fun kv => decide (kv.1 = k))
        · simp [hd, he]
        · simp only [Bool.not_eq_true] at hd
          simp [hd, he]

/-- Assignment preserves key uniqueness. -/
theorem dset_nodup (d : Dict) (k : String) (v : Value)
    (h : (d.map Prod.fst).Nodup) : ((dset d k v).map Prod.fst).Nodup := by
  rw [dset_map_fst]
  split
  · exact h
  · rename_i hh
    rw [dhas] at hh
    have hk : k ∉ d.map Prod.fst := by
      intro hmem
      obtain ⟨kv, hkv, hfst⟩ := List.mem_map.mp hmem
      exact hh (by rw [List.any_eq_true]; exact ⟨kv, hkv, by simp [hfst]⟩)
    simpa using List.Nodup.append h (by simp) (by simpa using hk)

/-- Popping preserves key uniqueness. -/
theorem dpop_nodup (d : Dict) (k : String)
    (h : (d.map Prod.fst).Nodup) : ((dpop d k).map Prod.fst).Nodup := by
  rw [dpop]
  induction d with
  | nil => simp
  | cons e d ih =>
      simp only [List.map_cons, List.nodup_cons] at h
      by_cases he : e.1 = k
      · rw [List.filter_cons_of_neg (by simp [he])]
        exact ih h.2
      · rw [List.filter_cons_of_pos (by simp [he]), List.map_cons, List.nodup_cons]
        refine ⟨fun hmem => ?_, ih h.2⟩
        obtain ⟨kv, hkv, hfst⟩ := List.mem_map.mp hmem
        exact h.1 (List.mem_map.mpr ⟨kv, (List.mem_filter.mp hkv).1, hfst⟩)

/-- Unfolding dpop on a cons. -/
theorem dpop_cons (e : String × Value) (d : Dict) (k : String) :
    dpop (e :: d) k = if e.1 = k then dpop d k else e :: dpop d k := by
  rw [dpop, dpop]
  by_cases he : e.1 = k
  · rw [if_pos he, List.filter_cons_of_neg (by simp [he])]
  · rw [if_neg he, List.filter_cons_of_pos (by simp [he])]

/-- Assigning the same key twice keeps only the last value. -/
theorem dset_dset_self (d : Dict) (k : String) (v w : Value) :
    dset (dset d k v) k w = dset d k w := by
  induction d with
  | nil => simp [dset]
  | cons e d ih =>
      rw [dset]
      by_cases he : e.1 = k
      · rw [if_pos he, dset, if_pos rfl, dset, if_pos he]
      · rw [if_neg he, dset, if_neg he, dset, if_neg he, ih]

/-- Popping is idempotent. -/
theorem dpop_idem (d : Dict) (k : String) :
    dpop (dpop d k) k = dpop d k := by
  simp only [dpop, List.filter_filter]
  congr 1
  funext kv
  by_cases h : kv.1 = k <;> simp [h]

/-- Popping one key commutes with assigning another. -/
theorem dpop_dset_comm (d : Dict) (k c : String) (v : Value) (h : c ≠ k) :
    dpop (dset d c v) k = dset (dpop d k) c v := by
  induction d with
  | nil =>
      rw [show dset ([] : Dict) c v = [(c, v)] from rfl, dpop_cons,
        if_neg (by simpa using h)]
      rfl
  | cons e d ih =>
      rw [dset]
      by_cases he : e.1 = c
      · rw [if_pos he, dpop_cons, if_neg (by simpa using h), dpop_cons,
          if_neg (by rw [he]; exact h), dset, if_pos he]
      · rw [if_neg he, dpop_cons, dpop_cons]
        by_cases hk : e.1 = k
        · rw [if_pos hk, if_pos hk, ih]
        · rw [if_neg hk, if_neg hk, dset, if_neg he, ih]

/-- dhas as key membership. -/
theorem dhas_iff (d : Dict) (k : String) :
    dhas d k = true ↔ k ∈ d.map Prod.fst := by
  rw [dhas, List.any_eq_true]
  constructor
  · rintro ⟨kv, hm, hk⟩
    exact List.mem_map.mpr ⟨kv, hm, by simpa using hk⟩
  · intro hm
    obtain ⟨kv, hm, hk⟩ := List.mem_map.mp hm
    exact ⟨kv, hm, by simpa using hk⟩

/-- Absent keys read as none. -/
theorem dget_none_iff (d : Dict) (k : String) :
    dget d k = none ↔ k ∉ d.map Prod.fst := by
  rw [dget]
  constructor
  · intro h hm
    obtain ⟨kv, hkv, hfst⟩ := List.mem_map.mp hm
    have hnone : d.find? (fun kv => decide (kv.1 = k)) = none := by
      cases hf : d.find? (fun kv => decide (kv.1 = k)) with
      | none => rfl
      | some x => rw [hf] at h; exact absurd h (by simp)
    exact (List.find?_eq_none.mp hnone kv hkv) (by simp [hfst])
  · intro hm
    cases hf : d.find? (fun kv => decide (kv.1 = k)) with
    | none => rfl
    | some x =>
        have hx := List.find?_some hf
        have hmx := List.mem_of_find?_eq_some hf
        simp only [decide_eq_true_eq] at hx
        exact absurd (List.mem_map.mpr ⟨x, hmx, hx⟩) hm

/-- A stored value witnesses membership of its entry. -/
theorem dget_mem (d : Dict) (k : String) (v : Value) (h : dget d k = some v) :
    (k, v) ∈ d := by
  rw [dget] at h
  cases hf : d.find? (fun kv => decide (kv.1 = k)) with
  | none => rw [hf] at h; exact absurd h (by simp)
  | some x =>
      rw [hf] at h
      have hx := List.find?_some hf
      have hmx := List.mem_of_find?_eq_some hf
      simp only [decide_eq_true_eq] at hx
      have hv : x.2 = v := by
        simpa using h
      obtain ⟨x1, x2⟩ := x
      cases hx
      cases hv
      exact hmx

/-- A stored value witnesses key presence. -/
theorem dget_some_dhas (d : Dict) (k : String) (v : Value)
    (h : dget d k = some v) : dhas d k = true := by
  rw [dhas_iff]
  exact List.mem_map.mpr ⟨(k, v), dget_mem d k v h, rfl⟩

/-- Assigning an absent key appends the entry at the end. -/
theorem dset_of_not_has (d : Dict) (k : String) (v : Value)
    (h : dhas d k = false) : dset d k v = d ++ [(k, v)] := by
  induction d with
  | nil => simp [dset]
  | cons e d ih =>
      rw [dhas, List.any_cons, Bool.or_eq_false_iff] at h
      rw [dset, if_neg (by simpa using h.1), ih h.2]
      simp

/-- Unfolding table lookup on a cons. -/
theorem dbGetTable_cons (e : String × Table) (db : DB) (t : String) :
    dbGetTable (e :: db) t = if e.1 = t then some e.2 else dbGetTable db t := by
  rw [dbGetTable, dbGetTable, List.find?]
  by_cases h : e.1 = t
  · simp [h]
  · simp [h]

/-- Unfolding table replacement on a cons. -/
theorem dbSetTable_cons (e : String × Table) (db : DB) (t : String) (x : Table) :
    dbSetTable (e :: db) t x = (if e.1 = t then (t, x) else e) :: dbSetTable db t x := by
  rw [dbSetTable, dbSetTable, List.map_cons]

/-- Replacing an existing table makes the lookup see the new value. -/
theorem dbGetTable_dbSetTable_self (db : DB) (t : String) (tbl x : Table)
    (h : dbGetTable db t = some tbl) :
    dbGetTable (dbSetTable db t x) t = some x := by
  induction db with
  | nil => rw [dbGetTable] at h; exact absurd h (by simp)
  | cons e db ih =>
      rw [dbGetTable_cons] at h
      rw [dbSetTable_cons]
      by_cases he : e.1 = t
      · rw [if_pos he, dbGetTable_cons, if_pos rfl]
      · rw [if_neg he, dbGetTable_cons, if_neg he]
        rw [if_neg he] at h
        exact ih h

/-- A full row reads every declared column, with NULL for values the stored
row never bound. -/
theorem rowFull_get (cols : List String) (r : Dict) (k : String) :
    dget (rowFull cols r) k
      = if cols.contains k then some ((dget r k).getD .null) else none := by
  induction cols with
  | nil => simp [rowFull, dget]
  | cons c cols ih =>
      rw [rowFull, List.map_cons]
      rw [show (cols.map (fun c => (c, (dget r c).getD Value.null))) = rowFull cols r from rfl]
      rw [dget_cons]
      by_cases hc : c = k
      · subst hc
        simp
      · rw [if_neg hc, ih, List.contains_cons]
        rw [show (k == c) = false from by simpa using fun h => hc h.symm]
        simp

/-- The keys of a full row are the declared columns. -/
theorem rowFull_keys (cols : List String) (r : Dict) :
    (rowFull cols r).map Prod.fst = cols := by
  induction cols with
  | nil => rfl
  | cons c cols ih =>
      rw [rowFull, List.map_cons, List.map_cons,
        show (cols.map (fun c => (c, (dget r c).getD Value.null))) = rowFull cols r from rfl,
        ih]

/-- find? over a list whose any-test is false. -/
theorem find?_eq_none_of_any_false {α} (p : α → Bool) (l : List α)
    (h : l.any p = false) : l.find? p = none := by
  rw [List.find?_eq_none]
  intro x hx
  rw [List.any_eq_false] at h
  exact h x hx

/-- find? through a map that preserves the predicate. -/
theorem find?_map_pres {α} (p : α → Bool) (g : α → α) (l : List α)
    (hp : ∀ x, p (g x) = p x) :
    (l.map g).find? p = (l.find? p).map g := by
  induction l with
  | nil => rfl
  | cons x l ih =>
      by_cases h : p x
      · rw [List.map_cons, List.find?_cons_of_pos _ (by rw [hp x]; exact h),
          List.find?_cons_of_pos _ h]
        rfl
      · rw [Bool.not_eq_true] at h
        rw [List.map_cons, List.find?_cons_of_neg _ (by rw [hp x]; simp [h]),
          List.find?_cons_of_neg _ (by simp [h]), ih]

/-- Reading through an applied SET clause: assigned keys read the assignment,
others read the original row. -/
theorem applySets_get (sets : Dict) (r : Dict) (k : String)
    (hnd : (sets.map Prod.fst).Nodup) :
    dget (applySets r sets) k
      = match dget sets k with
        | some v => some v
        | none => dget r k := by
  induction sets generalizing r with
  | nil => simp [applySets, dget]
  | cons e s ih =>
      simp only [List.map_cons, List.nodup_cons] at hnd
      rw [show applySets r (e :: s) = applySets (dset r e.1 e.2) s from rfl]
      rw [ih _ hnd.2, dget_cons]
      by_cases he : e.1 = k
      · rw [if_pos he]
        have hnone : dget s k = none := by
          rw [dget_none_iff]
          exact he ▸ hnd.1
        rw [hnone]
        show dget (dset r e.1 e.2) k = some e.2
        rw [← he]
        exact dget_dset_self r e.1 e.2
      · rw [if_neg he]
        cases hs : dget s k with
        | some v => rfl
        | none =>
            show dget (dset r e.1 e.2) k = dget r k
            exact dget_dset_ne r e.1 k e.2 (fun h => he h.symm)

/-- The keys the write-side normalisation singles out, as branch triggers or
as assignment targets. -/
def writeSpecialKeys : List String :=
  ["topics", "embedding", "speakers", "youtube_preferred_languages",
   "asset", "asset_file_path", "asset_url", "archived", "is_built_in"]

/-- The keys the read-side reconstruction singles out. -/
def readSpecialKeys : List String :=
  ["topics", "embedding", "youtube_preferred_languages",
   "asset", "asset_file_path", "asset_url"]

/-- On a key no branch singles out, one normalisation step is a plain
assignment. -/
theorem prepareEntry_plain (acc : Dict) (k : String) (v : Value)
    (h : k ∉ writeSpecialKeys) :
    prepareEntry acc k v = dset acc k v := by
  simp only [writeSpecialKeys, List.mem_cons, List.not_mem_nil, or_false, not_or] at h
  obtain ⟨h1, h2, h3, h4, h5, h6, h7, h8, h9⟩ := h
  rw [prepareEntry.eq_def,
    if_neg (by simp [jsonEncodedFields, h1, h2, h3, h4]),
    if_neg (by simp [h5]),
    if_neg (by simp [boolFields, h8, h9])]

/-- Reading back the plainly assigned key. -/
theorem prepareEntry_get_self (acc : Dict) (k : String) (v : Value)
    (h : k ∉ writeSpecialKeys) :
    dget (prepareEntry acc k v) k = some v := by
  rw [prepareEntry_plain acc k v h]
  exact dget_dset_self acc k v

/-- One write-side step only touches its own key and the two flattened asset
columns. -/
theorem prepareEntry_get_other (acc : Dict) (k2 : String) (v : Value) (k : String)
    (hk : k ≠ k2) (h1 : k ≠ "asset_file_path") (h2 : k ≠ "asset_url") :
    dget (prepareEntry acc k2 v) k = dget acc k := by
  rw [prepareEntry.eq_def]
  split
  · split <;> exact dget_dset_ne acc k2 k _ hk
  · split
    · split
      · rw [dget_dset_ne _ _ _ _ h2]
        exact dget_dset_ne acc _ _ _ h1
      · rfl
    · split
      · exact dget_dset_ne acc k2 k _ hk
      · exact dget_dset_ne acc k2 k _ hk

/-- The write-side fold never touches a key absent from the data (other than
the flattened asset columns). -/
theorem prep_fold_get_notmem (d : Dict) (k : String)
    (h1 : k ≠ "asset_file_path") (h2 : k ≠ "asset_url") :
    ∀ acc, k ∉ d.map Prod.fst →
      dget (d.foldl (fun p kv => prepareEntry p kv.1 kv.2) acc) k = dget acc k := by
  induction d with
  | nil => intro acc _; rfl
  | cons e d ih =>
      intro acc hmem
      simp only [List.map_cons, List.mem_cons, not_or] at hmem
      rw [List.foldl_cons, ih _ hmem.2]
      exact prepareEntry_get_other acc e.1 e.2 k hmem.1 h1 h2

/-- The write-side fold carries a plain stored value through. -/
theorem prep_fold_get (d : Dict) (k : String) (v : Value)
    (hplain : k ∉ writeSpecialKeys) :
    ∀ acc, (d.map Prod.fst).Nodup → dget d k = some v →
      dget (d.foldl (fun p kv => prepareEntry p kv.1 kv.2) acc) k = some v := by
  have h1 : k ≠ "asset_file_path" := by
    intro h; exact hplain (by rw [h]; simp [writeSpecialKeys])
  have h2 : k ≠ "asset_url" := by
    intro h; exact hplain (by rw [h]; simp [writeSpecialKeys])
  induction d with
  | nil => intro acc _ hget; exact absurd hget (by simp [dget])
  | cons e d ih =>
      intro acc hnd hget
      simp only [List.map_cons, List.nodup_cons] at hnd
      rw [dget_cons] at hget
      rw [List.foldl_cons]
      by_cases he : e.1 = k
      · subst he
        rw [if_pos rfl] at hget
        cases hget
        rw [prep_fold_get_notmem d e.1 h1 h2 _ hnd.1]
        exact prepareEntry_get_self acc e.1 e.2 hplain
      · rw [if_neg he] at hget
        exact ih _ hnd.2 hget

/-- _prepare_data_for_insert carries a plain field through unchanged. -/
theorem _prepare_get_plain (t : String) (d : Dict) (k : String) (v : Value)
    (hplain : k ∉ writeSpecialKeys) (hnd : (d.map Prod.fst).Nodup)
    (hget : dget d k = some v) :
    dget (_prepare_data_for_insert t d) k = some v := by
  unfold _prepare_data_for_insert
  exact prep_fold_get d k v hplain [] hnd hget

/-- dhas over an append. -/
theorem dhas_append (a b : Dict) (k : String) :
    dhas (a ++ b) k = (dhas a k || dhas b k) := by
  simp [dhas, List.any_append]

/-- The write-side fold over an all-plain dict with fresh keys just appends
the entries. -/
theorem prep_fold_plain_append : ∀ (d : Dict) (acc : Dict),
    (∀ kv ∈ d, kv.1 ∉ writeSpecialKeys) →
    (d.map Prod.fst).Nodup →
    (∀ kv ∈ d, dhas acc kv.1 = false) →
    d.foldl (fun p kv => prepareEntry p kv.1 kv.2) acc = acc ++ d
  | [], acc, _, _, _ => by simp
  | e :: d, acc, hpl, hnd, hacc => by
      simp only [List.map_cons, List.nodup_cons] at hnd
      rw [List.foldl_cons, prepareEntry_plain _ _ _ (hpl e (by simp)),
        dset_of_not_has _ _ _ (hacc e (by simp)),
        prep_fold_plain_append d (acc ++ [e])
          (fun kv hm => hpl kv (by simp [hm]))
          hnd.2
          (fun kv hm => by
            rw [dhas_append, hacc kv (by simp [hm]), Bool.false_or]
            have hne : kv.1 ≠ e.1 := by
              intro hh
              exact hnd.1 (hh ▸ List.mem_map.mpr ⟨kv, hm, rfl⟩)
            simp [dhas, Ne.symm hne])]
      simp

/-- On an all-plain dict with unique keys, the write-side normalisation is
the identity. -/
theorem prep_plain_id (t : String) (d : Dict)
    (hpl : ∀ kv ∈ d, kv.1 ∉ writeSpecialKeys)
    (hnd : (d.map Prod.fst).Nodup) :
    _prepare_data_for_insert t d = d := by
  unfold _prepare_data_for_insert
  rw [prep_fold_plain_append d [] hpl hnd (fun kv _ => rfl)]
  simp

/-- Mutating the nested asset object leaves other keys alone. -/
theorem assetFieldSet_get_other (res : Dict) (f : String) (v : Value) (k : String)
    (ha : k ≠ "asset") :
    dget (assetFieldSet res f v) k = dget res k := by
  rw [assetFieldSet]
  split
  · exact dget_dset_ne res "asset" k _ ha
  · rfl

/-- On a key no branch singles out, one read-side step is a plain
assignment. -/
theorem rowEntryStep_plain (res : Dict) (k : String) (v : Value)
    (h : k ∉ readSpecialKeys) :
    rowEntryStep res k v = dset res k v := by
  simp only [readSpecialKeys, List.mem_cons, List.not_mem_nil, or_false, not_or] at h
  obtain ⟨h1, h2, h3, h4, h5, h6⟩ := h
  rw [rowEntryStep.eq_def,
    if_neg (by simp [jsonDecodedFields, h1, h2, h3]),
    if_neg (by simp [h5, h6])]

/-- Reading back the plainly assigned key. -/
theorem rowEntryStep_get_self (res : Dict) (k : String) (v : Value)
    (h : k ∉ readSpecialKeys) :
    dget (rowEntryStep res k v) k = some v := by
  rw [rowEntryStep_plain res k v h]
  exact dget_dset_self res k v

/-- One read-side step only touches its own key and the nested asset
object. -/
theorem rowEntryStep_get_other (res : Dict) (k2 : String) (v : Value) (k : String)
    (hk : k ≠ k2) (ha : k ≠ "asset") :
    dget (rowEntryStep res k2 v) k = dget res k := by
  rw [rowEntryStep.eq_def]
  split
  · split
    · split <;> exact dget_dset_ne res k2 k _ hk
    · exact dget_dset_ne res k2 k _ hk
  · split
    · dsimp only
      split
      · rw [assetFieldSet_get_other _ _ _ _ ha]
        split
        · rfl
        · exact dget_dset_ne res "asset" k _ ha
      · split
        · rw [assetFieldSet_get_other _ _ _ _ ha]
          split
          · rfl
          · exact dget_dset_ne res "asset" k _ ha
        · split
          · rfl
          · exact dget_dset_ne res "asset" k _ ha
    · exact dget_dset_ne res k2 k _ hk

/-- The read-side fold never touches a key absent from the row (other than
the nested asset object). -/
theorem rtd_fold_get_notmem (d : Dict) (k : String) (ha : k ≠ "asset") :
    ∀ res, k ∉ d.map Prod.fst →
      dget (d.foldl (fun res kv => rowEntryStep res kv.1 kv.2) res) k = dget res k := by
  induction d with
  | nil => intro res _; rfl
  | cons e d ih =>
      intro res hmem
      simp only [List.map_cons, List.mem_cons, not_or] at hmem
      rw [List.foldl_cons, ih _ hmem.2]
      exact rowEntryStep_get_other res e.1 e.2 k hmem.1 ha

/-- The read-side fold carries a plain stored value through. -/
theorem rtd_fold_get (d : Dict) (k : String) (v : Value)
    (hplain : k ∉ readSpecialKeys) :
    ∀ res, (d.map Prod.fst).Nodup → dget d k = some v →
      dget (d.foldl (fun res kv => rowEntryStep res kv.1 kv.2) res) k = some v := by
  have ha : k ≠ "asset" := by
    intro h; exact hplain (by rw [h]; simp [readSpecialKeys])
  induction d with
  | nil => intro res _ hget; exact absurd hget (by simp [dget])
  | cons e d ih =>
      intro res hnd hget
      simp only [List.map_cons, List.nodup_cons] at hnd
      rw [dget_cons] at hget
      rw [List.foldl_cons]
      by_cases he : e.1 = k
      · subst he
        rw [if_pos rfl] at hget
        cases hget
        rw [rtd_fold_get_notmem d e.1 ha _ hnd.1]
        exact rowEntryStep_get_self res e.1 e.2 hplain
      · rw [if_neg he] at hget
        exact ih _ hnd.2 hget

/-- _row_to_dict carries a plain field of the row through unchanged. -/
theorem _row_to_dict_get_plain (row : Dict) (k : String) (v : Value)
    (hplain : k ∉ readSpecialKeys) (hnd : (row.map Prod.fst).Nodup)
    (hget : dget row k = some v) :
    dget (_row_to_dict row) k = some v := by
  have ha : k ≠ "asset" := by
    intro h; exact hplain (by rw [h]; simp [readSpecialKeys])
  have h5 : k ≠ "asset_file_path" := by
    intro h; exact hplain (by rw [h]; simp [readSpecialKeys])
  have h6 : k ≠ "asset_url" := by
    intro h; exact hplain (by rw [h]; simp [readSpecialKeys])
  rw [_row_to_dict]
  have hfold := rtd_fold_get row k v hplain [] hnd hget
  have hpop : dget (dpop (dpop
      (row.foldl (fun res kv => rowEntryStep res kv.1 kv.2) []) "asset_file_path")
      "asset_url") k = some v := by
    rw [dget_dpop_ne _ _ _ h6, dget_dpop_ne _ _ _ h5]
    exact hfold
  split
  · split
    · exact hpop
    · rw [dget_dset_ne _ _ _ _ ha]
      exact hpop
  · exact hpop

/-! Further translator toolkit. -/

theorem subVar_nil (name : List Char) : subVar name [] = [] := by
  rw [subVar]

theorem dollarNameAt_none_head (name : List Char) (c : Char) (cs : List Char)
    (h : c ≠ '$') : dollarNameAt name (c :: cs) = none := by
  rw [dollarNameAt]
  exact if_neg h

/-- A scan step over a head that opens no match. -/
theorem subVar_cons_none (name : List Char) (c : Char) (cs : List Char)
    (h : dollarNameAt name (c :: cs) = none) :
    subVar name (c :: cs) = c :: subVar name cs := by
  rw [subVar.eq_2, h]

/-- A scan step over a head that matches: the replacement, then the scan
resumes after the match. -/
theorem subVar_cons_some (name : List Char) (c : Char) (cs rest : List Char)
    (h : dollarNameAt name (c :: cs) = some rest) :
    subVar name (c :: cs) = ':' :: (name ++ subVar name rest) := by
  rw [subVar.eq_2, h]

/-- The substitution scan passes over a dollar-free part unchanged. -/
theorem subVar_no_dollar_pre (name : List Char) :
    ∀ (l r : List Char), (∀ c ∈ l, c ≠ '$') →
      subVar name (l ++ r) = l ++ subVar name r
  | [], r, _ => by simp
  | c :: l, r, h => by
      rw [List.cons_append,
        subVar_cons_none name c (l ++ r)
          (dollarNameAt_none_head name c (l ++ r) (h c (by simp))),
        subVar_no_dollar_pre name l r (fun x hx => h x (by simp [hx]))]
      rfl

/-- No lower-case f-then-r pair anywhere in the text. -/
def noFR : List Char → Bool
  | [] => true
  | [_] => true
  | c1 :: c2 :: r => !(c1.toLower = 'f' && c2.toLower = 'r') && noFR (c2 :: r)

theorem noFR_tail (c : Char) (cs : List Char) (h : noFR (c :: cs) = true) :
    noFR cs = true := by
  cases cs with
  | nil => rfl
  | cons c2 r =>
      rw [noFR] at h
      simp only [Bool.and_eq_true] at h
      exact h.2

/-- Without an f-then-r pair the FROM keyword cannot match. -/
theorem ciDrop_from_none_noFR : ∀ (s : List Char), noFR s = true →
    ciDrop "from".data s = none
  | [], _ => rfl
  | [c1], _ => by
      rw [show ("from".data) = 'f' :: 'r' :: 'o' :: 'm' :: [] from rfl, ciDrop]
      split
      · rfl
      · rfl
  | c1 :: c2 :: r, h => by
      rw [show ("from".data) = 'f' :: 'r' :: 'o' :: 'm' :: [] from rfl, ciDrop]
      split
      · rename_i hf
        rw [ciDrop, if_neg ?hr]
        case hr =>
          rw [noFR] at h
          simp only [Bool.and_eq_true] at h
          have hh := h.1
          intro hr
          rw [hf, hr] at hh
          simp at hh
      · rfl

/-- Without an f-then-r pair the FROM-ONLY pattern cannot match. -/
theorem tryFromOnlyAt_none_noFR (pw : Bool) (s : List Char) (h : noFR s = true) :
    tryFromOnlyAt pw s = none := by
  rw [tryFromOnlyAt.eq_def, ciDrop_from_none_noFR s h]
  split
  · rfl
  · rfl

theorem subFromOnlyGo_nil (pw : Bool) : subFromOnlyGo pw [] = [] := by
  rw [subFromOnlyGo]

/-- A rewrite-scan step over a head that opens no match. -/
theorem subFromOnlyGo_cons_none (pw : Bool) (c : Char) (cs : List Char)
    (h : tryFromOnlyAt pw (c :: cs) = none) :
    subFromOnlyGo pw (c :: cs) = c :: subFromOnlyGo (isWordChar c) cs := by
  rw [subFromOnlyGo.eq_2, h]

/-- Without an f-then-r pair the FROM-ONLY rewrite is the identity. -/
theorem subFromOnlyGo_id_noFR : ∀ (s : List Char), noFR s = true → ∀ (pw : Bool),
    subFromOnlyGo pw s = s
  | [], _, pw => subFromOnlyGo_nil pw
  | c :: cs, h, pw => by
      rw [subFromOnlyGo_cons_none pw c cs (tryFromOnlyAt_none_noFR pw _ h),
        subFromOnlyGo_id_noFR cs (noFR_tail c cs h) (isWordChar c)]

theorem subFromOnly_id_noFR (s : List Char) (h : noFR s = true) :
    subFromOnly s = s :=
  subFromOnlyGo_id_noFR s h false

/-- The omit stage of the translator pipeline: what the query text becomes
after the omit clause handling. -/
def omitStage (s : List Char) : List Char :=
  match omitClauseOf s with
  | some _ => omitRemovedOf s
  | none => s

/-- The fetch stage of the translator pipeline. -/
def fetchStage (s : List Char) : List Char :=
  match fetchClauseOf s with
  | some _ => fetchRemovedOf s
  | none => s

/-- A dumped JSON text is truthy (rendering always opens with a visible
character). -/
theorem json_dumps_truthy (v : Value) :
    pyTruthy (.str (json_dumps v)) = true := by
  obtain ⟨c, t, hct, _⟩ := jsonRender_head v
  have hne : json_dumps v ≠ "" := by
    rw [json_dumps, hct]
    intro hh
    have hd := congrArg String.data hh
    simp at hd
  simp [pyTruthy, hne]

/-- Normalising a record holding a JSON-encoded list field and a nested
asset object: the list is dumped to its JSON text and the asset is
flattened into its two columns. -/
theorem prep_c5 (f t : String) (xs : List Value) (fp u : Value)
    (hf2 : jsonEncodedFields.contains f = true)
    (hfp' : f ≠ "asset_file_path") (hfu : f ≠ "asset_url") :
    _prepare_data_for_insert t
      [(f, Value.list xs), ("asset", Value.obj [("file_path", fp), ("url", u)])]
      = [(f, Value.str (json_dumps (Value.list xs))),
         ("asset_file_path", fp), ("asset_url", u)] := by
  unfold _prepare_data_for_insert
  rw [List.foldl_cons, List.foldl_cons, List.foldl_nil]
  rw [show prepareEntry [] f (Value.list xs)
      = [(f, Value.str (json_dumps (Value.list xs)))] from by
    rw [prepareEntry.eq_def, if_pos ⟨hf2, by simp⟩]
    rfl]
  rw [show prepareEntry [(f, Value.str (json_dumps (Value.list xs)))] "asset"
      (Value.obj [("file_path", fp), ("url", u)])
      = dset (dset [(f, Value.str (json_dumps (Value.list xs)))] "asset_file_path" fp)
          "asset_url" u from by
    rw [prepareEntry.eq_def, if_neg (fun h => absurd h.1 (by decide)),
      if_pos ⟨rfl, by simp⟩]
    rfl]
  rw [dset_of_not_has [(f, Value.str (json_dumps (Value.list xs)))] "asset_file_path" fp
    (by simp [dhas]; exact hfp')]
  simp only [List.cons_append, List.nil_append]
  rw [dset_of_not_has
    [(f, Value.str (json_dumps (Value.list xs))), ("asset_file_path", fp)] "asset_url" u
    (by simp [dhas]; exact hfu)]
  simp only [List.cons_append, List.nil_append]

/-- Reading the stored form back: the JSON text is decoded to the original
list and the two truthy asset columns are reassembled into the nested
object. -/
theorem rtd_c5 (f : String) (xs : List Value) (fp u : Value)
    (hf1 : jsonDecodedFields.contains f = true)
    (hfa : f ≠ "asset") (hfp' : f ≠ "asset_file_path") (hfu : f ≠ "asset_url")
    (hfp : pyTruthy fp = true) (hu : pyTruthy u = true) :
    _row_to_dict [(f, Value.str (json_dumps (Value.list xs))),
      ("asset_file_path", fp), ("asset_url", u)]
      = [(f, Value.list xs), ("asset", Value.obj [("file_path", fp), ("url", u)])] := by
  simp only [_row_to_dict, List.foldl_cons, List.foldl_nil]
  rw [show rowEntryStep [] f (Value.str (json_dumps (Value.list xs)))
      = [(f, Value.list xs)] from by
    rw [rowEntryStep.eq_def, if_pos ⟨hf1, json_dumps_truthy _⟩]
    dsimp only
    rw [json_loads_json_dumps]
    rfl]
  rw [show rowEntryStep [(f, Value.list xs)] "asset_file_path" fp
      = [(f, Value.list xs), ("asset", Value.obj [("file_path", fp)])] from by
    rw [rowEntryStep.eq_def, if_neg (fun h => absurd h.1 (by decide)),
      if_pos (Or.inl rfl)]
    dsimp only
    rw [show dhas [(f, Value.list xs)] "asset" = false from by simp [dhas]; exact hfa]
    rw [if_neg (show ¬false = true from by simp)]
    rw [dset_of_not_has [(f, Value.list xs)] "asset" (Value.obj [])
      (by simp [dhas]; exact hfa)]
    simp only [List.cons_append, List.nil_append]
    rw [if_pos ⟨by trivial, hfp⟩]
    rw [assetFieldSet]
    rw [show dget [(f, Value.list xs), ("asset", Value.obj [])] "asset"
        = some (Value.obj []) from by rw [dget_cons, if_neg hfa]; rfl]
    dsimp only
    rw [dset_cons, if_neg (by simpa using hfa), dset_cons, if_pos rfl]
    rfl]
  rw [show rowEntryStep [(f, Value.list xs), ("asset", Value.obj [("file_path", fp)])]
        "asset_url" u
      = [(f, Value.list xs),
         ("asset", Value.obj [("file_path", fp), ("url", u)])] from by
    rw [rowEntryStep.eq_def, if_neg (fun h => absurd h.1 (by decide)),
      if_pos (Or.inr rfl)]
    dsimp only
    rw [show dhas [(f, Value.list xs), ("asset", Value.obj [("file_path", fp)])] "asset"
        = true from by simp [dhas]]
    rw [if_pos (show true = true from rfl)]
    rw [if_neg (fun h => by simp at h), if_pos ⟨by trivial, hu⟩]
    rw [assetFieldSet]
    rw [show dget [(f, Value.list xs), ("asset", Value.obj [("file_path", fp)])] "asset"
        = some (Value.obj [("file_path", fp)]) from by rw [dget_cons, if_neg hfa]; rfl]
    dsimp only
    rw [dset_cons, if_neg (by simpa using hfa), dset_cons, if_pos rfl]
    rfl]
  rw [show dpop [(f, Value.list xs),
        ("asset", Value.obj [("file_path", fp), ("url", u)])] "asset_file_path"
      = [(f, Value.list xs), ("asset", Value.obj [("file_path", fp), ("url", u)])] from by
    rw [dpop_cons, if_neg (by simpa using hfp'), dpop_cons, if_neg (by simp)]
    rfl]
  rw [show dpop [(f, Value.list xs),
        ("asset", Value.obj [("file_path", fp), ("url", u)])] "asset_url"
      = [(f, Value.list xs), ("asset", Value.obj [("file_path", fp), ("url", u)])] from by
    rw [dpop_cons, if_neg (by simpa using hfu), dpop_cons, if_neg (by simp)]
    rfl]
  rw [show dget [(f, Value.list xs),
        ("asset", Value.obj [("file_path", fp), ("url", u)])] "asset"
      = some (Value.obj [("file_path", fp), ("url", u)]) from by
    rw [dget_cons, if_neg hfa]
    rfl]
  rfl

/-- Normalising a record holding only the nested asset object. -/
theorem prep_c5_empty (t : String) (fp u : Value) :
    _prepare_data_for_insert t [("asset", Value.obj [("file_path", fp), ("url", u)])]
      = [("asset_file_path", fp), ("asset_url", u)] := by
  unfold _prepare_data_for_insert
  rw [List.foldl_cons, List.foldl_nil]
  rw [prepareEntry.eq_def, if_neg (fun h => absurd h.1 (by simp [jsonEncodedFields])),
    if_pos ⟨rfl, by simp⟩]
  rfl

/-- Reading back two falsy asset columns: the reassembled asset is empty and
becomes None. -/
theorem rtd_c5_empty (fp u : Value)
    (hfp : pyTruthy fp = false) (hu : pyTruthy u = false) :
    _row_to_dict [("asset_file_path", fp), ("asset_url", u)]
      = [("asset", Value.null)] := by
  simp only [_row_to_dict, List.foldl_cons, List.foldl_nil]
  rw [show rowEntryStep [] "asset_file_path" fp = [("asset", Value.obj [])] from by
    rw [rowEntryStep.eq_def, if_neg (fun h => absurd h.1 (by decide)),
      if_pos (Or.inl rfl)]
    dsimp only
    rw [show dhas ([] : Dict) "asset" = false from rfl]
    rw [if_neg (show ¬false = true from by simp)]
    rw [if_neg (fun h => absurd h.2 (by rw [hfp]; simp)),
      if_neg (fun h => by simp at h)]
    rfl]
  rw [show rowEntryStep [("asset", Value.obj [])] "asset_url" u
      = [("asset", Value.obj [])] from by
    rw [rowEntryStep.eq_def, if_neg (fun h => absurd h.1 (by decide)),
      if_pos (Or.inr rfl)]
    dsimp only
    rw [show dhas [("asset", Value.obj [])] "asset" = true from rfl]
    rw [if_pos (show true = true from rfl)]
    rw [if_neg (fun h => by simp at h),
      if_neg (fun h => absurd h.2 (by rw [hu]; simp))]]
  rfl

/-- Mapping a function that fixes every element is the identity. -/
theorem map_id_of_fix {α : Type} (l : List α) (f : α → α) (h : ∀ x ∈ l, f x = x) :
    l.map f = l := by
  induction l with
  | nil => rfl
  | cons a l ih => rw [List.map_cons, h a (by simp), ih (fun x hx => h x (by simp [hx]))]

/-- Dropping up to a contained character exposes it. -/
theorem dropWhile_ne_of_contains (l : List Char) (c : Char) (h : l.contains c = true) :
    ∃ rest, l.dropWhile (fun x => x ≠ c) = c :: rest := by
  induction l with
  | nil => simp at h
  | cons a l ih =>
      by_cases hac : a = c
      · subst hac
        exact ⟨l, by rw [List.dropWhile_cons_of_neg (by simp)]⟩
      · have h' : l.contains c = true := by
          rw [List.contains_cons, Bool.or_eq_true] at h
          rcases h with h | h
          · have hh : c = a := by simpa using h
            exact absurd hh.symm hac
          · exact h
        obtain ⟨rest, hr⟩ := ih h'
        exact ⟨rest, by rw [List.dropWhile_cons_of_pos (by simp [hac])]; exact hr⟩

/-- The table prefix extracted from a composite id, followed by the colon,
is a prefix of the id. -/
theorem idTableOf_isPre (id : String) (hc : id.data.contains ':' = true) :
    ((idTableOf id ++ ":").data).isPrefixOf id.data = true := by
  rw [List.isPrefixOf_iff_prefix]
  have hdata : (idTableOf id ++ ":").data = (idTableOf id).data ++ [':'] := by
    rw [String.data_append]
  rw [hdata, idTableOf]
  obtain ⟨rest, hrest⟩ := dropWhile_ne_of_contains id.data ':' hc
  refine ⟨rest, ?_⟩
  show String.data (String.mk (id.data.takeWhile (fun c => c ≠ ':'))) ++ [':'] ++ rest
    = id.data
  rw [show String.data (String.mk (id.data.takeWhile (fun c => c ≠ ':')))
    = id.data.takeWhile (fun c => c ≠ ':') from rfl]
  rw [List.append_assoc, show [':'] ++ rest = ':' :: rest from rfl, ← hrest]
  exact @List.takeWhile_append_dropWhile Char (fun c => decide (c ≠ ':')) id.data

/-- Every entry of an assigned dict is the new entry or an old one. -/
theorem mem_dset (d : Dict) (k : String) (v : Value) (kv : String × Value)
    (h : kv ∈ dset d k v) : kv = (k, v) ∨ kv ∈ d := by
  induction d with
  | nil => simp [dset] at h; exact Or.inl h
  | cons e d ih =>
      rw [dset] at h
      by_cases he : e.1 = k
      · rw [if_pos he] at h
        rcases List.mem_cons.mp h with h | h
        · exact Or.inl h
        · exact Or.inr (List.mem_cons.mpr (Or.inr h))
      · rw [if_neg he] at h
        rcases List.mem_cons.mp h with h | h
        · exact Or.inr (List.mem_cons.mpr (Or.inl h))
        · rcases ih h with h | h
          · exact Or.inl h
          · exact Or.inr (List.mem_cons.mpr (Or.inr h))

/-- Popping an absent key changes nothing. -/
theorem dpop_of_not_has (d : Dict) (k : String) (h : dhas d k = false) :
    dpop d k = d := by
  rw [dpop]
  apply List.filter_eq_self.mpr
  intro kv hm
  have := List.any_eq_false.mp h kv hm
  simp only [decide_eq_true_eq] at this
  simp [this]

/-- Entry facts carry through the conditional assignment. -/
theorem optSet_keys {α : Type} (d : Dict) (k : String) (f : α → Value)
    (o : Option α) (P : String × Value → Prop)
    (hP : ∀ kv ∈ d, P kv) (hk : ∀ a, P (k, f a)) :
    ∀ kv ∈ optSet d k f o, P kv := by
  rcases o with _ | a
  · exact hP
  · intro kv hm
    rcases mem_dset _ _ _ _ hm with rfl | hm2
    · exact hk a
    · exact hP kv hm2

/-- Key uniqueness carries through the conditional assignment. -/
theorem optSet_nodup {α : Type} (d : Dict) (k : String) (f : α → Value)
    (o : Option α) (h : (d.map Prod.fst).Nodup) :
    ((optSet d k f o).map Prod.fst).Nodup := by
  rcases o with _ | a
  · exact h
  · exact dset_nodup d k (f a) h

/-- Other keys read through the conditional assignment. -/
theorem optSet_get_ne {α : Type} (d : Dict) (k : String) (f : α → Value)
    (o : Option α) (c : String) (h : c ≠ k) :
    dget (optSet d k f o) c = dget d c := by
  rcases o with _ | a
  · rfl
  · exact dget_dset_ne d k c (f a) h

/-- A supplied option reads back its value. -/
theorem optSet_get_self {α : Type} (d : Dict) (k : String) (f : α → Value)
    (a : α) : dget (optSet d k f (some a)) k = some (f a) :=
  dget_dset_self d k (f a)

/-- Evaluation of repo_update on the canonical path: same-table composite
id, plain validated patch columns, target row found: the row is rewritten
through the SET clause and returned as re-read. -/
theorem repo_update_found (table id : String) (ud : Dict) (now : String) (db : DB)
    (tbl : Table) (r : Dict)
    (hvalid : isValidIdent table = true)
    (hc : id.data.contains ':' = true)
    (hpre : (table ++ ":").data.isPrefixOf id.data = true)
    (htb : dbGetTable db table = some tbl)
    (hid : dhas ud "id" = false)
    (hnd' : ((dset ud "updated" (Value.str now)).map Prod.fst).Nodup)
    (hplain' : ∀ kv ∈ dset ud "updated" (Value.str now), kv.1 ∉ writeSpecialKeys)
    (hvalcols : ∀ kv ∈ dset ud "updated" (Value.str now), isValidIdent kv.1 = true)
    (hcols : ∀ kv ∈ dset ud "updated" (Value.str now), tbl.cols.contains kv.1 = true)
    (hidn : dget (dset ud "updated" (Value.str now)) "id" = none)
    (hfind : tbl.rows.find? (fun row => dget row "id" == some (Value.str id)) = some r) :
    repo_update table id ud now db
      = .ok ([parse_record_ids_items (_row_to_dict (rowFull tbl.cols
          (applySets r (dset ud "updated" (Value.str now)))))],
        dbSetTable db table { cols := tbl.cols, rows := tbl.rows.map (fun x =>
          if dget x "id" == some (Value.str id)
          then applySets x (dset ud "updated" (Value.str now)) else x) }) := by
  have hval : validate_identifier table = .ok table := by
    rw [validate_identifier, if_pos hvalid]
  simp only [repo_update.eq_def]
  rw [hc, hpre]
  simp only [Bool.not_true, Bool.and_false, Bool.false_eq_true, if_false, if_true]
  rw [hval]
  dsimp only
  rw [dpop_of_not_has ud "id" hid]
  rw [prep_plain_id table _ hplain' hnd']
  rw [show validateColumns (dset ud "updated" (Value.str now)) = .ok () from by
    rw [validateColumns, List.find?_eq_none.mpr
      (fun kv hm => by rw [hvalcols kv hm]; simp)]]
  dsimp only
  rw [sqlUpdateById, htb]
  dsimp only
  have hccf : ((dset ud "updated" (Value.str now)).any
      (fun kv => !tbl.cols.contains kv.1)) = false :=
    List.any_eq_false.mpr (fun kv hm => by rw [hcols kv hm]; simp)
  rw [if_neg (by rw [hccf]; simp)]
  dsimp only
  rw [sqlSelectById, dbGetTable_dbSetTable_self db table tbl _ htb]
  dsimp only
  have hpres : ∀ x, ((fun row => dget row "id" == some (Value.str id))
      ((fun x => if dget x "id" == some (Value.str id)
        then applySets x (dset ud "updated" (Value.str now)) else x) x))
      = (dget x "id" == some (Value.str id)) := by
    intro x
    by_cases hx : (dget x "id" == some (Value.str id)) = true
    · show (dget (if dget x "id" == some (Value.str id)
        then applySets x (dset ud "updated" (Value.str now)) else x) "id"
        == some (Value.str id)) = _
      rw [if_pos hx, applySets_get _ _ _ hnd', hidn]
    · show (dget (if dget x "id" == some (Value.str id)
        then applySets x (dset ud "updated" (Value.str now)) else x) "id"
        == some (Value.str id)) = _
      rw [if_neg hx]
  rw [find?_map_pres _ _ _ hpres, hfind]
  rw [show Option.map (fun x => if dget x "id" == some (Value.str id)
      then applySets x (dset ud "updated" (Value.str now)) else x) (some r)
      = some (applySets r (dset ud "updated" (Value.str now))) from by
    rw [show Option.map (fun x => if dget x "id" == some (Value.str id)
        then applySets x (dset ud "updated" (Value.str now)) else x) (some r)
      = some (if dget r "id" == some (Value.str id)
        then applySets r (dset ud "updated" (Value.str now)) else r) from rfl]
    rw [if_pos (List.find?_some hfind)]]
  rfl

/-! Scanning toolkit for the symbolic SELECT-star-FROM-variable query. -/

/-- A word character is not whitespace. -/
theorem wordChar_not_space (c : Char) (h : isWordChar c = true) :
    isPySpace c = false := by
  have h1 : c ≠ ' ' := by intro he; subst he; revert h; decide
  have h2 : c ≠ '\t' := by intro he; subst he; revert h; decide
  have h3 : c ≠ '\n' := by intro he; subst he; revert h; decide
  have h4 : c ≠ '\r' := by intro he; subst he; revert h; decide
  have h5 : c ≠ '\x0b' := by intro he; subst he; revert h; decide
  have h6 : c ≠ '\x0c' := by intro he; subst he; revert h; decide
  simp [isPySpace, h1, h2, h3, h4, h5, h6]

/-- Reading back a valid scalar value from its character. -/
theorem charToNat_ofNat_valid (n : Nat) (h : n.isValidChar) :
    (Char.ofNat n).toNat = n := by
  rw [Char.ofNat, dif_pos h]
  show (Char.ofNatAux n h).val.toNat = n
  rw [Char.ofNatAux]
  show (UInt32.ofNatCore n _).toNat = n
  rfl

/-- The scalar ranges a word character can live in. -/
theorem wordChar_ranges (c : Char) (h : isWordChar c = true) :
    (65 ≤ c.toNat ∧ c.toNat ≤ 90) ∨ (97 ≤ c.toNat ∧ c.toNat ≤ 122)
      ∨ (48 ≤ c.toNat ∧ c.toNat ≤ 57) ∨ c.toNat = 95 := by
  rw [isWordChar] at h
  simp only [Bool.or_eq_true, decide_eq_true_eq] at h
  rcases h with (h | h) | h
  · rw [Char.isAlpha, Bool.or_eq_true] at h
    rcases h with h | h
    · rw [Char.isUpper] at h
      simp only [Bool.and_eq_true, decide_eq_true_eq] at h
      exact Or.inl ⟨h.1, h.2⟩
    · rw [Char.isLower] at h
      simp only [Bool.and_eq_true, decide_eq_true_eq] at h
      exact Or.inr (Or.inl ⟨h.1, h.2⟩)
  · rw [Char.isDigit] at h
    simp only [Bool.and_eq_true, decide_eq_true_eq] at h
    exact Or.inr (Or.inr (Or.inl ⟨h.1, h.2⟩))
  · subst h
    exact Or.inr (Or.inr (Or.inr rfl))

/-- The lower-case form of a word character is never the colon. -/
theorem wordChar_toLower_ne_colon (c : Char) (h : isWordChar c = true) :
    c.toLower ≠ ':' := by
  have hcases := wordChar_ranges c h
  rw [Char.toLower]
  intro he
  have hn := congrArg Char.toNat he
  rw [show (':' : Char).toNat = 58 from rfl] at hn
  by_cases hr : c.toNat ≥ 65 ∧ c.toNat ≤ 90
  · rw [if_pos hr] at hn
    rw [charToNat_ofNat_valid (c.toNat + 32) (Or.inl (by omega))] at hn
    omega
  · rw [if_neg hr] at hn
    omega

/-- A matching head advances the case-insensitive literal match. -/
theorem ciDrop_cons_eq (p c : Char) (ps cs : List Char) (h : c.toLower = p) :
    ciDrop (p :: ps) (c :: cs) = ciDrop ps cs := by
  rw [ciDrop, if_pos h]

/-- A mismatched head fails the case-insensitive literal match. -/
theorem ciDrop_cons_ne (p c : Char) (ps cs : List Char) (h : c.toLower ≠ p) :
    ciDrop (p :: ps) (c :: cs) = none := by
  rw [ciDrop, if_neg h]

/-- The rest of a case-insensitive match comes from the input. -/
theorem ciDrop_mem : ∀ (pat s r : List Char), ciDrop pat s = some r →
    ∀ c ∈ r, c ∈ s
  | [], s, r => by
      intro h c hc
      rw [ciDrop] at h
      cases h
      exact hc
  | p :: ps, [], r => by
      intro h
      rw [ciDrop] at h
      cases h
  | p :: ps, c0 :: cs, r => by
      intro h c hc
      rw [ciDrop] at h
      split at h
      · exact List.mem_cons.mpr (Or.inr (ciDrop_mem ps cs r h c hc))
      · cases h

/-- A literal matches itself exactly. -/
theorem dropLiteral_self : ∀ (l : List Char), dropLiteral l l = some []
  | [] => rfl
  | c :: cs => by rw [dropLiteral, if_pos rfl]; exact dropLiteral_self cs

/-- The fallback-last of a nonempty list is one of its elements. -/
theorem getLastD_mem : ∀ (l : List Char) (d : Char), l ≠ [] → l.getLastD d ∈ l
  | [], d, h => absurd rfl h
  | [a], d, _ => by simp [List.getLastD]
  | a :: b :: t, d, _ => by
      rw [show (a :: b :: t).getLastD d = (b :: t).getLastD a from rfl]
      exact List.mem_cons.mpr (Or.inr (getLastD_mem (b :: t) a (by simp)))

/-- takeWhile keeps a list every element of which satisfies the test. -/
theorem takeWhile_all (p : Char → Bool) : ∀ (l : List Char),
    (∀ c ∈ l, p c = true) → l.takeWhile p = l
  | [], _ => rfl
  | c :: cs, h => by
      rw [List.takeWhile_cons_of_pos (h c (by simp)),
        takeWhile_all p cs (fun x hx => h x (by simp [hx]))]

/-- Rebuilding a string from its characters is the identity. -/
theorem strmk_data (s : String) : String.mk s.data = s := rfl

/-- Stripping a string that neither starts nor ends in whitespace changes
nothing. -/
theorem pyStrip_id (s : String)
    (h1 : ∃ c r, s.data = c :: r ∧ isPySpace c = false)
    (h2 : ∃ c r, s.data.reverse = c :: r ∧ isPySpace c = false) :
    pyStrip s = s := by
  obtain ⟨c, r, hcr, hc⟩ := h1
  obtain ⟨d, q, hdq, hd⟩ := h2
  rw [pyStrip, hcr, List.dropWhile_cons_of_neg (by simp [hc]), ← hcr, hdq,
    List.dropWhile_cons_of_neg (by simp [hd]), ← hdq, List.reverse_reverse]

/-- A head whose lower-case form is not f cannot open a FROM-ONLY match. -/
theorem tryFromOnlyAt_none_headne (pw : Bool) (c : Char) (cs : List Char)
    (h : c.toLower ≠ 'f') : tryFromOnlyAt pw (c :: cs) = none := by
  rw [tryFromOnlyAt.eq_def,
    show ("from".data) = 'f' :: 'r' :: 'o' :: 'm' :: [] from rfl,
    ciDrop_cons_ne _ _ _ _ h]
  split
  · rfl
  · rfl

/-- All-word text cannot open a FROM-ONLY match: even when FROM matches, no
whitespace can follow. -/
theorem tryFromOnlyAt_none_words (pw : Bool) (s : List Char)
    (h : ∀ c ∈ s, isWordChar c = true) : tryFromOnlyAt pw s = none := by
  rw [tryFromOnlyAt.eq_def]
  cases hcd : ciDrop "from".data s with
  | none =>
      split
      · rfl
      · rfl
  | some r1 =>
      have hr1 : ∀ c ∈ r1, isWordChar c = true :=
        fun c hc => h c (ciDrop_mem _ _ _ hcd c hc)
      cases r1 with
      | nil =>
          split
          · rfl
          · rfl
      | cons c t =>
          split
          · rfl
          · dsimp only
            rw [List.takeWhile_cons_of_neg
              (by simp [wordChar_not_space c (hr1 c (by simp))])]
            rw [if_pos (show ([] : List Char).isEmpty = true from rfl)]

/-- The FROM-ONLY rewrite fixes all-word text. -/
theorem subFromOnlyGo_words : ∀ (s : List Char),
    (∀ c ∈ s, isWordChar c = true) → ∀ (pw : Bool), subFromOnlyGo pw s = s
  | [], _, pw => subFromOnlyGo_nil pw
  | c :: cs, h, pw => by
      rw [subFromOnlyGo_cons_none pw c cs (tryFromOnlyAt_none_words pw _ h),
        subFromOnlyGo_words cs (fun x hx => h x (by simp [hx])) (isWordChar c)]

/-- A clause pattern cannot match at a non-space head. -/
theorem clauseMatchAt_nospace (kw : List Char) (la : List Char → Bool)
    (c : Char) (cs : List Char) (h : isPySpace c = false) :
    clauseMatchAt kw la (c :: cs) = none := by
  rw [clauseMatchAt.eq_def]
  dsimp only
  rw [List.takeWhile_cons_of_neg (by simp [h])]
  rfl

/-- A clause pattern cannot match when its keyword does not follow the
space run. -/
theorem clauseMatchAt_nokw (kw : List Char) (la : List Char → Bool)
    (s : List Char) (h : ciDrop kw (s.dropWhile isPySpace) = none) :
    clauseMatchAt kw la s = none := by
  rw [clauseMatchAt.eq_def]
  dsimp only
  rw [h]
  split
  · rfl
  · rfl

/-- The clause search resumes on a failed head. -/
theorem clauseFirst_cons_none (kw : List Char) (la : List Char → Bool)
    (c : Char) (cs : List Char) (h : clauseMatchAt kw la (c :: cs) = none) :
    clauseFirst kw la (c :: cs) = clauseFirst kw la cs := by
  rw [show clauseFirst kw la (c :: cs)
      = (match clauseMatchAt kw la (c :: cs) with
         | some p => some p.2
         | none => clauseFirst kw la cs) from rfl, h]

/-- The clause search fails over space-free text. -/
theorem clauseFirst_none_of_nospace (kw : List Char) (la : List Char → Bool) :
    ∀ (s : List Char), (∀ c ∈ s, isPySpace c = false) →
      clauseFirst kw la s = none
  | [], _ => rfl
  | c :: cs, h => by
      rw [clauseFirst_cons_none kw la c cs (clauseMatchAt_nospace kw la c cs
        (h c (by simp)))]
      exact clauseFirst_none_of_nospace kw la cs (fun x hx => h x (by simp [hx]))

/-- An fn-call pattern fails where its name does not match. -/
theorem fnCallAt_none (fname s : List Char) (h : ciDrop fname s = none) :
    fnCallAt fname s = false := by
  rw [fnCallAt.eq_def, h]

/-- One step of the fn-call scan. -/
theorem hasFnCall_cons (fname : List Char) (c : Char) (cs : List Char) :
    hasFnCall fname (c :: cs) = (fnCallAt fname (c :: cs) || hasFnCall fname cs) :=
  rfl

/-- The fn-prefix with its colon cannot match all-word text. -/
theorem ciDrop_fnpat_words (ps : List Char) : ∀ (s : List Char),
    (∀ c ∈ s, isWordChar c = true) →
    ciDrop ('f' :: 'n' :: ':' :: ps) s = none
  | [], _ => rfl
  | [c1], _ => by
      rw [ciDrop]
      split
      · rfl
      · rfl
  | c1 :: c2 :: r, h => by
      rw [ciDrop]
      split
      · rw [ciDrop]
        split
        · cases r with
          | nil => rfl
          | cons c3 r2 =>
              rw [ciDrop_cons_ne _ _ _ _
                (wordChar_toLower_ne_colon c3 (h c3 (by simp)))]
        · rfl
      · rfl

/-- The fn-call scan fails over all-word text. -/
theorem hasFnCall_words (ps : List Char) : ∀ (s : List Char),
    (∀ c ∈ s, isWordChar c = true) →
    hasFnCall ('f' :: 'n' :: ':' :: ps) s = false
  | [], _ => rfl
  | c :: cs, h => by
      rw [hasFnCall_cons,
        fnCallAt_none _ _ (ciDrop_fnpat_words ps (c :: cs) h),
        hasFnCall_words ps cs (fun x hx => h x (by simp [hx]))]
      rfl

/-- takeWhile passes over a fully satisfying block. -/
theorem takeWhile_append_all (p : Char → Bool) : ∀ (a b : List Char),
    (∀ c ∈ a, p c = true) → (a ++ b).takeWhile p = a ++ b.takeWhile p
  | [], b, _ => rfl
  | c :: a, b, h => by
      rw [List.cons_append, List.takeWhile_cons_of_pos (h c (by simp)),
        takeWhile_append_all p a b (fun x hx => h x (by simp [hx])), List.cons_append]

/-- Two strings differ when their head characters do. -/
theorem strmk_head_ne (c : Char) (l : List Char) (t : String) (d : Char)
    (r : List Char) (ht : t.data = d :: r) (h : c ≠ d) : String.mk (c :: l) ≠ t := by
  intro hh
  have hd2 : c :: l = t.data := congrArg String.data hh
  rw [ht] at hd2
  injection hd2 with h1 _
  exact h h1

/-- The fn-call scan stays false across a failing head. -/
theorem hasFnCall_cons_false (fname : List Char) (c : Char) (cs : List Char)
    (h1 : fnCallAt fname (c :: cs) = false) (h2 : hasFnCall fname cs = false) :
    hasFnCall fname (c :: cs) = false := by
  rw [hasFnCall_cons, h1, h2]
  rfl

/-! The claims. -/

/-- C10: the id-normalisation helper parse_record_ids is the identity on
every JSON-like value, scalars, lists and dicts alike, so applying it to
query results never alters them. -/
theorem claim_C10 (v : Value) : parse_record_ids v = v :=
  parse_record_ids_eq v

/-- The notebook table with the columns the C1 run touches, starting
empty. -/
def c1DB : DB := [("notebook", ⟨["id", "created", "updated", "name"], []⟩)]

/-- Two notebook rows for a bulk insert. -/
def c1Rows : List Dict := [[("name", Value.str "a")], [("name", Value.str "b")]]

/-- A token supply whose second draw collides with the first, reproducing a
uniqueness violation inside the bulk-insert loop. -/
def c1Tokens : Nat → String := fun _ => "tok"

/-- C1: the inner except clause of repo_insert for sqlite3.IntegrityError is
dead code, because repo_create wraps every integrity error into a
RuntimeError before it reaches the loop. With ignore_duplicates the whole
bulk insert therefore degrades to the outer blanket handler: the call
returns an empty list even though the first row was created and committed
(second conjunct: the notebook table holds one row afterwards), instead of
skipping the violating row and returning the created ones; without
ignore_duplicates the violation surfaces only as the generic
"Failed to insert records" RuntimeError, not through the dedicated
integrity-error branch. -/
theorem claim_C1 :
    (repo_insert "notebook" c1Rows c1Tokens "T" c1DB true).1 = Except.ok []
    ∧ ((repo_insert "notebook" c1Rows c1Tokens "T" c1DB true).2.map
        (fun p => (p.1, p.2.rows.length))) = [("notebook", 1)]
    ∧ (repo_insert "notebook" c1Rows c1Tokens "T" c1DB false).1
      = Except.error (.runtimeError "Failed to insert records"
          (some (.runtimeError "Failed to create record (integrity error)"
            (some (.integrityError "UNIQUE constraint failed: notebook.id"))))) := by
  refine ⟨?_, ?_, ?_⟩ <;> decide

/-- C7: repo_delete raises the invalid-ID-format RuntimeError (caused by the
ValueError) on every id without a colon; on a composite id whose table
prefix is a valid identifier naming an existing table it returns True, and
doing it again still returns True whether or not the first call removed
anything: delete is idempotent. -/
theorem claim_C7 :
    (∀ (record_id : String) (db : DB),
      record_id.data.contains ':' = false →
      repo_delete record_id db
        = .error (.runtimeError "Failed to delete record (invalid ID format)"
            (some (.valueError ("Invalid record ID format: " ++ record_id)))))
    ∧ (∀ (record_id : String) (db : DB) (tbl : Table),
      record_id.data.contains ':' = true →
      isValidIdent (idTableOf record_id) = true →
      dbGetTable db (idTableOf record_id) = some tbl →
      ∃ db2 db3, repo_delete record_id db = .ok (true, db2)
        ∧ repo_delete record_id db2 = .ok (true, db3)) := by
  constructor
  · intro record_id db h
    simp only [repo_delete, ensure_record_id, h, Bool.not_false]
    rfl
  · intro record_id db tbl hc hv ht
    have hval : validate_identifier (idTableOf record_id) = .ok (idTableOf record_id) := by
      rw [validate_identifier, if_pos hv]
    have hdel : ∀ (dbx : DB) (tblx : Table),
        dbGetTable dbx (idTableOf record_id) = some tblx →
        sqlDeleteById dbx (idTableOf record_id) (.str record_id)
          = .ok (dbSetTable dbx (idTableOf record_id)
              { cols := tblx.cols,
                rows := tblx.rows.filter
                  (fun r => !(dget r "id" == some (.str record_id))) }) := by
      intro dbx tblx htx
      rw [sqlDeleteById, htx]
    have h1 : repo_delete record_id db
        = .ok (true, dbSetTable db (idTableOf record_id)
            { cols := tbl.cols,
              rows := tbl.rows.filter
                (fun r => !(dget r "id" == some (.str record_id))) }) := by
      simp only [repo_delete, ensure_record_id, hc, Bool.not_true]
      rw [if_neg (by simp), hval]
      dsimp only
      rw [hdel db tbl ht]
    have h2 : repo_delete record_id (dbSetTable db (idTableOf record_id)
        { cols := tbl.cols,
          rows := tbl.rows.filter
            (fun r => !(dget r "id" == some (.str record_id))) })
        = .ok (true, dbSetTable (dbSetTable db (idTableOf record_id)
            { cols := tbl.cols,
              rows := tbl.rows.filter
                (fun r => !(dget r "id" == some (.str record_id))) })
            (idTableOf record_id)
            { cols := tbl.cols,
              rows := (tbl.rows.filter
                  (fun r => !(dget r "id" == some (.str record_id)))).filter
                (fun r => !(dget r "id" == some (.str record_id))) }) := by
      simp only [repo_delete, ensure_record_id, hc, Bool.not_true]
      rw [if_neg (by simp), hval]
      dsimp only
      rw [hdel _ _ (dbGetTable_dbSetTable_self db (idTableOf record_id) tbl _ ht)]
    exact ⟨_, _, h1, h2⟩

/-- C4: parse_surreal_query is total by construction (it returns a plain
pair, the embedding has no error channel because the source never raises
here), and a query matching none of the recognised rewrite patterns comes
back unmodified except for the substitution of each bound dollar-variable
by its colon form, with the variable mapping untouched. -/
theorem claim_C4 (q : String) (vars : Dict)
    (h1 : matchesCreateContent (substAllVars vars (pyStrip q).data) = false)
    (h2 : matchDeleteWhere (substAllVars vars (pyStrip q).data) = none)
    (h3 : subFromOnly (substAllVars vars (pyStrip q).data)
      = substAllVars vars (pyStrip q).data)
    (h4 : omitClauseOf (substAllVars vars (pyStrip q).data) = none)
    (h5 : fetchClauseOf (substAllVars vars (pyStrip q).data) = none)
    (h6 : hasTextSearchCall (substAllVars vars (pyStrip q).data) = false)
    (h7 : hasVectorSearchCall (substAllVars vars (pyStrip q).data) = false) :
    parse_surreal_query q vars
      = (String.mk (substAllVars vars (pyStrip q).data), vars) := by
  simp only [parse_surreal_query, h1, Bool.false_eq_true, if_false, h2, h3, h4, h5,
    h6, h7, List.isEmpty_nil, if_true]

/-- C4 witness: a query with no recognised construct and no variables passes
through unchanged. -/
theorem claim_C4_witness :
    parse_surreal_query "UPDATE notebook SET name = :x" []
      = ("UPDATE notebook SET name = :x", []) := by
  have hs : substAllVars [] (pyStrip "UPDATE notebook SET name = :x").data
      = "UPDATE notebook SET name = :x".data := by
    rw [show pyStrip "UPDATE notebook SET name = :x"
      = "UPDATE notebook SET name = :x" from by decide]
    rfl
  have h := claim_C4 "UPDATE notebook SET name = :x" []
    (by rw [hs]; decide)
    (by rw [hs]; decide)
    (by rw [hs]; exact subFromOnly_id_noFR _ (by decide))
    (by rw [hs]; decide)
    (by rw [hs]; decide)
    (by rw [hs]; decide)
    (by rw [hs]; decide)
  rw [hs] at h
  exact h.trans (by decide)

/-- C8 (corrected): on the path that reaches the sentinel checks, that is
when the query matches neither the CREATE-CONTENT nor the DELETE-WHERE
early return, a call to a search dialect function makes repo_query raise
NotImplementedError before touching the database, with a distinct message
per function — the text-search check coming first. The counterexample shows
the early returns pre-empt the sentinels, so the claim's "for every query
containing a call" is too strong. -/
theorem claim_C8 (q : String) (vars : Dict)
    (h1 : matchesCreateContent (substAllVars vars (pyStrip q).data) = false)
    (h2 : matchDeleteWhere (substAllVars vars (pyStrip q).data) = none) :
    (hasTextSearchCall (fetchStage (omitStage (subFromOnly
        (substAllVars vars (pyStrip q).data)))) = true →
      repo_query_plan q vars = .error (.notImplementedError ftsMessage))
    ∧ (hasTextSearchCall (fetchStage (omitStage (subFromOnly
        (substAllVars vars (pyStrip q).data)))) = false →
      hasVectorSearchCall (fetchStage (omitStage (subFromOnly
        (substAllVars vars (pyStrip q).data)))) = true →
      repo_query_plan q vars = .error (.notImplementedError vectorSearchMessage)) := by
  have hstage : ∀ s : List Char, fetchStage (omitStage s)
      = (match fetchClauseOf (match omitClauseOf s with
          | some _ => omitRemovedOf s
          | none => s) with
         | some _ => fetchRemovedOf (match omitClauseOf s with
            | some _ => omitRemovedOf s
            | none => s)
         | none => (match omitClauseOf s with
            | some _ => omitRemovedOf s
            | none => s)) := by
    intro s
    rw [fetchStage, omitStage]
  constructor
  · intro ht
    rw [hstage] at ht
    have hp : parse_surreal_query q vars = ("__USE_FTS__", vars) := by
      simp only [parse_surreal_query, h1, Bool.false_eq_true, if_false, h2]
      cases ho : omitClauseOf (subFromOnly (substAllVars vars (pyStrip q).data)) with
      | none =>
          rw [ho] at ht
          cases hf : fetchClauseOf (subFromOnly (substAllVars vars (pyStrip q).data)) with
          | none =>
              rw [hf] at ht
              simp only [ht, if_true]
          | some g =>
              rw [hf] at ht
              simp only [ht, if_true]
      | some g =>
          rw [ho] at ht
          cases hf : fetchClauseOf (omitRemovedOf
              (subFromOnly (substAllVars vars (pyStrip q).data))) with
          | none =>
              rw [hf] at ht
              simp only [ht, if_true]
          | some g2 =>
              rw [hf] at ht
              simp only [ht, if_true]
    simp only [repo_query_plan, hp]
    simp
  · intro ht hv
    rw [hstage] at ht hv
    have hp : parse_surreal_query q vars = ("__USE_VECTOR_SEARCH__", vars) := by
      simp only [parse_surreal_query, h1, Bool.false_eq_true, if_false, h2]
      cases ho : omitClauseOf (subFromOnly (substAllVars vars (pyStrip q).data)) with
      | none =>
          rw [ho] at ht hv
          cases hf : fetchClauseOf (subFromOnly (substAllVars vars (pyStrip q).data)) with
          | none =>
              rw [hf] at ht hv
              simp only [ht, hv, Bool.false_eq_true, if_false, if_true]
          | some g =>
              rw [hf] at ht hv
              simp only [ht, hv, Bool.false_eq_true, if_false, if_true]
      | some g =>
          rw [ho] at ht hv
          cases hf : fetchClauseOf (omitRemovedOf
              (subFromOnly (substAllVars vars (pyStrip q).data))) with
          | none =>
              rw [hf] at ht hv
              simp only [ht, hv, Bool.false_eq_true, if_false, if_true]
          | some g2 =>
              rw [hf] at ht hv
              simp only [ht, hv, Bool.false_eq_true, if_false, if_true]
    simp only [repo_query_plan, hp]
    simp

/-- C8 witness: simple queries calling each search function raise the
matching NotImplementedError. -/
theorem claim_C8_witness :
    repo_query_plan "x fn::text_search(y)" []
      = .error (.notImplementedError ftsMessage)
    ∧ repo_query_plan "x fn::vector_search(y)" []
      = .error (.notImplementedError vectorSearchMessage) := by
  have hs1 : substAllVars [] (pyStrip "x fn::text_search(y)").data
      = "x fn::text_search(y)".data := by
    rw [show pyStrip "x fn::text_search(y)" = "x fn::text_search(y)" from by decide]
    rfl
  have hs2 : substAllVars [] (pyStrip "x fn::vector_search(y)").data
      = "x fn::vector_search(y)".data := by
    rw [show pyStrip "x fn::vector_search(y)" = "x fn::vector_search(y)" from by decide]
    rfl
  have hsub1 : subFromOnly "x fn::text_search(y)".data = "x fn::text_search(y)".data :=
    subFromOnly_id_noFR _ (by decide)
  have hsub2 : subFromOnly "x fn::vector_search(y)".data = "x fn::vector_search(y)".data :=
    subFromOnly_id_noFR _ (by decide)
  constructor
  · refine (claim_C8 "x fn::text_search(y)" [] (by rw [hs1]; decide)
      (by rw [hs1]; decide)).1 ?_
    rw [hs1, hsub1, omitStage,
      show omitClauseOf "x fn::text_search(y)".data = none from by decide,
      fetchStage,
      show fetchClauseOf "x fn::text_search(y)".data = none from by decide]
    decide
  · refine (claim_C8 "x fn::vector_search(y)" [] (by rw [hs2]; decide)
      (by rw [hs2]; decide)).2 ?_ ?_
    · rw [hs2, hsub2, omitStage,
        show omitClauseOf "x fn::vector_search(y)".data = none from by decide,
        fetchStage,
        show fetchClauseOf "x fn::vector_search(y)".data = none from by decide]
      decide
    · rw [hs2, hsub2, omitStage,
        show omitClauseOf "x fn::vector_search(y)".data = none from by decide,
        fetchStage,
        show fetchClauseOf "x fn::vector_search(y)".data = none from by decide]
      decide

/-- C8 counterexample: a DELETE-WHERE query containing the text-search call
is rewritten by the early-return branch and handed to the SQL engine as a
DELETE statement; repo_query does not raise the not-implemented condition
even though the query text calls fn::text_search. -/
theorem claim_C8_counterexample :
    hasTextSearchCall (substAllVars [("q", Value.str "x")]
        (pyStrip "DELETE note WHERE fn::text_search($q)").data) = true
    ∧ repo_query_plan "DELETE note WHERE fn::text_search($q)" [("q", Value.str "x")]
      = .ok ("DELETE FROM note WHERE fn::text_search(:q)",
          [("q", Value.str "x")], Value.list [], Value.list []) := by
  have hstrip : pyStrip "DELETE note WHERE fn::text_search($q)"
      = "DELETE note WHERE fn::text_search($q)" := by decide
  have hsub : substAllVars [("q", Value.str "x")]
      (pyStrip "DELETE note WHERE fn::text_search($q)").data
      = "DELETE note WHERE fn::text_search(:q)".data := by
    rw [hstrip]
    show subVar "q".data "DELETE note WHERE fn::text_search($q)".data = _
    rw [show "DELETE note WHERE fn::text_search($q)".data
        = "DELETE note WHERE fn::text_search(".data ++ ('$' :: 'q' :: ')' :: []) from
        by decide]
    rw [subVar_no_dollar_pre _ _ _ (by decide)]
    rw [subVar_cons_some "q".data '$' ('q' :: ')' :: []) [')'] (by decide)]
    rw [subVar_cons_none _ _ _ (by decide), subVar_nil]
    decide
  refine ⟨by rw [hsub]; decide, ?_⟩
  have hparse : parse_surreal_query "DELETE note WHERE fn::text_search($q)"
      [("q", Value.str "x")]
      = ("DELETE FROM note WHERE fn::text_search(:q)", [("q", Value.str "x")]) := by
    simp only [parse_surreal_query, hsub]
    rw [if_neg (by decide),
      show matchDeleteWhere "DELETE note WHERE fn::text_search(:q)".data
        = some ("note".data, "fn::text_search(:q)".data) from by decide]
    decide
  simp only [repo_query_plan, hparse]
  rw [if_neg (by decide), if_neg (by decide), if_neg (by decide)]
  decide

/-- C5 (corrected): the write/read round trip of structured fields holds
for the three fields the read side decodes (topics, embedding,
youtube_preferred_languages) and for the nested asset object: a list under
a decoded field comes back equal, the two truthy asset columns are
reassembled into an equal nested object, and an all-falsy asset reads back
as None. The counterexample shows the claim's "speakers" example does not
round trip: the read side never decodes it. -/
theorem claim_C5 :
    (∀ (f t : String) (xs : List Value) (fp u : Value),
      f ∈ jsonDecodedFields → pyTruthy fp = true → pyTruthy u = true →
      dget (_row_to_dict (_prepare_data_for_insert t
          [(f, Value.list xs),
           ("asset", Value.obj [("file_path", fp), ("url", u)])])) f
        = some (Value.list xs)
      ∧ dget (_row_to_dict (_prepare_data_for_insert t
          [(f, Value.list xs),
           ("asset", Value.obj [("file_path", fp), ("url", u)])])) "asset"
        = some (Value.obj [("file_path", fp), ("url", u)]))
    ∧ (∀ (t : String) (fp u : Value),
      pyTruthy fp = false → pyTruthy u = false →
      dget (_row_to_dict (_prepare_data_for_insert t
          [("asset", Value.obj [("file_path", fp), ("url", u)])])) "asset"
        = some Value.null) := by
  constructor
  · intro f t xs fp u hf hfp hu
    have hf3 : f = "topics" ∨ f = "embedding" ∨ f = "youtube_preferred_languages" := by
      simpa [jsonDecodedFields] using hf
    have hf1 : jsonDecodedFields.contains f = true := by
      rcases hf3 with rfl | rfl | rfl <;> decide
    have hf2 : jsonEncodedFields.contains f = true := by
      rcases hf3 with rfl | rfl | rfl <;> decide
    have hfa : f ≠ "asset" := by rcases hf3 with rfl | rfl | rfl <;> decide
    have hfp' : f ≠ "asset_file_path" := by rcases hf3 with rfl | rfl | rfl <;> decide
    have hfu : f ≠ "asset_url" := by rcases hf3 with rfl | rfl | rfl <;> decide
    rw [prep_c5 f t xs fp u hf2 hfp' hfu, rtd_c5 f xs fp u hf1 hfa hfp' hfu hfp hu]
    constructor
    · rw [dget_cons, if_pos rfl]
    · rw [dget_cons, if_neg hfa, dget_cons, if_pos rfl]
  · intro t fp u hfp hu
    rw [prep_c5_empty t fp u, rtd_c5_empty fp u hfp hu]
    rfl

/-- C5 counterexample: a speakers list is JSON-encoded on write but not
decoded on read, so it reads back as its JSON text, not as the original
list. -/
theorem claim_C5_counterexample :
    dget (_row_to_dict (_prepare_data_for_insert "source"
        [("speakers", Value.list [Value.str "x"])])) "speakers"
      = some (Value.str "[\"x\"]") := by
  decide

/-- C5 witness: a topics list and a truthy asset round trip, and an
all-empty asset reads back as None. -/
theorem claim_C5_witness :
    (dget (_row_to_dict (_prepare_data_for_insert "source"
        [("topics", Value.list [Value.str "a"]),
         ("asset", Value.obj [("file_path", Value.str "p"),
                              ("url", Value.str "q")])])) "topics"
      = some (Value.list [Value.str "a"])
    ∧ dget (_row_to_dict (_prepare_data_for_insert "source"
        [("topics", Value.list [Value.str "a"]),
         ("asset", Value.obj [("file_path", Value.str "p"),
                              ("url", Value.str "q")])])) "asset"
      = some (Value.obj [("file_path", Value.str "p"), ("url", Value.str "q")]))
    ∧ dget (_row_to_dict (_prepare_data_for_insert "source"
        [("asset", Value.obj [("file_path", Value.str ""),
                              ("url", Value.str "")])])) "asset"
      = some Value.null :=
  ⟨claim_C5.1 "topics" "source" [Value.str "a"] (Value.str "p") (Value.str "q")
     (by decide) (by decide) (by decide),
   claim_C5.2 "source" (Value.str "") (Value.str "") (by decide) (by decide)⟩

/-- C2: a successful repo_create ignores any caller-supplied id key, stamps
the generated composite id table-colon-token (so the returned id starts
with the table prefix), and the row as re-read from the database carries
the same timestamp under created and updated. The data dict and the table
schema carry unique keys, as Python dicts and SQL schemas do. -/
theorem claim_C2 (table : String) (data : Dict) (token now : String) (db : DB)
    (row : Dict) (db2 : DB)
    (hnd : (data.map Prod.fst).Nodup)
    (hcols : ∀ tbl, dbGetTable db table = some tbl → tbl.cols.Nodup)
    (h : repo_create table data token now db = .ok (row, db2)) :
    dget row "id" = some (.str (table ++ ":" ++ token))
    ∧ dget row "created" = some (.str now)
    ∧ dget row "updated" = some (.str now) := by
  rw [repo_create.eq_def] at h
  cases hval : validate_identifier table with
  | error e => rw [hval] at h; simp at h
  | ok tv =>
      have htv : tv = table := by
        rw [validate_identifier] at hval
        by_cases hb : isValidIdent table
        · rw [if_pos hb] at hval
          cases hval
          rfl
        · rw [if_neg hb] at hval
          cases hval
      subst tv
      rw [hval] at h
      dsimp only at h
      rw [generate_id] at h
      set R := table ++ ":" ++ token with hR
      set D := dset (dset (dset (dpop data "id") "id" (Value.str R)) "created"
        (Value.str now)) "updated" (Value.str now) with hD
      set P := _prepare_data_for_insert table D with hP
      have hDnd : (D.map Prod.fst).Nodup := by
        rw [hD]
        exact dset_nodup _ _ _ (dset_nodup _ _ _ (dset_nodup _ _ _ (dpop_nodup _ _ hnd)))
      have hDid : dget D "id" = some (Value.str R) := by
        rw [hD, dget_dset_ne _ _ _ _ (by decide), dget_dset_ne _ _ _ _ (by decide),
          dget_dset_self]
      have hDcr : dget D "created" = some (Value.str now) := by
        rw [hD, dget_dset_ne _ _ _ _ (by decide), dget_dset_self]
      have hDup : dget D "updated" = some (Value.str now) := by
        rw [hD, dget_dset_self]
      have hPget : ∀ (k : String) (v : Value), k ∉ writeSpecialKeys →
          dget D k = some v → dget P k = some v := by
        intro k v hw hg
        rw [hP]
        exact _prepare_get_plain table D k v hw hDnd hg
      have hPid := hPget "id" _ (by decide) hDid
      have hPcr := hPget "created" _ (by decide) hDcr
      have hPup := hPget "updated" _ (by decide) hDup
      cases hvc : validateColumns P with
      | error e => rw [hvc] at h; simp at h
      | ok u =>
          rw [hvc] at h
          dsimp only at h
          rw [sqlInsert] at h
          cases htb : dbGetTable db table with
          | none => rw [htb] at h; simp at h
          | some tbl =>
              rw [htb] at h
              dsimp only at h
              by_cases hcc : P.any (fun kv => !tbl.cols.contains kv.1) = true
              · rw [if_pos hcc] at h; simp at h
              · rw [if_neg hcc] at h
                have hccf : P.any (fun kv => !tbl.cols.contains kv.1) = false :=
                  Bool.eq_false_iff.mpr hcc
                by_cases hid : (match dget P "id" with
                    | some idv => tbl.rows.any (fun r => dget r "id" == some idv)
                    | none => false) = true
                · rw [if_pos hid] at h; simp at h
                · rw [if_neg hid] at h
                  dsimp only at h
                  rw [sqlSelectById] at h
                  rw [dbGetTable_dbSetTable_self db table tbl _ htb] at h
                  dsimp only at h
                  have hany : tbl.rows.any
                      (fun r => dget r "id" == some (Value.str R)) = false := by
                    rw [hPid] at hid
                    exact Bool.eq_false_iff.mpr hid
                  have hfind : ((tbl.rows ++ [P]).find?
                      (fun r => dget r "id" == some (Value.str R))) = some P := by
                    rw [List.find?_append,
                      find?_eq_none_of_any_false _ _ hany]
                    rw [List.find?]
                    rw [show (dget P "id" == some (Value.str R)) = true from by
                      rw [hPid]; simp]
                    rfl
                  have hfind2 : Option.map (rowFull tbl.cols)
                      ((tbl.rows ++ [P]).find?
                        (fun r => dget r "id" == some (Value.str R)))
                      = some (rowFull tbl.cols P) := by
                    rw [hfind]
                    rfl
                  rw [hfind2] at h
                  dsimp only at h
                  simp only [Except.ok.injEq, Prod.mk.injEq] at h
                  obtain ⟨hrow, hdb2⟩ := h
                  subst hrow
                  have hcontains : ∀ (k : String) (v : Value), dget P k = some v →
                      tbl.cols.contains k = true := by
                    intro k v hg
                    have hmem := dget_mem _ _ _ hg
                    have := List.any_eq_false.mp hccf (k, v) hmem
                    simpa using this
                  have hmain : ∀ (k : String) (v : Value), k ∉ readSpecialKeys →
                      dget P k = some v →
                      dget (parse_record_ids_items
                        (_row_to_dict (rowFull tbl.cols P))) k = some v := by
                    intro k v hr hg
                    rw [parse_record_ids_items_eq]
                    apply _row_to_dict_get_plain _ _ _ hr
                    · rw [rowFull_keys]
                      exact hcols tbl htb
                    · rw [rowFull_get, if_pos ?_, hg]
                      · rfl
                      · rw [hcontains k v hg]
                  exact ⟨hmain "id" _ (by decide) hPid,
                    hmain "created" _ (by decide) hPcr,
                    hmain "updated" _ (by decide) hPup⟩

/-- C2 witness: creating a notebook row with a caller-supplied id: the
returned row carries the generated composite id and equal timestamps. -/
theorem claim_C2_witness :
    dget [("id", Value.str "notebook:tok"), ("created", Value.str "T"),
        ("updated", Value.str "T"), ("name", Value.str "N")] "id"
      = some (Value.str ("notebook" ++ ":" ++ "tok"))
    ∧ dget [("id", Value.str "notebook:tok"), ("created", Value.str "T"),
        ("updated", Value.str "T"), ("name", Value.str "N")] "created"
      = some (Value.str "T")
    ∧ dget [("id", Value.str "notebook:tok"), ("created", Value.str "T"),
        ("updated", Value.str "T"), ("name", Value.str "N")] "updated"
      = some (Value.str "T") :=
  claim_C2 "notebook" [("id", Value.str "evil"), ("name", Value.str "N")] "tok" "T"
    c1DB
    [("id", Value.str "notebook:tok"), ("created", Value.str "T"),
     ("updated", Value.str "T"), ("name", Value.str "N")]
    [("notebook", ⟨["id", "created", "updated", "name"],
      [[("name", Value.str "N"), ("id", Value.str "notebook:tok"),
        ("created", Value.str "T"), ("updated", Value.str "T")]]⟩)]
    (by decide)
    (fun tbl ht => by
      rw [show dbGetTable c1DB "notebook"
        = some (⟨["id", "created", "updated", "name"], []⟩ : Table) from rfl] at ht
      cases ht
      decide)
    (by decide)

/-- C6: repo_update resolves an id carrying a foreign table prefix to that
prefix's table (the prefix wins: the call equals the call made with the
prefix as the table argument); strips any id key from the patch; re-stamps
updated regardless of a caller-supplied value, the written and re-read row
carrying the current timestamp as its updated value; and returns the empty
list, not an error, when the target row does not exist at re-read time. -/
theorem claim_C6 :
    (∀ (table id : String) (data : Dict) (now : String) (db : DB),
      id.data.contains ':' = true →
      (table ++ ":").data.isPrefixOf id.data = false →
      repo_update table id data now db = repo_update (idTableOf id) id data now db)
    ∧ (∀ (table id : String) (data : Dict) (now : String) (db : DB),
      repo_update table id data now db = repo_update table id (dpop data "id") now db)
    ∧ (∀ (table id : String) (data : Dict) (v : Value) (now : String) (db : DB),
      repo_update table id (dset data "updated" v) now db
        = repo_update table id data now db)
    ∧ (∀ (table id : String) (data : Dict) (now : String) (db : DB) (tbl : Table),
      isValidIdent table = true →
      id.data.contains ':' = true →
      (table ++ ":").data.isPrefixOf id.data = true →
      dbGetTable db table = some tbl →
      validateColumns (_prepare_data_for_insert table
        (dset (dpop data "id") "updated" (Value.str now))) = .ok () →
      (_prepare_data_for_insert table
        (dset (dpop data "id") "updated" (Value.str now))).any
          (fun kv => !tbl.cols.contains kv.1) = false →
      tbl.rows.any (fun r => dget r "id" == some (Value.str id)) = false →
      ∃ db2, repo_update table id data now db = .ok ([], db2))
    ∧ (∀ (table id : String) (data : Dict) (now : String) (db : DB)
        (tbl : Table) (r : Dict),
      isValidIdent table = true →
      id.data.contains ':' = true →
      (table ++ ":").data.isPrefixOf id.data = true →
      dbGetTable db table = some tbl →
      tbl.cols.Nodup →
      tbl.cols.contains "updated" = true →
      (data.map Prod.fst).Nodup →
      (∀ kv ∈ data, kv.1 ∉ writeSpecialKeys) →
      (∀ kv ∈ data, isValidIdent kv.1 = true) →
      (∀ kv ∈ data, tbl.cols.contains kv.1 = true) →
      tbl.rows.find? (fun row => dget row "id" == some (Value.str id)) = some r →
      ∃ out db2, repo_update table id data now db = .ok ([out], db2)
        ∧ dget out "updated" = some (Value.str now)) := by
  refine ⟨?_, ?_, ?_, ?_, ?_⟩
  · intro table id data now db hc hns
    simp only [repo_update.eq_def]
    rw [hc, hns, idTableOf_isPre id hc]
    simp
  · intro table id data now db
    simp only [repo_update.eq_def, dpop_idem]
  · intro table id data v now db
    simp only [repo_update.eq_def,
      dpop_dset_comm data "id" "updated" v (by decide), dset_dset_self]
  · intro table id data now db tbl hvalid hc hpre htb hvc hcc hno
    have hval : validate_identifier table = .ok table := by
      rw [validate_identifier, if_pos hvalid]
    simp only [repo_update.eq_def]
    rw [hc, hpre]
    simp only [Bool.not_true, Bool.and_false, Bool.false_eq_true, if_false, if_true]
    rw [hval]
    dsimp only
    rw [hvc]
    dsimp only
    rw [sqlUpdateById, htb]
    dsimp only
    rw [if_neg (by rw [hcc]; simp)]
    dsimp only
    rw [sqlSelectById, dbGetTable_dbSetTable_self db table tbl _ htb]
    dsimp only
    rw [map_id_of_fix _ _ (fun r hr => by
      rw [Bool.eq_false_iff.mpr (List.any_eq_false.mp hno r hr)]
      simp)]
    rw [find?_eq_none_of_any_false _ _ hno]
    exact ⟨_, rfl⟩
  · intro table id data now db tbl r hvalid hc hpre htb hcnd hupd hnd hplain
      hvcols hcols hfind
    have hid : dhas (dpop data "id") "id" = false := by
      cases hh : dhas (dpop data "id") "id"
      · rfl
      · exact absurd ((dhas_iff _ _).mp hh)
          ((dget_none_iff _ _).mp (dget_dpop_self data "id"))
    have hnd' : ((dset (dpop data "id") "updated" (Value.str now)).map Prod.fst).Nodup :=
      dset_nodup _ _ _ (dpop_nodup data "id" hnd)
    have hset_cases : ∀ kv ∈ dset (dpop data "id") "updated" (Value.str now),
        kv = ("updated", Value.str now) ∨ kv ∈ data := by
      intro kv hm
      rcases mem_dset _ _ _ _ hm with h | h
      · exact Or.inl h
      · exact Or.inr (List.mem_filter.mp h).1
    have heval := repo_update_found table id (dpop data "id") now db tbl r hvalid hc
      hpre htb hid hnd'
      (fun kv hm => by
        rcases hset_cases kv hm with rfl | h
        · show ("updated" : String) ∉ writeSpecialKeys
          decide
        · exact hplain kv h)
      (fun kv hm => by
        rcases hset_cases kv hm with rfl | h
        · show isValidIdent "updated" = true
          decide
        · exact hvcols kv h)
      (fun kv hm => by
        rcases hset_cases kv hm with rfl | h
        · exact hupd
        · exact hcols kv h)
      (by
        rw [dget_dset_ne _ _ _ _ (by decide)]
        exact dget_dpop_self data "id")
      hfind
    have hstep : repo_update table id data now db
        = repo_update table id (dpop data "id") now db := by
      simp only [repo_update.eq_def, dpop_idem]
    have happ : dget (applySets r (dset (dpop data "id") "updated" (Value.str now)))
        "updated" = some (Value.str now) := by
      rw [applySets_get _ _ _ hnd', dget_dset_self]
    have hout : dget (parse_record_ids_items (_row_to_dict (rowFull tbl.cols
        (applySets r (dset (dpop data "id") "updated" (Value.str now)))))) "updated"
        = some (Value.str now) := by
      rw [parse_record_ids_items_eq]
      apply _row_to_dict_get_plain _ _ _ (by decide)
      · rw [rowFull_keys]
        exact hcnd
      · rw [rowFull_get, if_pos hupd, happ]
        rfl
    exact ⟨_, _, hstep.trans heval, hout⟩

/-- C6 witness: the foreign-prefix call equals the prefix-table call, the
patch-id strip and updated re-stamp leave the call unchanged, updating an
absent row yields the empty result, and the row read back after an update
carries the fresh timestamp as updated although the patch supplied its
own. -/
theorem claim_C6_witness :
    (repo_update "note" "source:abc" [("name", Value.str "x")] "T" []
      = repo_update (idTableOf "source:abc") "source:abc"
          [("name", Value.str "x")] "T" [])
    ∧ (repo_update "note" "note:a" [("id", Value.str "z"), ("name", Value.str "x")] "T" []
      = repo_update "note" "note:a"
          (dpop [("id", Value.str "z"), ("name", Value.str "x")] "id") "T" [])
    ∧ (repo_update "note" "note:a"
        (dset [("name", Value.str "x")] "updated" (Value.str "OLD")) "T" []
      = repo_update "note" "note:a" [("name", Value.str "x")] "T" [])
    ∧ (∃ db2, repo_update "notebook" "notebook:zzz" [("name", Value.str "x")] "T" c1DB
        = .ok ([], db2))
    ∧ (∃ out db2,
        repo_update "notebook" "notebook:abc"
          [("name", Value.str "x"), ("updated", Value.str "OLD")] "T2"
          [("notebook", ⟨["id", "created", "updated", "name"],
            [[("id", Value.str "notebook:abc"), ("name", Value.str "old")]]⟩)]
          = .ok ([out], db2)
        ∧ dget out "updated" = some (Value.str "T2")) :=
  ⟨claim_C6.1 "note" "source:abc" [("name", Value.str "x")] "T" []
     (by decide) (by decide),
   claim_C6.2.1 "note" "note:a" [("id", Value.str "z"), ("name", Value.str "x")] "T" [],
   claim_C6.2.2.1 "note" "note:a" [("name", Value.str "x")] (Value.str "OLD") "T" [],
   claim_C6.2.2.2.1 "notebook" "notebook:zzz" [("name", Value.str "x")] "T" c1DB
     ⟨["id", "created", "updated", "name"], []⟩
     (by decide) (by decide) (by decide) (by decide) (by decide) (by decide) (by decide),
   claim_C6.2.2.2.2 "notebook" "notebook:abc"
     [("name", Value.str "x"), ("updated", Value.str "OLD")] "T2"
     [("notebook", ⟨["id", "created", "updated", "name"],
       [[("id", Value.str "notebook:abc"), ("name", Value.str "old")]]⟩)]
     ⟨["id", "created", "updated", "name"],
       [[("id", Value.str "notebook:abc"), ("name", Value.str "old")]]⟩
     [("id", Value.str "notebook:abc"), ("name", Value.str "old")]
     (by decide) (by decide) (by decide) (by decide) (by decide) (by decide)
     (by decide) (by decide) (by decide) (by decide) (by decide)⟩

/-- C9: update_command_status on an existing command row is a partial
update: status is always written and updated is always freshly re-stamped
(with the repository stamp, which overwrites the service stamp), while
each of progress, result and error_message is written only when supplied;
an unsupplied field reads back as the stored value (NULL-filled when the
row never bound it). No hypothesis constrains the stored status, so a row
already in a terminal state is updated like any other. -/
theorem claim_C9 (command_id status : String) (progress : Option Int)
    (result : Option Value) (error_message : Option String)
    (nowS nowR : String) (db : DB) (tbl : Table) (r : Dict)
    (htb : dbGetTable db "command" = some tbl)
    (hcnd : tbl.cols.Nodup)
    (hstat : tbl.cols.contains "status" = true)
    (hupd : tbl.cols.contains "updated" = true)
    (hprog : tbl.cols.contains "progress" = true)
    (hres : tbl.cols.contains "result" = true)
    (herr : tbl.cols.contains "error_message" = true)
    (hfind : tbl.rows.find? (fun row => dget row "id" == some (Value.str command_id))
      = some r)
    (hcid : command_id.data.contains ':' = true)
    (hpre : ("command" ++ ":").data.isPrefixOf command_id.data = true) :
    ∃ out db2,
      update_command_status command_id status progress result error_message nowS nowR db
        = .ok ([out], db2)
      ∧ dget out "status" = some (Value.str status)
      ∧ dget out "updated" = some (Value.str nowR)
      ∧ (∀ p, progress = some p → dget out "progress" = some (Value.int p))
      ∧ (progress = none →
          dget out "progress" = some ((dget r "progress").getD Value.null))
      ∧ (∀ res, result = some res →
          dget out "result" = some (Value.str (json_dumps res)))
      ∧ (result = none → dget out "result" = some ((dget r "result").getD Value.null))
      ∧ (∀ m, error_message = some m →
          dget out "error_message" = some (Value.str m))
      ∧ (error_message = none →
          dget out "error_message" = some ((dget r "error_message").getD Value.null)) := by
  have hDkeys : ∀ kv ∈ commandStatusData status progress result error_message nowS,
      kv.1 = "status" ∨ kv.1 = "updated" ∨ kv.1 = "progress" ∨ kv.1 = "result"
        ∨ kv.1 = "error_message" := by
    rw [commandStatusData]
    refine optSet_keys _ _ _ _ _
      (optSet_keys _ _ _ _ _ (optSet_keys _ _ _ _ _ ?base ?k1) ?k2) ?k3
    case base =>
      intro kv hm
      rcases List.mem_cons.mp hm with rfl | hm
      · exact Or.inl rfl
      · rcases List.mem_cons.mp hm with rfl | hm
        · exact Or.inr (Or.inl rfl)
        · simp at hm
    case k1 => exact fun a => Or.inr (Or.inr (Or.inl rfl))
    case k2 => exact fun a => Or.inr (Or.inr (Or.inr (Or.inl rfl)))
    case k3 => exact fun a => Or.inr (Or.inr (Or.inr (Or.inr rfl)))
  have hDnd : ((commandStatusData status progress result error_message nowS).map
      Prod.fst).Nodup := by
    rw [commandStatusData]
    exact optSet_nodup _ _ _ _ (optSet_nodup _ _ _ _ (optSet_nodup _ _ _ _ (by simp)))
  have hDs : dget (commandStatusData status progress result error_message nowS) "status"
      = some (Value.str status) := by
    rw [commandStatusData, optSet_get_ne _ _ _ _ _ (by decide),
      optSet_get_ne _ _ _ _ _ (by decide), optSet_get_ne _ _ _ _ _ (by decide)]
    rfl
  have hDp : ∀ p, progress = some p →
      dget (commandStatusData status progress result error_message nowS) "progress"
        = some (Value.int p) := by
    intro p hp
    subst hp
    rw [commandStatusData, optSet_get_ne _ _ _ _ _ (by decide),
      optSet_get_ne _ _ _ _ _ (by decide)]
    exact optSet_get_self _ _ _ _
  have hDpn : progress = none →
      dget (commandStatusData status progress result error_message nowS) "progress"
        = none := by
    intro hp
    subst hp
    rw [commandStatusData, optSet_get_ne _ _ _ _ _ (by decide),
      optSet_get_ne _ _ _ _ _ (by decide), optSet]
    rfl
  have hDr : ∀ res, result = some res →
      dget (commandStatusData status progress result error_message nowS) "result"
        = some (Value.str (json_dumps res)) := by
    intro res hr
    subst hr
    rw [commandStatusData, optSet_get_ne _ _ _ _ _ (by decide)]
    exact optSet_get_self _ _ _ _
  have hDrn : result = none →
      dget (commandStatusData status progress result error_message nowS) "result"
        = none := by
    intro hr
    subst hr
    rw [commandStatusData, optSet_get_ne _ _ _ _ _ (by decide)]
    rw [show optSet (optSet [("status", Value.str status), ("updated", Value.str nowS)]
        "progress" (fun p => Value.int p) progress) "result"
        (fun r => Value.str (json_dumps r)) none
      = optSet [("status", Value.str status), ("updated", Value.str nowS)]
        "progress" (fun p => Value.int p) progress from rfl]
    rw [optSet_get_ne _ _ _ _ _ (by decide)]
    rfl
  have hDe : ∀ m, error_message = some m →
      dget (commandStatusData status progress result error_message nowS) "error_message"
        = some (Value.str m) := by
    intro m hm
    subst hm
    rw [commandStatusData]
    exact optSet_get_self _ _ _ _
  have hDen : error_message = none →
      dget (commandStatusData status progress result error_message nowS) "error_message"
        = none := by
    intro hm
    subst hm
    rw [commandStatusData]
    rw [show optSet (optSet (optSet [("status", Value.str status),
          ("updated", Value.str nowS)]
        "progress" (fun p => Value.int p) progress)
        "result" (fun r => Value.str (json_dumps r)) result)
        "error_message" (fun m => Value.str m) none
      = optSet (optSet [("status", Value.str status), ("updated", Value.str nowS)]
        "progress" (fun p => Value.int p) progress)
        "result" (fun r => Value.str (json_dumps r)) result from rfl]
    rw [optSet_get_ne _ _ _ _ _ (by decide), optSet_get_ne _ _ _ _ _ (by decide)]
    rfl
  have hDid : dget (commandStatusData status progress result error_message nowS) "id"
      = none := by
    rw [commandStatusData, optSet_get_ne _ _ _ _ _ (by decide),
      optSet_get_ne _ _ _ _ _ (by decide), optSet_get_ne _ _ _ _ _ (by decide)]
    rfl
  have hDhas : dhas (commandStatusData status progress result error_message nowS) "id"
      = false := by
    cases hh : dhas (commandStatusData status progress result error_message nowS) "id"
    · rfl
    · exact absurd ((dhas_iff _ _).mp hh) ((dget_none_iff _ _).mp hDid)
  have hD'keys : ∀ kv ∈ dset (commandStatusData status progress result error_message nowS)
      "updated" (Value.str nowR),
      kv.1 = "status" ∨ kv.1 = "updated" ∨ kv.1 = "progress" ∨ kv.1 = "result"
        ∨ kv.1 = "error_message" := by
    intro kv hm
    rcases mem_dset _ _ _ _ hm with rfl | hm2
    · exact Or.inr (Or.inl rfl)
    · exact hDkeys kv hm2
  have hD'nd := dset_nodup _ "updated" (Value.str nowR) hDnd
  have heval := repo_update_found "command" command_id
    (commandStatusData status progress result error_message nowS) nowR db tbl r
    (by decide) hcid hpre htb hDhas hD'nd
    (fun kv hm => by rcases hD'keys kv hm with h | h | h | h | h <;> rw [h] <;> decide)
    (fun kv hm => by rcases hD'keys kv hm with h | h | h | h | h <;> rw [h] <;> decide)
    (fun kv hm => by
      rcases hD'keys kv hm with h | h | h | h | h <;> rw [h]
      · exact hstat
      · exact hupd
      · exact hprog
      · exact hres
      · exact herr)
    (by rw [dget_dset_ne _ _ _ _ (by decide)]; exact hDid)
    hfind
  refine ⟨parse_record_ids_items (_row_to_dict (rowFull tbl.cols
      (applySets r (dset (commandStatusData status progress result error_message nowS)
        "updated" (Value.str nowR))))),
    dbSetTable db "command" { cols := tbl.cols, rows := tbl.rows.map (fun x =>
      if dget x "id" == some (Value.str command_id)
      then applySets x (dset (commandStatusData status progress result error_message nowS)
        "updated" (Value.str nowR)) else x) },
    ?_, ?_⟩
  · rw [update_command_status]
    exact heval
  · have hout : ∀ (k : String), k ∉ readSpecialKeys → tbl.cols.contains k = true →
        dget (parse_record_ids_items (_row_to_dict (rowFull tbl.cols
          (applySets r (dset (commandStatusData status progress result error_message nowS)
            "updated" (Value.str nowR)))))) k
        = some ((dget (applySets r
            (dset (commandStatusData status progress result error_message nowS)
              "updated" (Value.str nowR))) k).getD Value.null) := by
      intro k hr hcont
      rw [parse_record_ids_items_eq]
      apply _row_to_dict_get_plain _ _ _ hr
      · rw [rowFull_keys]
        exact hcnd
      · rw [rowFull_get, if_pos hcont]
    have hgup : ∀ (k : String), k ≠ "updated" →
        dget (applySets r (dset (commandStatusData status progress result
          error_message nowS) "updated" (Value.str nowR))) k
        = (match dget (commandStatusData status progress result error_message nowS) k with
           | some v => some v
           | none => dget r k) := by
      intro k hk
      rw [applySets_get _ _ _ hD'nd, dget_dset_ne _ _ _ _ hk]
    refine ⟨?_, ?_, ?_, ?_, ?_, ?_, ?_, ?_⟩
    · rw [hout "status" (by decide) hstat, hgup "status" (by decide), hDs]
      rfl
    · rw [hout "updated" (by decide) hupd, applySets_get _ _ _ hD'nd, dget_dset_self]
      rfl
    · intro p hp
      rw [hout "progress" (by decide) hprog, hgup "progress" (by decide), hDp p hp]
      rfl
    · intro hp
      rw [hout "progress" (by decide) hprog, hgup "progress" (by decide), hDpn hp]
    · intro res hr
      rw [hout "result" (by decide) hres, hgup "result" (by decide), hDr res hr]
      rfl
    · intro hr
      rw [hout "result" (by decide) hres, hgup "result" (by decide), hDrn hr]
    · intro m hm
      rw [hout "error_message" (by decide) herr, hgup "error_message" (by decide),
        hDe m hm]
      rfl
    · intro hm
      rw [hout "error_message" (by decide) herr, hgup "error_message" (by decide),
        hDen hm]

/-- C9 witness: a partial update of a command row already in the terminal
completed state, supplying only progress: status and updated are written,
progress is written, result and error_message keep their stored values. -/
theorem claim_C9_witness :
    ∃ out db2,
      update_command_status "command:c1" "running" (some 50) none none "S" "R"
        [("command", ⟨["id", "status", "created", "updated", "progress", "result",
            "error_message"],
          [[("id", Value.str "command:c1"), ("status", Value.str "completed"),
            ("progress", Value.int 10)]]⟩)]
        = .ok ([out], db2)
      ∧ dget out "status" = some (Value.str "running")
      ∧ dget out "updated" = some (Value.str "R")
      ∧ (∀ p, (some (50 : Int)) = some p → dget out "progress" = some (Value.int p))
      ∧ ((some (50 : Int)) = none →
          dget out "progress" = some ((dget [("id", Value.str "command:c1"),
            ("status", Value.str "completed"), ("progress", Value.int 10)]
            "progress").getD Value.null))
      ∧ (∀ res, (none : Option Value) = some res →
          dget out "result" = some (Value.str (json_dumps res)))
      ∧ ((none : Option Value) = none →
          dget out "result" = some ((dget [("id", Value.str "command:c1"),
            ("status", Value.str "completed"), ("progress", Value.int 10)]
            "result").getD Value.null))
      ∧ (∀ m, (none : Option String) = some m →
          dget out "error_message" = some (Value.str m))
      ∧ ((none : Option String) = none →
          dget out "error_message" = some ((dget [("id", Value.str "command:c1"),
            ("status", Value.str "completed"), ("progress", Value.int 10)]
            "error_message").getD Value.null)) :=
  claim_C9 "command:c1" "running" (some 50) none none "S" "R"
    [("command", ⟨["id", "status", "created", "updated", "progress", "result",
        "error_message"],
      [[("id", Value.str "command:c1"), ("status", Value.str "completed"),
        ("progress", Value.int 10)]]⟩)]
    ⟨["id", "status", "created", "updated", "progress", "result", "error_message"],
      [[("id", Value.str "command:c1"), ("status", Value.str "completed"),
        ("progress", Value.int 10)]]⟩
    [("id", Value.str "command:c1"), ("status", Value.str "completed"),
      ("progress", Value.int 10)]
    (by decide) (by decide) (by decide) (by decide) (by decide) (by decide) (by decide)
    (by decide) (by decide) (by decide)

/-- C7 witness: a malformed id raises the invalid-format error, and a
well-formed id over a one-table database deletes idempotently. -/
theorem claim_C7_witness :
    (repo_delete "nocolon" [] = .error (.runtimeError
        "Failed to delete record (invalid ID format)"
        (some (.valueError "Invalid record ID format: nocolon"))))
    ∧ ∃ db2 db3, repo_delete "notebook:abc" c1DB = .ok (true, db2)
        ∧ repo_delete "notebook:abc" db2 = .ok (true, db3) :=
  ⟨claim_C7.1 "nocolon" [] (by decide),
   claim_C7.2 "notebook:abc" c1DB ⟨["id", "created", "updated", "name"], []⟩
     (by decide) (by decide) (by decide)⟩

/-- C3: for a query of the shape SELECT star FROM dollar-variable whose
bound value is a composite id containing a colon, repo_query rewrites the
statement at execution time to SELECT star FROM the table named by the id's
prefix WHERE id equals the colon-variable; and the table prefix extracted
from a generated composite id is the table the id was generated for, so
querying a created record by its own id resolves to its table. -/
theorem claim_C3 :
    (∀ (v rid : String),
      v.data ≠ [] →
      (∀ c ∈ v.data, isWordChar c = true) →
      v ≠ "__omit_fields__" →
      v ≠ "__fetch_fields__" →
      rid.data.contains ':' = true →
      repo_query_plan ("SELECT * FROM $" ++ v) [(v, Value.str rid)]
        = .ok ("SELECT * FROM " ++ idTableOf rid ++ " WHERE id = :" ++ v,
            [(v, Value.str rid)], Value.list [], Value.list []))
    ∧ (∀ (tbl tok : String), isValidIdent tbl = true →
        idTableOf (generate_id tbl tok) = tbl) := by
  constructor
  · intro v rid hv hw hvo hvf hrid
    -- the stripped query is itself: it starts with S and ends with a word char
    have hrne : v.data.reverse ≠ [] := fun hh => hv (List.reverse_eq_nil_iff.mp hh)
    obtain ⟨a, t, hrevd⟩ := List.exists_cons_of_ne_nil hrne
    have ha : isWordChar a = true :=
      hw a (List.mem_reverse.mp (by rw [hrevd]; exact List.mem_cons_self a t))
    have hQdata : ("SELECT * FROM $" ++ v).data = "SELECT * FROM $".data ++ v.data :=
      String.data_append _ _
    have hstrip : pyStrip ("SELECT * FROM $" ++ v) = "SELECT * FROM $" ++ v := by
      apply pyStrip_id
      · exact ⟨'S', "ELECT * FROM $".data ++ v.data, by rw [hQdata]; rfl, by decide⟩
      · exact ⟨a, t ++ "SELECT * FROM $".data.reverse,
          by rw [hQdata, List.reverse_append, hrevd]; rfl,
          wordChar_not_space a ha⟩
    -- the substitution turns the dollar-variable into the colon form
    have hdol : dollarNameAt v.data ('$' :: v.data) = some [] := by
      rw [dollarNameAt, if_pos rfl, dropLiteral_self]
      dsimp only
      exact if_pos
        (show wordBoundary (v.data.getLastD '$') (List.head? ([] : List Char)) = true from
          show isWordChar (v.data.getLastD '$') = true from
            hw _ (getLastD_mem v.data '$' hv))
    have hvarsub : subVar v.data ('$' :: v.data) = ':' :: v.data := by
      rw [subVar_cons_some v.data '$' v.data [] hdol, subVar_nil, List.append_nil]
    have hfold : substAllVars [(v, Value.str rid)] ("SELECT * FROM $" ++ v).data
        = subVar v.data ("SELECT * FROM $" ++ v).data := rfl
    have hS : substAllVars [(v, Value.str rid)]
        (pyStrip ("SELECT * FROM $" ++ v)).data
        = 'S' :: 'E' :: 'L' :: 'E' :: 'C' :: 'T' :: ' ' :: '*' :: ' '
            :: 'F' :: 'R' :: 'O' :: 'M' :: ' ' :: ':' :: v.data := by
      rw [hstrip, hfold, hQdata,
        show "SELECT * FROM $".data = "SELECT * FROM ".data ++ ['$'] from rfl,
        List.append_assoc, List.singleton_append,
        subVar_no_dollar_pre v.data "SELECT * FROM ".data ('$' :: v.data) (by decide),
        hvarsub]
      rfl
    -- none of the rewrite patterns matches the substituted text
    have hmc : matchesCreateContent ('S' :: 'E' :: 'L' :: 'E' :: 'C' :: 'T' :: ' '
        :: '*' :: ' ' :: 'F' :: 'R' :: 'O' :: 'M' :: ' ' :: ':' :: v.data) = false := by
      rw [matchesCreateContent, show "create".data = 'c' :: "reate".data from rfl,
        ciDrop_cons_ne 'c' 'S' _ _ (by decide)]
    have hmd : matchDeleteWhere ('S' :: 'E' :: 'L' :: 'E' :: 'C' :: 'T' :: ' '
        :: '*' :: ' ' :: 'F' :: 'R' :: 'O' :: 'M' :: ' ' :: ':' :: v.data) = none := by
      rw [matchDeleteWhere, show "delete".data = 'd' :: "elete".data from rfl,
        ciDrop_cons_ne 'd' 'S' _ _ (by decide)]
    have htryF : tryFromOnlyAt (isWordChar ' ')
        ('F' :: 'R' :: 'O' :: 'M' :: ' ' :: ':' :: v.data) = none := by
      rw [tryFromOnlyAt.eq_def, if_neg (show ¬ (isWordChar ' ' = true) from by decide),
        show "from".data = ['f', 'r', 'o', 'm'] from rfl,
        ciDrop_cons_eq 'f' 'F' _ _ (by decide), ciDrop_cons_eq 'r' 'R' _ _ (by decide),
        ciDrop_cons_eq 'o' 'O' _ _ (by decide), ciDrop_cons_eq 'm' 'M' _ _ (by decide),
        show ciDrop ([] : List Char) (' ' :: ':' :: v.data)
          = some (' ' :: ':' :: v.data) from rfl]
      dsimp only
      rw [List.takeWhile_cons_of_pos (by decide), List.takeWhile_cons_of_neg (by decide),
        if_neg (by decide),
        List.dropWhile_cons_of_pos (by decide), List.dropWhile_cons_of_neg (by decide),
        ciDrop_cons_ne 'o' ':' _ _ (by decide)]
    have hsubF : subFromOnly ('S' :: 'E' :: 'L' :: 'E' :: 'C' :: 'T' :: ' '
        :: '*' :: ' ' :: 'F' :: 'R' :: 'O' :: 'M' :: ' ' :: ':' :: v.data)
        = 'S' :: 'E' :: 'L' :: 'E' :: 'C' :: 'T' :: ' '
            :: '*' :: ' ' :: 'F' :: 'R' :: 'O' :: 'M' :: ' ' :: ':' :: v.data := by
      rw [subFromOnly,
        subFromOnlyGo_cons_none _ _ _ (tryFromOnlyAt_none_headne _ 'S' _ (by decide)),
        subFromOnlyGo_cons_none _ _ _ (tryFromOnlyAt_none_headne _ 'E' _ (by decide)),
        subFromOnlyGo_cons_none _ _ _ (tryFromOnlyAt_none_headne _ 'L' _ (by decide)),
        subFromOnlyGo_cons_none _ _ _ (tryFromOnlyAt_none_headne _ 'E' _ (by decide)),
        subFromOnlyGo_cons_none _ _ _ (tryFromOnlyAt_none_headne _ 'C' _ (by decide)),
        subFromOnlyGo_cons_none _ _ _ (tryFromOnlyAt_none_headne _ 'T' _ (by decide)),
        subFromOnlyGo_cons_none _ _ _ (tryFromOnlyAt_none_headne _ ' ' _ (by decide)),
        subFromOnlyGo_cons_none _ _ _ (tryFromOnlyAt_none_headne _ '*' _ (by decide)),
        subFromOnlyGo_cons_none _ _ _ (tryFromOnlyAt_none_headne _ ' ' _ (by decide)),
        subFromOnlyGo_cons_none _ _ _ htryF,
        subFromOnlyGo_cons_none _ _ _ (tryFromOnlyAt_none_headne _ 'R' _ (by decide)),
        subFromOnlyGo_cons_none _ _ _ (tryFromOnlyAt_none_headne _ 'O' _ (by decide)),
        subFromOnlyGo_cons_none _ _ _ (tryFromOnlyAt_none_headne _ 'M' _ (by decide)),
        subFromOnlyGo_cons_none _ _ _ (tryFromOnlyAt_none_headne _ ' ' _ (by decide)),
        subFromOnlyGo_cons_none _ _ _ (tryFromOnlyAt_none_headne _ ':' _ (by decide)),
        subFromOnlyGo_words v.data hw (isWordChar ':')]
    -- the omit and fetch clause searches fail: the keyword never follows a space
    have hkw1o : ciDrop "omit".data ((' ' :: '*' :: ' ' :: 'F' :: 'R' :: 'O' :: 'M'
        :: ' ' :: ':' :: v.data).dropWhile isPySpace) = none := by
      rw [List.dropWhile_cons_of_pos (by decide), List.dropWhile_cons_of_neg (by decide),
        show "omit".data = 'o' :: "mit".data from rfl,
        ciDrop_cons_ne 'o' '*' _ _ (by decide)]
    have hkw2o : ciDrop "omit".data ((' ' :: 'F' :: 'R' :: 'O' :: 'M'
        :: ' ' :: ':' :: v.data).dropWhile isPySpace) = none := by
      rw [List.dropWhile_cons_of_pos (by decide), List.dropWhile_cons_of_neg (by decide),
        show "omit".data = 'o' :: "mit".data from rfl,
        ciDrop_cons_ne 'o' 'F' _ _ (by decide)]
    have hkw3o : ciDrop "omit".data ((' ' :: ':' :: v.data).dropWhile isPySpace)
        = none := by
      rw [List.dropWhile_cons_of_pos (by decide), List.dropWhile_cons_of_neg (by decide),
        show "omit".data = 'o' :: "mit".data from rfl,
        ciDrop_cons_ne 'o' ':' _ _ (by decide)]
    have homit : omitClauseOf ('S' :: 'E' :: 'L' :: 'E' :: 'C' :: 'T' :: ' '
        :: '*' :: ' ' :: 'F' :: 'R' :: 'O' :: 'M' :: ' ' :: ':' :: v.data) = none := by
      rw [omitClauseOf,
        clauseFirst_cons_none _ _ _ _ (clauseMatchAt_nospace _ _ 'S' _ (by decide)),
        clauseFirst_cons_none _ _ _ _ (clauseMatchAt_nospace _ _ 'E' _ (by decide)),
        clauseFirst_cons_none _ _ _ _ (clauseMatchAt_nospace _ _ 'L' _ (by decide)),
        clauseFirst_cons_none _ _ _ _ (clauseMatchAt_nospace _ _ 'E' _ (by decide)),
        clauseFirst_cons_none _ _ _ _ (clauseMatchAt_nospace _ _ 'C' _ (by decide)),
        clauseFirst_cons_none _ _ _ _ (clauseMatchAt_nospace _ _ 'T' _ (by decide)),
        clauseFirst_cons_none _ _ _ _ (clauseMatchAt_nokw _ _ _ hkw1o),
        clauseFirst_cons_none _ _ _ _ (clauseMatchAt_nospace _ _ '*' _ (by decide)),
        clauseFirst_cons_none _ _ _ _ (clauseMatchAt_nokw _ _ _ hkw2o),
        clauseFirst_cons_none _ _ _ _ (clauseMatchAt_nospace _ _ 'F' _ (by decide)),
        clauseFirst_cons_none _ _ _ _ (clauseMatchAt_nospace _ _ 'R' _ (by decide)),
        clauseFirst_cons_none _ _ _ _ (clauseMatchAt_nospace _ _ 'O' _ (by decide)),
        clauseFirst_cons_none _ _ _ _ (clauseMatchAt_nospace _ _ 'M' _ (by decide)),
        clauseFirst_cons_none _ _ _ _ (clauseMatchAt_nokw _ _ _ hkw3o),
        clauseFirst_cons_none _ _ _ _ (clauseMatchAt_nospace _ _ ':' _ (by decide))]
      exact clauseFirst_none_of_nospace _ _ v.data
        (fun c hc => wordChar_not_space c (hw c hc))
    have hkw1f : ciDrop "fetch".data ((' ' :: '*' :: ' ' :: 'F' :: 'R' :: 'O' :: 'M'
        :: ' ' :: ':' :: v.data).dropWhile isPySpace) = none := by
      rw [List.dropWhile_cons_of_pos (by decide), List.dropWhile_cons_of_neg (by decide),
        show "fetch".data = 'f' :: "etch".data from rfl,
        ciDrop_cons_ne 'f' '*' _ _ (by decide)]
    have hkw2f : ciDrop "fetch".data ((' ' :: 'F' :: 'R' :: 'O' :: 'M'
        :: ' ' :: ':' :: v.data).dropWhile isPySpace) = none := by
      rw [List.dropWhile_cons_of_pos (by decide), List.dropWhile_cons_of_neg (by decide),
        show "fetch".data = 'f' :: 'e' :: "tch".data from rfl,
        ciDrop_cons_eq 'f' 'F' _ _ (by decide),
        ciDrop_cons_ne 'e' 'R' _ _ (by decide)]
    have hkw3f : ciDrop "fetch".data ((' ' :: ':' :: v.data).dropWhile isPySpace)
        = none := by
      rw [List.dropWhile_cons_of_pos (by decide), List.dropWhile_cons_of_neg (by decide),
        show "fetch".data = 'f' :: "etch".data from rfl,
        ciDrop_cons_ne 'f' ':' _ _ (by decide)]
    have hfetch : fetchClauseOf ('S' :: 'E' :: 'L' :: 'E' :: 'C' :: 'T' :: ' '
        :: '*' :: ' ' :: 'F' :: 'R' :: 'O' :: 'M' :: ' ' :: ':' :: v.data) = none := by
      rw [fetchClauseOf,
        clauseFirst_cons_none _ _ _ _ (clauseMatchAt_nospace _ _ 'S' _ (by decide)),
        clauseFirst_cons_none _ _ _ _ (clauseMatchAt_nospace _ _ 'E' _ (by decide)),
        clauseFirst_cons_none _ _ _ _ (clauseMatchAt_nospace _ _ 'L' _ (by decide)),
        clauseFirst_cons_none _ _ _ _ (clauseMatchAt_nospace _ _ 'E' _ (by decide)),
        clauseFirst_cons_none _ _ _ _ (clauseMatchAt_nospace _ _ 'C' _ (by decide)),
        clauseFirst_cons_none _ _ _ _ (clauseMatchAt_nospace _ _ 'T' _ (by decide)),
        clauseFirst_cons_none _ _ _ _ (clauseMatchAt_nokw _ _ _ hkw1f),
        clauseFirst_cons_none _ _ _ _ (clauseMatchAt_nospace _ _ '*' _ (by decide)),
        clauseFirst_cons_none _ _ _ _ (clauseMatchAt_nokw _ _ _ hkw2f),
        clauseFirst_cons_none _ _ _ _ (clauseMatchAt_nospace _ _ 'F' _ (by decide)),
        clauseFirst_cons_none _ _ _ _ (clauseMatchAt_nospace _ _ 'R' _ (by decide)),
        clauseFirst_cons_none _ _ _ _ (clauseMatchAt_nospace _ _ 'O' _ (by decide)),
        clauseFirst_cons_none _ _ _ _ (clauseMatchAt_nospace _ _ 'M' _ (by decide)),
        clauseFirst_cons_none _ _ _ _ (clauseMatchAt_nokw _ _ _ hkw3f),
        clauseFirst_cons_none _ _ _ _ (clauseMatchAt_nospace _ _ ':' _ (by decide))]
      exact clauseFirst_none_of_nospace _ _ v.data
        (fun c hc => wordChar_not_space c (hw c hc))
    -- no search-function call occurs in the text
    have htext : hasTextSearchCall ('S' :: 'E' :: 'L' :: 'E' :: 'C' :: 'T' :: ' '
        :: '*' :: ' ' :: 'F' :: 'R' :: 'O' :: 'M' :: ' ' :: ':' :: v.data) = false := by
      rw [hasTextSearchCall,
        show "fn::text_search".data
          = 'f' :: 'n' :: ':' :: (':' :: "text_search".data) from rfl]
      apply hasFnCall_cons_false _ _ _
        (fnCallAt_none _ _ (ciDrop_cons_ne _ 'S' _ _ (by decide)))
      apply hasFnCall_cons_false _ _ _
        (fnCallAt_none _ _ (ciDrop_cons_ne _ 'E' _ _ (by decide)))
      apply hasFnCall_cons_false _ _ _
        (fnCallAt_none _ _ (ciDrop_cons_ne _ 'L' _ _ (by decide)))
      apply hasFnCall_cons_false _ _ _
        (fnCallAt_none _ _ (ciDrop_cons_ne _ 'E' _ _ (by decide)))
      apply hasFnCall_cons_false _ _ _
        (fnCallAt_none _ _ (ciDrop_cons_ne _ 'C' _ _ (by decide)))
      apply hasFnCall_cons_false _ _ _
        (fnCallAt_none _ _ (ciDrop_cons_ne _ 'T' _ _ (by decide)))
      apply hasFnCall_cons_false _ _ _
        (fnCallAt_none _ _ (ciDrop_cons_ne _ ' ' _ _ (by decide)))
      apply hasFnCall_cons_false _ _ _
        (fnCallAt_none _ _ (ciDrop_cons_ne _ '*' _ _ (by decide)))
      apply hasFnCall_cons_false _ _ _
        (fnCallAt_none _ _ (ciDrop_cons_ne _ ' ' _ _ (by decide)))
      apply hasFnCall_cons_false _ _ _
        (fnCallAt_none _ _ (by
          rw [ciDrop_cons_eq 'f' 'F' _ _ (by decide)]
          exact ciDrop_cons_ne 'n' 'R' _ _ (by decide)))
      apply hasFnCall_cons_false _ _ _
        (fnCallAt_none _ _ (ciDrop_cons_ne _ 'R' _ _ (by decide)))
      apply hasFnCall_cons_false _ _ _
        (fnCallAt_none _ _ (ciDrop_cons_ne _ 'O' _ _ (by decide)))
      apply hasFnCall_cons_false _ _ _
        (fnCallAt_none _ _ (ciDrop_cons_ne _ 'M' _ _ (by decide)))
      apply hasFnCall_cons_false _ _ _
        (fnCallAt_none _ _ (ciDrop_cons_ne _ ' ' _ _ (by decide)))
      apply hasFnCall_cons_false _ _ _
        (fnCallAt_none _ _ (ciDrop_cons_ne _ ':' _ _ (by decide)))
      exact hasFnCall_words _ v.data hw
    have hvect : hasVectorSearchCall ('S' :: 'E' :: 'L' :: 'E' :: 'C' :: 'T' :: ' '
        :: '*' :: ' ' :: 'F' :: 'R' :: 'O' :: 'M' :: ' ' :: ':' :: v.data) = false := by
      rw [hasVectorSearchCall,
        show "fn::vector_search".data
          = 'f' :: 'n' :: ':' :: (':' :: "vector_search".data) from rfl]
      apply hasFnCall_cons_false _ _ _
        (fnCallAt_none _ _ (ciDrop_cons_ne _ 'S' _ _ (by decide)))
      apply hasFnCall_cons_false _ _ _
        (fnCallAt_none _ _ (ciDrop_cons_ne _ 'E' _ _ (by decide)))
      apply hasFnCall_cons_false _ _ _
        (fnCallAt_none _ _ (ciDrop_cons_ne _ 'L' _ _ (by decide)))
      apply hasFnCall_cons_false _ _ _
        (fnCallAt_none _ _ (ciDrop_cons_ne _ 'E' _ _ (by decide)))
      apply hasFnCall_cons_false _ _ _
        (fnCallAt_none _ _ (ciDrop_cons_ne _ 'C' _ _ (by decide)))
      apply hasFnCall_cons_false _ _ _
        (fnCallAt_none _ _ (ciDrop_cons_ne _ 'T' _ _ (by decide)))
      apply hasFnCall_cons_false _ _ _
        (fnCallAt_none _ _ (ciDrop_cons_ne _ ' ' _ _ (by decide)))
      apply hasFnCall_cons_false _ _ _
        (fnCallAt_none _ _ (ciDrop_cons_ne _ '*' _ _ (by decide)))
      apply hasFnCall_cons_false _ _ _
        (fnCallAt_none _ _ (ciDrop_cons_ne _ ' ' _ _ (by decide)))
      apply hasFnCall_cons_false _ _ _
        (fnCallAt_none _ _ (by
          rw [ciDrop_cons_eq 'f' 'F' _ _ (by decide)]
          exact ciDrop_cons_ne 'n' 'R' _ _ (by decide)))
      apply hasFnCall_cons_false _ _ _
        (fnCallAt_none _ _ (ciDrop_cons_ne _ 'R' _ _ (by decide)))
      apply hasFnCall_cons_false _ _ _
        (fnCallAt_none _ _ (ciDrop_cons_ne _ 'O' _ _ (by decide)))
      apply hasFnCall_cons_false _ _ _
        (fnCallAt_none _ _ (ciDrop_cons_ne _ 'M' _ _ (by decide)))
      apply hasFnCall_cons_false _ _ _
        (fnCallAt_none _ _ (ciDrop_cons_ne _ ' ' _ _ (by decide)))
      apply hasFnCall_cons_false _ _ _
        (fnCallAt_none _ _ (ciDrop_cons_ne _ ':' _ _ (by decide)))
      exact hasFnCall_words _ v.data hw
    -- the translation passes the substituted text through
    have hparse : parse_surreal_query ("SELECT * FROM $" ++ v) [(v, Value.str rid)]
        = (String.mk ('S' :: 'E' :: 'L' :: 'E' :: 'C' :: 'T' :: ' ' :: '*' :: ' '
            :: 'F' :: 'R' :: 'O' :: 'M' :: ' ' :: ':' :: v.data),
           [(v, Value.str rid)]) := by
      simp only [parse_surreal_query, hS, hmc, Bool.false_eq_true, if_false, hmd,
        hsubF, homit, hfetch, htext, hvect, List.isEmpty_nil, if_true]
    -- the plan: the statement is not a sentinel and matches the id-var shape
    have hne1 : String.mk ('S' :: 'E' :: 'L' :: 'E' :: 'C' :: 'T' :: ' ' :: '*' :: ' '
        :: 'F' :: 'R' :: 'O' :: 'M' :: ' ' :: ':' :: v.data) ≠ "__USE_REPO_CREATE__" :=
      strmk_head_ne 'S' _ "__USE_REPO_CREATE__" '_' _ rfl (by decide)
    have hne2 : String.mk ('S' :: 'E' :: 'L' :: 'E' :: 'C' :: 'T' :: ' ' :: '*' :: ' '
        :: 'F' :: 'R' :: 'O' :: 'M' :: ' ' :: ':' :: v.data) ≠ "__USE_FTS__" :=
      strmk_head_ne 'S' _ "__USE_FTS__" '_' _ rfl (by decide)
    have hne3 : String.mk ('S' :: 'E' :: 'L' :: 'E' :: 'C' :: 'T' :: ' ' :: '*' :: ' '
        :: 'F' :: 'R' :: 'O' :: 'M' :: ' ' :: ':' :: v.data) ≠ "__USE_VECTOR_SEARCH__" :=
      strmk_head_ne 'S' _ "__USE_VECTOR_SEARCH__" '_' _ rfl (by decide)
    have hgo : dget [(v, Value.str rid)] "__omit_fields__" = none := by
      rw [dget_cons, if_neg hvo]
      rfl
    have hgf : dget [(v, Value.str rid)] "__fetch_fields__" = none := by
      rw [dget_cons, if_neg hvf]
      rfl
    have hpo : dpop [(v, Value.str rid)] "__omit_fields__" = [(v, Value.str rid)] :=
      dpop_of_not_has _ _ (by simp [dhas, hvo])
    have hpf : dpop [(v, Value.str rid)] "__fetch_fields__" = [(v, Value.str rid)] :=
      dpop_of_not_has _ _ (by simp [dhas, hvf])
    have hsel : selectFromIdVar ('S' :: 'E' :: 'L' :: 'E' :: 'C' :: 'T' :: ' '
        :: '*' :: ' ' :: 'F' :: 'R' :: 'O' :: 'M' :: ' ' :: ':' :: v.data)
        = some v.data := by
      rw [selectFromIdVar, show "select".data = ['s', 'e', 'l', 'e', 'c', 't'] from rfl,
        ciDrop_cons_eq 's' 'S' _ _ (by decide), ciDrop_cons_eq 'e' 'E' _ _ (by decide),
        ciDrop_cons_eq 'l' 'L' _ _ (by decide), ciDrop_cons_eq 'e' 'E' _ _ (by decide),
        ciDrop_cons_eq 'c' 'C' _ _ (by decide), ciDrop_cons_eq 't' 'T' _ _ (by decide),
        show ciDrop ([] : List Char) (' ' :: '*' :: ' ' :: 'F' :: 'R' :: 'O' :: 'M'
            :: ' ' :: ':' :: v.data)
          = some (' ' :: '*' :: ' ' :: 'F' :: 'R' :: 'O' :: 'M'
            :: ' ' :: ':' :: v.data) from rfl]
      dsimp only
      rw [List.takeWhile_cons_of_pos (by decide), List.takeWhile_cons_of_neg (by decide),
        if_neg (by decide),
        List.dropWhile_cons_of_pos (by decide), List.dropWhile_cons_of_neg (by decide)]
      dsimp only
      rw [if_pos rfl,
        List.takeWhile_cons_of_pos (by decide), List.takeWhile_cons_of_neg (by decide),
        if_neg (by decide),
        List.dropWhile_cons_of_pos (by decide), List.dropWhile_cons_of_neg (by decide),
        ciDrop_cons_eq 'f' 'F' _ _ (by decide), ciDrop_cons_eq 'r' 'R' _ _ (by decide),
        ciDrop_cons_eq 'o' 'O' _ _ (by decide), ciDrop_cons_eq 'm' 'M' _ _ (by decide),
        show ciDrop ([] : List Char) (' ' :: ':' :: v.data)
          = some (' ' :: ':' :: v.data) from rfl]
      dsimp only
      rw [List.takeWhile_cons_of_pos (by decide), List.takeWhile_cons_of_neg (by decide),
        if_neg (by decide),
        List.dropWhile_cons_of_pos (by decide), List.dropWhile_cons_of_neg (by decide)]
      dsimp only
      rw [if_pos rfl, takeWhile_all isWordChar v.data hw]
      have hnemp : ¬ (v.data.isEmpty = true) := by
        cases hvd : v.data with
        | nil => exact absurd hvd hv
        | cons a2 t2 => simp
      rw [if_neg hnemp]
    have hgv : dget [(v, Value.str rid)] v = some (Value.str rid) := by
      rw [dget_cons, if_pos rfl]
    have hridne : rid ≠ "" := by
      intro hh
      rw [hh] at hrid
      exact absurd hrid (by decide)
    have htruthy : (pyTruthy (Value.str rid) && rid.data.contains ':') = true := by
      rw [hrid]
      simp [pyTruthy, hridne]
    simp only [repo_query_plan, hparse]
    rw [hgo, hgf, hpo, hpf, if_neg hne1, if_neg hne2, if_neg hne3, hsel]
    dsimp only
    rw [strmk_data, hgv]
    dsimp only
    rw [if_pos htruthy]
    rfl
  · intro tbl tok hvalid
    have hcol : ∀ c ∈ tbl.data, c ≠ ':' := by
      intro c hc he
      subst he
      rw [isValidIdent] at hvalid
      cases htd : tbl.data with
      | nil =>
          rw [htd] at hc
          exact absurd hc (by simp)
      | cons c0 cs =>
          rw [htd] at hvalid hc
          dsimp only at hvalid
          simp only [Bool.and_eq_true] at hvalid
          rcases List.mem_cons.mp hc with he0 | hcs
          · rw [← he0] at hvalid
            exact absurd hvalid.1 (by decide)
          · exact absurd (List.all_eq_true.mp hvalid.2 ':' hcs) (by decide)
    rw [generate_id, idTableOf, String.data_append, String.data_append,
      show (":" : String).data = [':'] from rfl, List.append_assoc,
      List.singleton_append,
      takeWhile_append_all _ tbl.data (':' :: tok.data)
        (fun c hc => by simpa using hcol c hc),
      List.takeWhile_cons_of_neg (by decide), List.append_nil]

/-- C3 witness: the symbolic SELECT query over the variable nb bound to the
composite id notebook:x1 is rewritten to the by-id lookup on the notebook
table, and the table prefix of a generated id is the generating table. -/
theorem claim_C3_witness :
    (repo_query_plan ("SELECT * FROM $" ++ "nb") [("nb", Value.str "notebook:x1")]
      = .ok ("SELECT * FROM " ++ idTableOf "notebook:x1" ++ " WHERE id = :" ++ "nb",
          [("nb", Value.str "notebook:x1")], Value.list [], Value.list []))
    ∧ idTableOf (generate_id "notebook" "x1") = "notebook" :=
  ⟨claim_C3.1 "nb" "notebook:x1" (by decide) (by decide) (by decide) (by decide)
      (by decide),
   claim_C3.2 "notebook" "x1" (by decide)⟩

end ONote
